import Mathlib

/-!
# VNote directory model

A shallow embedding of the Directory Node of the note-taking application
(`src/vdirectory.cpp`): the in-memory tree of directories and note files, the
per-directory JSON configuration, and the operations that mutate them; and of
the parts of the File List (`src/vfilelist.cpp`) and of the Attachment List
(`src/vattachmentlist.cpp`) that work on them: the items of the list, the
clipboard payload with its nonce, import, paste and sort, and the commit of an
edited attachment name.

Conventions of the embedding

* A heap object is a value carrying its address (`addr`); a `QVector` of
  pointers is a `List` of such values, and pointer comparison is comparison of
  addresses. A directory is thus given as the tree of the states of the objects
  below it; `copyDirectory`, which changes several directories at once, gives
  each of them with the others in their final state where they lie below it.
* The disk and the allocator form the `World`, passed through every operation.
* Whether a call into the disk succeeds is decided outside the program; every
  such outcome is an explicit `Bool` argument of the operation that makes the
  call, in the order of the calls, also where the code does not look at the
  result (the removals and the reverse rename of the roll-backs).
* The case mapping `QString::toLower()` is not fixed: it is the field `toLower`
  of the context, or an argument, and the properties hold for every mapping.
* An operation returns `none` when one of its assertions (`V_ASSERT`,
  `Q_ASSERT`, the range check of a container) fails: the program stops there.
* A node stores the address of its parent, not the parent; the path that the
  code computes through the parent chain (`fetchPath()`) is part of the context
  `Ctx` of the call.
* Names follow the source. `open()` is `openDirectory`, the overloads that take
  a name are `addFileNamed` and `addSubDirectoryNamed`, and `rename` on the root
  is `renameRoot`.
-/

namespace VNote

/-! ## Toolkit values -/

/-- JSON value of the toolkit (`QJsonValue`). -/
inductive QJsonValue where
  | null
  | undefined
  | bool (b : Bool)
  | double (n : Int)
  | string (s : String)
  | array (a : List QJsonValue)
  | object (o : List (String × QJsonValue))

/-- JSON object (`QJsonObject`): keys with their values. -/
abbrev QJsonObject := List (String × QJsonValue)

/-- JSON array (`QJsonArray`). -/
abbrev QJsonArray := List QJsonValue

namespace QJsonValue

/-- Conversion `QJsonValue::toString()`: the text of a string value, else the empty text. -/
def toString : QJsonValue → String
  | string s => s
  | _ => ""

/-- Conversion `QJsonValue::toArray()`: the items of an array value, else no item. -/
def toArray : QJsonValue → QJsonArray
  | array a => a
  | _ => []

/-- Conversion `QJsonValue::toObject()`: the members of an object value, else no member. -/
def toObject : QJsonValue → QJsonObject
  | object o => o
  | _ => []

end QJsonValue

namespace QJsonObject

/-- Read access `obj[key]`: the value stored under the key, `undefined` when absent. -/
def value (o : QJsonObject) (key : String) : QJsonValue :=
  match o.find? (fun kv => kv.1 == key) with
  | some kv => kv.2
  | none => QJsonValue.undefined

/-- Membership test `obj.contains(key)`. -/
def contains (o : QJsonObject) (key : String) : Bool :=
  o.any (fun kv => kv.1 == key)

/-- Write access `obj[key] = v`: replaces the value of a present key, adds an absent one. -/
def set : QJsonObject → String → QJsonValue → QJsonObject
  | [], key, v => [(key, v)]
  | kv :: rest, key, v => if kv.1 == key then (key, v) :: rest else kv :: set rest key v

/-- The keys of the object. -/
def keys (o : QJsonObject) : List String := o.map Prod.fst

end QJsonObject

/-- Date and time (`QDateTime`), represented by its ISO-8601 text: parsing and
printing with `Qt::ISODate` belong to the toolkit and are not interpreted here. -/
structure QDateTime where
  iso : String
  deriving DecidableEq, Repr

/-- Parsing `QDateTime::fromString(s, Qt::ISODate)`. -/
def QDateTime.fromString (s : String) : QDateTime := ⟨s⟩

/-- Printing `t.toString(Qt::ISODate)`. -/
def QDateTime.toString (t : QDateTime) : String := t.iso

/-- Default-constructed value `QDateTime()`. -/
def QDateTime.null : QDateTime := ⟨""⟩

/-- A case mapping for the examples: the ASCII capital letters are lower-cased,
every other character is kept. -/
def sampleToLower (s : String) : String := String.mk (s.data.map Char.toLower)

/-- Path join `QDir(dir).filePath(name)`. -/
def filePath (dir name : String) : String := dir ++ "/" ++ name

/-! ## Vectors of the toolkit (`QVector`) -/

namespace QVector

variable {α : Type}

/-- Insertion `v.insert(i, x)` for `0 ≤ i ≤ size`. -/
def insert (i : Nat) (x : α) (v : List α) : List α := v.take i ++ x :: v.drop i

/-- Removal `v.remove(i)` for `0 ≤ i < size`. -/
def remove (i : Nat) (v : List α) : List α := v.take i ++ v.drop (i + 1)

/-- Removal of the last item, `v.removeLast()`. -/
def removeLast (v : List α) : List α := v.dropLast

/-- Move `v.move(i, j)`: the item at position `i` is taken out and put back at
position `j`; both positions must be valid, the call is refused otherwise. -/
def move (i j : Int) (v : List α) : Option (List α) :=
  if 0 ≤ i ∧ i < v.length ∧ 0 ≤ j ∧ j < v.length then
    match v[i.toNat]? with
    | some x => some (insert j.toNat x (remove i.toNat v))
    | none => none
  else none

/-- Search `v.indexOf(p)` in a vector of pointers: the position of the first
item whose address is `p`, or `-1`. -/
def indexOf (ptr : α → Nat) (p : Nat) (v : List α) : Int :=
  match v.findIdx? (fun x => ptr x == p) with
  | some i => (i : Int)
  | none => -1

end QVector

/-! ## Data model -/

/-- Kind of a file object (`FileType`); the directory model creates notes only. -/
inductive FileType where
  | Note
  | Orphan
  deriving DecidableEq, Repr

/-- Modelled from the spec: the File Node (class `VNoteFile`, declared outside
the sources at hand) with the attributes the spec lists for it; `addr` is the
address of the object and `parent` the address of its owning directory. -/
structure VNoteFile where
  addr : Nat
  parent : Option Nat
  name : String
  type : FileType
  modifiable : Bool
  createdTimeUtc : QDateTime
  modifiedTimeUtc : QDateTime
  attachmentFolder : String
  attachments : List String
  deriving DecidableEq, Repr

/-- Constructor `new VNoteFile(parent, name, type, modifiable, created, modified)`
placing the object at `addr`. -/
def VNoteFile.new (addr parent : Nat) (name : String) (type : FileType) (modifiable : Bool)
    (created modified : QDateTime) : VNoteFile :=
  { addr := addr, parent := some parent, name := name, type := type, modifiable := modifiable,
    createdTimeUtc := created, modifiedTimeUtc := modified, attachmentFolder := "",
    attachments := [] }

/-- Re-parenting `file->setParent(dir)`. -/
def VNoteFile.setParent (f : VNoteFile) (dir : Nat) : VNoteFile := { f with parent := some dir }

/-- Directory Node (`VDirectory`): its address, the address of its parent
(`none` for the root), `m_name`, `m_opened`, `m_expanded`, `m_createdTimeUtc`,
`m_subDirs` and `m_files`. -/
inductive VDirectory where
  | mk (addr : Nat) (parent : Option Nat) (name : String) (opened : Bool) (expanded : Bool)
      (createdTimeUtc : QDateTime) (subDirs : List VDirectory) (files : List VNoteFile)

namespace VDirectory

/-- Address of the object. -/
def addr : VDirectory → Nat
  | mk a _ _ _ _ _ _ _ => a

/-- Address of the parent directory (`getParentDirectory()`), `none` for the root. -/
def parent : VDirectory → Option Nat
  | mk _ p _ _ _ _ _ _ => p

/-- Field `m_name` (`getName()`). -/
def name : VDirectory → String
  | mk _ _ n _ _ _ _ _ => n

/-- Field `m_opened` (`isOpened()`). -/
def opened : VDirectory → Bool
  | mk _ _ _ o _ _ _ _ => o

/-- Field `m_expanded`. -/
def expanded : VDirectory → Bool
  | mk _ _ _ _ e _ _ _ => e

/-- Field `m_createdTimeUtc`. -/
def createdTimeUtc : VDirectory → QDateTime
  | mk _ _ _ _ _ c _ _ => c

/-- Field `m_subDirs`. -/
def subDirs : VDirectory → List VDirectory
  | mk _ _ _ _ _ _ s _ => s

/-- Field `m_files`. -/
def files : VDirectory → List VNoteFile
  | mk _ _ _ _ _ _ _ f => f

/-- Assignment to `m_name`. -/
def setName : VDirectory → String → VDirectory
  | mk a p _ o e c s f, n => mk a p n o e c s f

/-- Assignment to `m_subDirs`. -/
def setSubDirs : VDirectory → List VDirectory → VDirectory
  | mk a p n o e c _ f, s => mk a p n o e c s f

/-- Assignment to `m_files`. -/
def setFiles : VDirectory → List VNoteFile → VDirectory
  | mk a p n o e c s _, f => mk a p n o e c s f

/-- Re-parenting `dir->setParent(p)`. -/
def setParent : VDirectory → Nat → VDirectory
  | mk a _ n o e c s f, p => mk a (some p) n o e c s f

/-- Constructor `new VDirectory(notebook, name, parent, createdTimeUtc)` placing
the object at `addr`: closed, not expanded, no children. -/
def new (addr : Nat) (parent : Option Nat) (name : String) (created : QDateTime) : VDirectory :=
  mk addr parent name false false created [] []

end VDirectory

/-! ## Context and world -/

/-- Context of a call on a directory: `path` is its `fetchPath()`, `nbJson` is
`m_notebook->toConfigJsonNotebook()`, the two functions `fileFromJson` and
`fileToJson` are the record codec of the File Node, `VNoteFile::fromJson`
(arguments: address of the new object, address of the directory, record, type,
modifiable) and `VNoteFile::toConfigJson`, both defined outside the sources at
hand, and `toLower` is `QString::toLower()`, the case mapping of the toolkit. -/
structure Ctx where
  path : String
  nbJson : QJsonObject
  fileFromJson : Nat → Nat → QJsonObject → FileType → Bool → VNoteFile
  fileToJson : VNoteFile → QJsonObject
  toLower : String → String

/-- Context of the child named `name`: its path is `QDir(path).filePath(name)`. -/
def Ctx.child (cx : Ctx) (name : String) : Ctx := { cx with path := filePath cx.path name }

/-- State outside the directory tree: the persisted config of each directory
path, the files and folders present on disk, the next free address, and the
addresses of the objects deleted so far. -/
structure World where
  configs : List (String × QJsonObject)
  entries : List String
  nextAddr : Nat
  deleted : List Nat

namespace World

/-- Allocation (`new`): a fresh non-null address. -/
def alloc (w : World) : Nat × World := (w.nextAddr + 1, { w with nextAddr := w.nextAddr + 1 })

/-- Destruction (`delete p`). -/
def delete (w : World) (p : Nat) : World := { w with deleted := w.deleted ++ [p] }

/-- A file or folder comes into being at `path`. -/
def addEntry (w : World) (path : String) : World :=
  { w with entries := path :: w.entries.filter (fun e => e != path) }

/-- The file or folder at `path` goes away (a `QFile::remove` or `QDir::rmdir`
that succeeds). -/
def removeEntry (w : World) (path : String) : World :=
  { w with entries := w.entries.filter (fun e => e != path) }

/-- Whether `p` is `path` or lies below it. -/
def under (path p : String) : Bool := p == path || (path ++ "/").isPrefixOf p

/-- The folder at `path` goes away with everything below it. -/
def removeTree (w : World) (path : String) : World :=
  { w with
    entries := w.entries.filter (fun e => !under path e)
    configs := w.configs.filter (fun kv => !under path kv.1) }

/-- The place of `p` after the folder `old` has become `new`. -/
def rebase (old new p : String) : String :=
  if p == old then new
  else if (old ++ "/").isPrefixOf p then new ++ p.drop old.length
  else p

/-- The folder at `old` is renamed to `new` (`QDir::rename`): it keeps what is below it. -/
def renameTree (w : World) (old new : String) : World :=
  { w with
    entries := w.entries.map (rebase old new)
    configs := w.configs.map (fun kv => (rebase old new kv.1, kv.2)) }

end World

/-- Modelled from the spec: `VConfigManager::readDirectoryConfig`, the read of the
per-directory JSON config; a missing or unparsable config yields the empty object. -/
def readDirectoryConfig (w : World) (path : String) : QJsonObject :=
  match w.configs.find? (fun kv => kv.1 == path) with
  | some kv => kv.2
  | none => []

/-- Modelled from the spec: `VConfigManager::writeDirectoryConfig`, the full
rewrite of the config of the directory at `path`; `ok` is whether the disk
accepts the write, and a refused write leaves the persisted config as it was. -/
def writeDirectoryConfig (ok : Bool) (w : World) (path : String) (json : QJsonObject) :
    Bool × World :=
  if ok then
    (true, { w with configs := (path, json) :: w.configs.filter (fun kv => kv.1 != path) })
  else (false, w)

/-- Modelled from the spec: `VConfigManager::deleteDirectoryConfig`, the removal
of the config of the directory at `path`; `ok` is its outcome, and a refused
removal leaves the persisted config as it was. -/
def deleteDirectoryConfig (ok : Bool) (w : World) (path : String) : World :=
  if ok then { w with configs := w.configs.filter (fun kv => kv.1 != path) } else w

/-- Modelled from the spec: the keys of the per-directory config file
(`DirConfig::c_version` and the others, declared outside the sources at hand). -/
def DirConfig.c_version : String := "version"

/-- Modelled from the spec: key `created_time` of the per-directory config file. -/
def DirConfig.c_createdTime : String := "created_time"

/-- Modelled from the spec: key `sub_directories` of the per-directory config file. -/
def DirConfig.c_subDirectories : String := "sub_directories"

/-- Modelled from the spec: key `files` of the per-directory config file. -/
def DirConfig.c_files : String := "files"

/-- Modelled from the spec: key `name` of a sub-directory entry. -/
def DirConfig.c_name : String := "name"

/-! ## Operations of the Directory Node -/

namespace VDirectory

/-- The `[sub_directories]` loop of `open()`: one new closed node per array
item, named by the item and appended to `m_subDirs`. -/
def openSubDirs (self : Nat) : QJsonArray → List VDirectory → World → List VDirectory × World
  | [], subDirs, w => (subDirs, w)
  | item :: rest, subDirs, w =>
    let dirItem := item.toObject
    let dir := VDirectory.new w.alloc.1 (some self) (dirItem.value DirConfig.c_name).toString
      QDateTime.null
    openSubDirs self rest (subDirs ++ [dir]) w.alloc.2

/-- The `[files]` loop of `open()`: one File Node per array item, built by
`VNoteFile::fromJson(this, fileItem, FileType::Note, true)` and appended to `m_files`. -/
def openFiles (cx : Ctx) (self : Nat) : QJsonArray → List VNoteFile → World →
    List VNoteFile × World
  | [], files, w => (files, w)
  | item :: rest, files, w =>
    let fileItem := item.toObject
    let file := cx.fileFromJson w.alloc.1 self fileItem FileType.Note true
    openFiles cx self rest (files ++ [file]) w.alloc.2

/-- Method `VDirectory::open()`. -/
def openDirectory (cx : Ctx) (w : World) (d : VDirectory) : Option (Bool × VDirectory × World) :=
  if d.opened then some (true, d, w)
  else if d.subDirs.isEmpty && d.files.isEmpty then
    let configJson := readDirectoryConfig w cx.path
    if configJson.isEmpty then some (false, d, w)
    else
      let created := QDateTime.fromString (configJson.value DirConfig.c_createdTime).toString
      let dirJson := (configJson.value DirConfig.c_subDirectories).toArray
      let r1 := openSubDirs d.addr dirJson d.subDirs w
      let fileJson := (configJson.value DirConfig.c_files).toArray
      let r2 := openFiles cx d.addr fileJson d.files r1.2
      some (true, mk d.addr d.parent d.name true d.expanded created r1.1 r2.1, r2.2)
  else none

/-- The file loop of `close()`: each File Node is closed and deleted. -/
def closeFiles (w : World) : List VNoteFile → World
  | [] => w
  | file :: rest => closeFiles (w.delete file.addr) rest

mutual
/-- Method `VDirectory::close()`. -/
def close (w : World) : VDirectory → VDirectory × World
  | mk a p n o e c subs fs =>
    if o then (mk a p n false e c [] [], closeFiles (closeSubDirs w subs) fs)
    else (mk a p n o e c subs fs, w)
/-- The sub-directory loop of `close()`: each child is closed, then deleted. -/
def closeSubDirs (w : World) : List VDirectory → World
  | [] => w
  | dir :: rest => closeSubDirs ((close w dir).2.delete dir.addr) rest
end

/-- Method `VDirectory::toConfigJson()`. -/
def toConfigJson (cx : Ctx) (d : VDirectory) : QJsonObject :=
  let dirJson : QJsonObject := []
  let dirJson := dirJson.set DirConfig.c_version (QJsonValue.string "1")
  let dirJson := dirJson.set DirConfig.c_createdTime (QJsonValue.string d.createdTimeUtc.toString)
  let subDirs : QJsonArray :=
    d.subDirs.map (fun dir =>
      QJsonValue.object (QJsonObject.set [] DirConfig.c_name (QJsonValue.string dir.name)))
  let dirJson := dirJson.set DirConfig.c_subDirectories (QJsonValue.array subDirs)
  let files : QJsonArray := d.files.map (fun file => QJsonValue.object (cx.fileToJson file))
  dirJson.set DirConfig.c_files (QJsonValue.array files)

/-- The merge loop of `addNotebookConfig`: every key of the notebook object is
asserted absent from `p_json` and then stored in it. -/
def mergeNotebookConfig : QJsonObject → QJsonObject → Option QJsonObject
  | [], p_json => some p_json
  | kv :: rest, p_json =>
    if p_json.contains kv.1 then none else mergeNotebookConfig rest (p_json.set kv.1 kv.2)

/-- Method `VDirectory::addNotebookConfig(p_json)`. -/
def addNotebookConfig (cx : Ctx) (d : VDirectory) (p_json : QJsonObject) : Option QJsonObject :=
  if d.parent.isSome then none else mergeNotebookConfig cx.nbJson p_json

/-- Method `VDirectory::writeToConfig()`; `ok` is the outcome of the disk write. -/
def writeToConfig (ok : Bool) (cx : Ctx) (w : World) (d : VDirectory) : Option (Bool × World) :=
  let json := toConfigJson cx d
  match (if d.parent.isNone then addNotebookConfig cx d json else some json) with
  | none => none
  | some json => some (writeDirectoryConfig ok w cx.path json)

/-- The loop of `reorderFiles` for `p_destStart > p_last`: `n` times
`m_files.move(p_first, to)` (`dst` is the variable `to`). -/
def reorderAfter {α : Type} (p_first dst : Int) : Nat → List α → Option (List α)
  | 0, v => some v
  | n + 1, v =>
    match QVector.move p_first dst v with
    | none => none
    | some v1 => reorderAfter p_first dst n v1

/-- The loop of `reorderFiles` for `p_destStart < p_first`: `n` times
`m_files.move(i, to++)` with `i` advancing by one (`dst` is the variable `to`). -/
def reorderBefore {α : Type} : Nat → Int → Int → List α → Option (List α)
  | 0, _, _, v => some v
  | n + 1, i, dst, v =>
    match QVector.move i dst v with
    | none => none
    | some v1 => reorderBefore n (i + 1) (dst + 1) v1

/-- The reordering of `m_files` in `reorderFiles`; each loop runs once for every
`i` with `p_first ≤ i ≤ p_last`. -/
def reorderVector {α : Type} (p_first p_last p_destStart : Int) (v : List α) : Option (List α) :=
  if p_destStart > p_last then
    reorderAfter p_first (p_destStart - 1) (p_last - p_first + 1).toNat v
  else
    reorderBefore (p_last - p_first + 1).toNat p_first p_destStart v

/-- Method `VDirectory::reorderFiles(p_first, p_last, p_destStart)`; `writeOk` is
the outcome of the config write. -/
def reorderFiles (writeOk : Bool) (cx : Ctx) (w : World) (d : VDirectory)
    (p_first p_last p_destStart : Int) : Option (VDirectory × World) :=
  if d.opened = true ∧ p_first ≤ p_last ∧ p_last < d.files.length
      ∧ (p_destStart < p_first ∨ p_destStart > p_last)
      ∧ (p_destStart ≥ 0 ∧ p_destStart ≤ d.files.length) then
    let oriFiles := d.files
    match reorderVector p_first p_last p_destStart d.files with
    | none => none
    | some files =>
      let d1 := d.setFiles files
      match writeToConfig writeOk cx w d1 with
      | none => none
      | some (true, w1) => some (d1, w1)
      | some (false, w1) => some (d1.setFiles oriFiles, w1)
  else none

/-- Replacement of the object at address `p` in a vector of directory pointers:
every position that holds `p` shows the new state of the object. -/
def updateSubDir (p : Nat) (f : VDirectory → VDirectory) (v : List VDirectory) : List VDirectory :=
  v.map (fun dir => if dir.addr == p then f dir else dir)

mutual
/-- The tree of a directory with the object `n` shown in its current state: every
position of the tree that holds the directory at address `n.addr` holds `n`. -/
def replaceNode (n : VDirectory) : VDirectory → VDirectory
  | mk a p nm o e c subs fs =>
    if a == n.addr then n else mk a p nm o e c (replaceNodeList n subs) fs
/-- The trees of a vector of directories with the object `n` shown in its current
state. -/
def replaceNodeList (n : VDirectory) : List VDirectory → List VDirectory
  | [] => []
  | dir :: rest => replaceNode n dir :: replaceNodeList n rest
end

/-- The state of the directory `d` once the object `n` has changed: an object is
given as the tree of the states of the objects it points to, so a change of
the object `n` shows wherever `n` lies below `d`. An object that does not lie
below `d` leaves the state of `d` as it is. -/
def syncBelow (n d : VDirectory) : VDirectory := d.setSubDirs (replaceNodeList n d.subDirs)

/-- Method `VDirectory::createSubDirectory(p_name)`; `mkdirOk`, `retWriteOk` and
`selfWriteOk` are the outcomes of `dir.mkdir`, of the write of the config of the
new node and of the write of the config of the receiver; `delConfigOk` and
`rmdirOk` are the outcomes of `VConfigManager::deleteDirectoryConfig` and of the
`dir.rmdir` of the roll-back, neither of which the method checks; `now` is
`QDateTime::currentDateTimeUtc()`. -/
def createSubDirectory (mkdirOk retWriteOk selfWriteOk delConfigOk rmdirOk : Bool)
    (now : QDateTime) (cx : Ctx)
    (w : World) (d : VDirectory) (p_name : String) :
    Option (Option VDirectory × VDirectory × World) :=
  if p_name.isEmpty then none
  else
    match openDirectory cx w d with
    | none => none
    | some (false, d1, w1) => some (none, d1, w1)
    | some (true, d1, w1) =>
      let path := cx.path
      if !mkdirOk then some (none, d1, w1)
      else
        let w2 := w1.addEntry (filePath path p_name)
        let ret := VDirectory.new w2.alloc.1 (some d1.addr) p_name now
        let w3 := w2.alloc.2
        match writeToConfig retWriteOk (cx.child p_name) w3 ret with
        | none => none
        | some (false, w4) =>
          let w5 := if rmdirOk then w4.removeEntry (filePath path p_name) else w4
          some (none, d1, w5.delete ret.addr)
        | some (true, w4) =>
          let d2 := d1.setSubDirs (d1.subDirs ++ [ret])
          match writeToConfig selfWriteOk cx w4 d2 with
          | none => none
          | some (false, w5) =>
            let w6 := deleteDirectoryConfig delConfigOk w5 (filePath path p_name)
            let w7 := if rmdirOk then w6.removeEntry (filePath path p_name) else w6
            some (none, d2.setSubDirs (QVector.removeLast d2.subDirs), w7.delete ret.addr)
          | some (true, w5) => some (some ret, d2, w5)

/-- Method `VDirectory::findSubDirectory(p_name, p_caseSensitive)`. -/
def findSubDirectory (cx : Ctx) (w : World) (d : VDirectory) (p_name : String)
    (p_caseSensitive : Bool) : Option (Option VDirectory × VDirectory × World) :=
  match openDirectory cx w d with
  | none => none
  | some (false, d1, w1) => some (none, d1, w1)
  | some (true, d1, w1) =>
    let name := if p_caseSensitive then p_name else cx.toLower p_name
    some (d1.subDirs.find?
      (fun dir => name == (if p_caseSensitive then dir.name else cx.toLower dir.name)), d1, w1)

/-- Method `VDirectory::findFile(p_name, p_caseSensitive)`. -/
def findFile (cx : Ctx) (w : World) (d : VDirectory) (p_name : String)
    (p_caseSensitive : Bool) : Option (Option VNoteFile × VDirectory × World) :=
  match openDirectory cx w d with
  | none => none
  | some (false, d1, w1) => some (none, d1, w1)
  | some (true, d1, w1) =>
    let name := if p_caseSensitive then p_name else cx.toLower p_name
    some (d1.files.find?
      (fun file => name == (if p_caseSensitive then file.name else cx.toLower file.name)), d1, w1)

/-- Method `VDirectory::createFile(p_name)`; `fileOpenOk` and `writeOk` are the
outcomes of `file.open(QIODevice::WriteOnly)` and of the config write, `removeOk`
is the outcome of the `file.remove()` of the roll-back, which the method does
not check, `now` is `QDateTime::currentDateTimeUtc()`. -/
def createFile (fileOpenOk writeOk removeOk : Bool) (now : QDateTime) (cx : Ctx) (w : World)
    (d : VDirectory) (p_name : String) : Option (Option VNoteFile × VDirectory × World) :=
  if p_name.isEmpty then none
  else
    match openDirectory cx w d with
    | none => none
    | some (false, d1, w1) => some (none, d1, w1)
    | some (true, d1, w1) =>
      let path := cx.path
      if !fileOpenOk then some (none, d1, w1)
      else
        let w2 := w1.addEntry (filePath path p_name)
        let ret := VNoteFile.new w2.alloc.1 d1.addr p_name FileType.Note true now now
        let w3 := w2.alloc.2
        let d2 := d1.setFiles (d1.files ++ [ret])
        match writeToConfig writeOk cx w3 d2 with
        | none => none
        | some (false, w4) =>
          let w5 := if removeOk then w4.removeEntry (filePath path p_name) else w4
          some (none, d2.setFiles (QVector.removeLast d2.files), w5.delete ret.addr)
        | some (true, w4) => some (some ret, d2, w4)

/-- Method `VDirectory::addFile(VNoteFile *p_file, int p_index)`; `writeOk` is the
outcome of the config write. -/
def addFile (writeOk : Bool) (cx : Ctx) (w : World) (d : VDirectory) (p_file : VNoteFile)
    (p_index : Int) : Option (Bool × VDirectory × World) :=
  match openDirectory cx w d with
  | none => none
  | some (false, d1, w1) => some (false, d1, w1)
  | some (true, d1, w1) =>
    if p_index = -1 ∨ (0 ≤ p_index ∧ p_index ≤ d1.files.length) then
      let d2 := d1.setFiles
        (if p_index = -1 then d1.files ++ [p_file]
         else QVector.insert p_index.toNat p_file d1.files)
      match writeToConfig writeOk cx w1 d2 with
      | none => none
      | some (false, w2) =>
        some (false, d2.setFiles
          (if p_index = -1 then QVector.removeLast d2.files
           else QVector.remove p_index.toNat d2.files), w2)
      | some (true, w2) =>
        some (true, d2.setFiles
          (d2.files.map (fun f => if f.addr == p_file.addr then f.setParent d2.addr else f)), w2)
    else none

/-- Method `VDirectory::addFile(const QString &p_name, int p_index)`. -/
def addFileNamed (writeOk : Bool) (now : QDateTime) (cx : Ctx) (w : World) (d : VDirectory)
    (p_name : String) (p_index : Int) : Option (Option VNoteFile × VDirectory × World) :=
  match openDirectory cx w d with
  | none => none
  | some (false, d1, w1) => some (none, d1, w1)
  | some (true, d1, w1) =>
    if p_name.isEmpty then some (none, d1, w1)
    else
      let file := VNoteFile.new w1.alloc.1 d1.addr p_name FileType.Note true now now
      match addFile writeOk cx w1.alloc.2 d1 file p_index with
      | none => none
      | some (false, d2, w2) => some (none, d2, w2.delete file.addr)
      | some (true, d2, w2) => some (some file, d2, w2)

/-- Method `VDirectory::addSubDirectory(VDirectory *p_dir, int p_index)`; `writeOk`
is the outcome of the config write. -/
def addSubDirectory (writeOk : Bool) (cx : Ctx) (w : World) (d : VDirectory) (p_dir : VDirectory)
    (p_index : Int) : Option (Bool × VDirectory × World) :=
  match openDirectory cx w d with
  | none => none
  | some (false, d1, w1) => some (false, d1, w1)
  | some (true, d1, w1) =>
    if p_index = -1 ∨ (0 ≤ p_index ∧ p_index ≤ d1.subDirs.length) then
      let d2 := d1.setSubDirs
        (if p_index = -1 then d1.subDirs ++ [p_dir]
         else QVector.insert p_index.toNat p_dir d1.subDirs)
      match writeToConfig writeOk cx w1 d2 with
      | none => none
      | some (false, w2) =>
        some (false, d2.setSubDirs
          (if p_index = -1 then QVector.removeLast d2.subDirs
           else QVector.remove p_index.toNat d2.subDirs), w2)
      | some (true, w2) =>
        some (true, d2.setSubDirs
          (updateSubDir p_dir.addr (fun dir => dir.setParent d2.addr) d2.subDirs), w2)
    else none

/-- Method `VDirectory::addSubDirectory(const QString &p_name, int p_index)`. -/
def addSubDirectoryNamed (writeOk : Bool) (now : QDateTime) (cx : Ctx) (w : World)
    (d : VDirectory) (p_name : String) (p_index : Int) :
    Option (Option VDirectory × VDirectory × World) :=
  match openDirectory cx w d with
  | none => none
  | some (false, d1, w1) => some (none, d1, w1)
  | some (true, d1, w1) =>
    let dir := VDirectory.new w1.alloc.1 (some d1.addr) p_name now
    match addSubDirectory writeOk cx w1.alloc.2 d1 dir p_index with
    | none => none
    | some (false, d2, w2) => some (none, d2, w2.delete dir.addr)
    | some (true, d2, w2) => some (some dir, d2, w2)

/-- Method `VDirectory::removeSubDirectory(p_dir)`; `p_dir` is the address of the
node (`0` is the null pointer), `writeOk` the outcome of the config write. -/
def removeSubDirectory (writeOk : Bool) (cx : Ctx) (w : World) (d : VDirectory) (p_dir : Nat) :
    Option (Bool × VDirectory × World) :=
  if d.opened = true ∧ p_dir ≠ 0 then
    let index := QVector.indexOf VDirectory.addr p_dir d.subDirs
    if index ≠ -1 then
      let d1 := d.setSubDirs (QVector.remove index.toNat d.subDirs)
      match writeToConfig writeOk cx w d1 with
      | none => none
      | some (r, w1) => some (r, d1, w1)
    else none
  else none

/-- Method `VDirectory::removeFile(p_file)`; `p_file` is the address of the file
(`0` is the null pointer), `writeOk` the outcome of the config write. -/
def removeFile (writeOk : Bool) (cx : Ctx) (w : World) (d : VDirectory) (p_file : Nat) :
    Option (Bool × VDirectory × World) :=
  if d.opened = true ∧ p_file ≠ 0 then
    let index := QVector.indexOf VNoteFile.addr p_file d.files
    if index ≠ -1 then
      let d1 := d.setFiles (QVector.remove index.toNat d.files)
      match writeToConfig writeOk cx w d1 with
      | none => none
      | some (r, w1) => some (r, d1, w1)
    else none
  else none

/-- Modelled from the spec: `VUtils::deleteDirectory`, the Recycle-Bin relocator,
which takes the directory tree at `path` away from its place, for good or into
the recycle bin; `ok` is its outcome. -/
def deleteDirectory (ok : Bool) (w : World) (path : String) (_p_skipRecycleBin : Bool) : World :=
  if ok then w.removeTree path else w

/-- Method `VDirectory::deleteSubDirectory(p_subDir, p_skipRecycleBin)`; `p_subDir`
is the address of a child of the receiver, `removeWriteOk` and `deleteOk` are the
outcomes of the config write in `removeSubDirectory` and of `VUtils::deleteDirectory`. -/
def deleteSubDirectory (removeWriteOk deleteOk : Bool) (cx : Ctx) (w : World) (d : VDirectory)
    (p_subDir : Nat) (p_skipRecycleBin : Bool) : Option (VDirectory × World) :=
  match d.subDirs.find? (fun dir => dir.addr == p_subDir) with
  | none => none
  | some subDir =>
    let dirPath := filePath cx.path subDir.name
    let w1 := (close w subDir).2
    let d1 := d.setSubDirs (updateSubDir p_subDir (fun dir => (close w dir).1) d.subDirs)
    match removeSubDirectory removeWriteOk cx w1 d1 p_subDir with
    | none => none
    | some (_, d2, w2) => some (d2, (deleteDirectory deleteOk w2 dirPath p_skipRecycleBin).delete p_subDir)

/-- Method `VDirectory::rename(p_name)` of a directory that has a parent: the
receiver is the child at address `self` of `parentDir`, whose context is `pcx`;
`renameOk` and `writeOk` are the outcomes of `dir.rename` and of the write of the
config of the parent, `backOk` is the outcome of the `dir.rename` of the
roll-back, which the method does not check. The result carries the parent, the
receiver inside it. -/
def rename (renameOk writeOk backOk : Bool) (pcx : Ctx) (w : World) (parentDir : VDirectory)
    (self : Nat) (p_name : String) : Option (Bool × VDirectory × World) :=
  match parentDir.subDirs.find? (fun dir => dir.addr == self) with
  | none => none
  | some me =>
    if me.name == p_name then some (true, parentDir, w)
    else
      let oldName := me.name
      if !renameOk then some (false, parentDir, w)
      else
        let w1 := w.renameTree (filePath pcx.path oldName) (filePath pcx.path p_name)
        let p1 := parentDir.setSubDirs
          (updateSubDir self (fun dir => dir.setName p_name) parentDir.subDirs)
        match writeToConfig writeOk pcx w1 p1 with
        | none => none
        | some (false, w2) =>
          some (false,
            p1.setSubDirs (updateSubDir self (fun dir => dir.setName oldName) p1.subDirs),
            if backOk then w2.renameTree (filePath pcx.path p_name) (filePath pcx.path oldName)
            else w2)
        | some (true, w2) => some (true, p1, w2)

/-- Method `VDirectory::rename(p_name)` of the root directory, which has no
parent: nothing to do for the current name, and the assertion on the parent
stops any other call. -/
def renameRoot (d : VDirectory) (p_name : String) : Option (Bool × VDirectory) :=
  if d.name == p_name then some (true, d) else none

/-- Method `VDirectory::tryLoadFile(p_filePath)`; `caseSensitive` is the platform
constant of the method (false on Windows). The in-out path list is not returned. -/
def tryLoadFile (caseSensitive : Bool) (cx : Ctx) (w : World) (d : VDirectory) :
    List String → Option (Option VNoteFile × VDirectory × World)
  | [] => some (none, d, w)
  | seg :: rest =>
    let opened := d.opened
    match openDirectory cx w d with
    | none => none
    | some (false, d1, w1) => some (none, d1, w1)
    | some (true, d1, w1) =>
      let found : Option (Option VNoteFile × VDirectory × World) :=
        match rest with
        | [] => findFile cx w1 d1 seg caseSensitive
        | _ :: _ =>
          match findSubDirectory cx w1 d1 seg caseSensitive with
          | none => none
          | some (none, d2, w2) => some (none, d2, w2)
          | some (some dir, d2, w2) =>
            match tryLoadFile caseSensitive (cx.child dir.name) w2 dir rest with
            | none => none
            | some (file, dir1, w3) =>
              some (file, d2.setSubDirs (updateSubDir dir.addr (fun _ => dir1) d2.subDirs), w3)
      match found with
      | none => none
      | some (file, d3, w3) =>
        if file.isNone && !opened then
          let r := close w3 d3
          some (file, r.1, r.2)
        else some (file, d3, w3)

end VDirectory

/-- The items of `v` at the positions `a ≤ i < b`. -/
def QVector.seg {α : Type} (a b : Nat) (v : List α) : List α := (v.take b).drop a

/-- The sequence that the contract of `reorderFiles` states: `L` with the run
`L[first..last]` taken out and put back, in its order, right before the item
that was at index `destStart`. -/
def reorderedAsStated {α : Type} (first last destStart : Nat) (L : List α) : List α :=
  if destStart < first then
    L.take destStart ++ (QVector.seg first (last + 1) L
      ++ (QVector.seg destStart first L ++ L.drop (last + 1)))
  else
    L.take first ++ (QVector.seg (last + 1) destStart L
      ++ (QVector.seg first (last + 1) L ++ L.drop destStart))

/-- A sample file record codec: a record holds the name of the file. -/
def sampleCtx : Ctx :=
  { path := "/nb"
    nbJson := []
    fileFromJson := fun a p json t m =>
      VNoteFile.new a p (QJsonObject.value json "name").toString t m QDateTime.null QDateTime.null
    fileToJson := fun f => [("name", QJsonValue.string f.name)]
    toLower := sampleToLower }

/-- An empty disk. -/
def sampleWorld : World := { configs := [], entries := [], nextAddr := 100, deleted := [] }

/-- A sample note at address `a` named `n`, owned by the directory at address 1. -/
def sampleFile (a : Nat) (n : String) : VNoteFile :=
  VNoteFile.new a 1 n FileType.Note true QDateTime.null QDateTime.null

/-- An opened root directory holding the notes A, B, C, D, E. -/
def sampleDir : VDirectory :=
  VDirectory.mk 1 none "nb" true false QDateTime.null []
    [sampleFile 2 "A", sampleFile 3 "B", sampleFile 4 "C", sampleFile 5 "D", sampleFile 6 "E"]

namespace VDirectory

mutual
/-- The nodes of the tree rooted at a directory: the directory and every
directory below it. -/
def nodes : VDirectory → List VDirectory
  | mk a p n o e c subs fs => mk a p n o e c subs fs :: nodesOfList subs
/-- The nodes of the trees rooted at the directories of a list. -/
def nodesOfList : List VDirectory → List VDirectory
  | [] => []
  | dir :: rest => nodes dir ++ nodesOfList rest
end

mutual
/-- The addresses of the objects below a directory, every object after the
objects below it: for each child the objects below the child and then the
child, then the files. -/
def objectsBelow : VDirectory → List Nat
  | mk _ _ _ _ _ _ subs fs => objectsBelowList subs ++ fs.map VNoteFile.addr
/-- The addresses of the directories of a list and of the objects below them. -/
def objectsBelowList : List VDirectory → List Nat
  | [] => []
  | dir :: rest => (objectsBelow dir ++ [dir.addr]) ++ objectsBelowList rest
end

/-- The state invariant of one node: a node that is not opened has no child
directory and no file. -/
def ClosedEmpty (n : VDirectory) : Prop :=
  n.opened = false → n.subDirs = [] ∧ n.files = []

end VDirectory

/-- A config with one sub-directory entry and two file records. -/
def sampleConfig : QJsonObject :=
  [("version", QJsonValue.string "1"),
   ("created_time", QJsonValue.string "2020-01-01T00:00:00Z"),
   ("sub_directories", QJsonValue.array [QJsonValue.object [("name", QJsonValue.string "sub")]]),
   ("files", QJsonValue.array [QJsonValue.object [("name", QJsonValue.string "a.md")],
      QJsonValue.object [("name", QJsonValue.string "b.md")]])]

/-- A disk that holds `sampleConfig` for the directory `/nb`. -/
def sampleDisk : World :=
  { configs := [("/nb", sampleConfig)], entries := ["/nb"], nextAddr := 100, deleted := [] }

/-- A freshly constructed root directory: closed, no children. -/
def sampleClosed : VDirectory := VDirectory.new 1 none "nb" QDateTime.null

/-- An opened root with an opened child `sub` (one note, one closed child of its
own), a closed child `tmp`, and one note. -/
def sampleTree : VDirectory :=
  VDirectory.mk 1 none "nb" true false QDateTime.null
    [VDirectory.mk 2 (some 1) "sub" true false QDateTime.null
        [VDirectory.new 3 (some 2) "deep" QDateTime.null]
        [VNoteFile.new 4 2 "x.md" FileType.Note true QDateTime.null QDateTime.null],
     VDirectory.new 5 (some 1) "tmp" QDateTime.null]
    [VNoteFile.new 6 1 "y.md" FileType.Note true QDateTime.null QDateTime.null]

/-- A disk that holds, for `/nb`, the config that `sampleTree` writes. -/
def sampleSaved : World :=
  { configs := [("/nb", VDirectory.toConfigJson sampleCtx sampleTree)], entries := ["/nb"],
    nextAddr := 100, deleted := [] }

namespace VDirectory

mutual
/-- One call of an operation of the Directory Node, as a change of the tree
rooted at the receiver, for any context, any world and any outcome of the
disk. A call on a directory below the receiver changes that child inside the
receiver (`inChild`). A node handed to `addSubDirectory` is itself a reachable
Directory Node. Each call stays within its assertions: it returns `some`. -/
inductive Step : VDirectory → VDirectory → Prop
  | openDirectory {d d1 : VDirectory} {cx : Ctx} {w w1 : World} {r : Bool} :
      openDirectory cx w d = some (r, d1, w1) → Step d d1
  | close {d : VDirectory} {w : World} : Step d (close w d).1
  | createSubDirectory {d d1 : VDirectory} {cx : Ctx} {w w1 : World}
      {mkdirOk retWriteOk selfWriteOk delConfigOk rmdirOk : Bool} {now : QDateTime} {p_name : String}
      {r : Option VDirectory} :
      createSubDirectory mkdirOk retWriteOk selfWriteOk delConfigOk rmdirOk now cx w d p_name = some (r, d1, w1) →
      Step d d1
  | createFile {d d1 : VDirectory} {cx : Ctx} {w w1 : World} {fileOpenOk writeOk removeOk : Bool}
      {now : QDateTime} {p_name : String} {r : Option VNoteFile} :
      createFile fileOpenOk writeOk removeOk now cx w d p_name = some (r, d1, w1) → Step d d1
  | addFile {d d1 : VDirectory} {cx : Ctx} {w w1 : World} {writeOk : Bool}
      {p_file : VNoteFile} {p_index : Int} {r : Bool} :
      addFile writeOk cx w d p_file p_index = some (r, d1, w1) → Step d d1
  | addFileNamed {d d1 : VDirectory} {cx : Ctx} {w w1 : World} {writeOk : Bool}
      {now : QDateTime} {p_name : String} {p_index : Int} {r : Option VNoteFile} :
      addFileNamed writeOk now cx w d p_name p_index = some (r, d1, w1) → Step d d1
  | addSubDirectory {d d1 p_dir : VDirectory} {cx : Ctx} {w w1 : World} {writeOk : Bool}
      {p_index : Int} {r : Bool} :
      Reachable p_dir → addSubDirectory writeOk cx w d p_dir p_index = some (r, d1, w1) →
      Step d d1
  | addSubDirectoryNamed {d d1 : VDirectory} {cx : Ctx} {w w1 : World} {writeOk : Bool}
      {now : QDateTime} {p_name : String} {p_index : Int} {r : Option VDirectory} :
      addSubDirectoryNamed writeOk now cx w d p_name p_index = some (r, d1, w1) → Step d d1
  | removeSubDirectory {d d1 : VDirectory} {cx : Ctx} {w w1 : World} {writeOk : Bool}
      {p_dir : Nat} {r : Bool} :
      removeSubDirectory writeOk cx w d p_dir = some (r, d1, w1) → Step d d1
  | removeFile {d d1 : VDirectory} {cx : Ctx} {w w1 : World} {writeOk : Bool}
      {p_file : Nat} {r : Bool} :
      removeFile writeOk cx w d p_file = some (r, d1, w1) → Step d d1
  | deleteSubDirectory {d d1 : VDirectory} {cx : Ctx} {w w1 : World}
      {removeWriteOk deleteOk : Bool} {p_subDir : Nat} {p_skipRecycleBin : Bool} :
      deleteSubDirectory removeWriteOk deleteOk cx w d p_subDir p_skipRecycleBin
        = some (d1, w1) → Step d d1
  | rename {d d1 : VDirectory} {pcx : Ctx} {w w1 : World} {renameOk writeOk backOk : Bool}
      {self : Nat} {p_name : String} {r : Bool} :
      rename renameOk writeOk backOk pcx w d self p_name = some (r, d1, w1) → Step d d1
  | renameRoot {d d1 : VDirectory} {p_name : String} {r : Bool} :
      renameRoot d p_name = some (r, d1) → Step d d1
  | reorderFiles {d d1 : VDirectory} {cx : Ctx} {w w1 : World} {writeOk : Bool}
      {p_first p_last p_destStart : Int} :
      reorderFiles writeOk cx w d p_first p_last p_destStart = some (d1, w1) → Step d d1
  | findFile {d d1 : VDirectory} {cx : Ctx} {w w1 : World} {p_name : String}
      {p_caseSensitive : Bool} {r : Option VNoteFile} :
      findFile cx w d p_name p_caseSensitive = some (r, d1, w1) → Step d d1
  | findSubDirectory {d d1 : VDirectory} {cx : Ctx} {w w1 : World} {p_name : String}
      {p_caseSensitive : Bool} {r : Option VDirectory} :
      findSubDirectory cx w d p_name p_caseSensitive = some (r, d1, w1) → Step d d1
  | tryLoadFile {d d1 : VDirectory} {cx : Ctx} {w w1 : World} {caseSensitive : Bool}
      {p_filePath : List String} {r : Option VNoteFile} :
      tryLoadFile caseSensitive cx w d p_filePath = some (r, d1, w1) → Step d d1
  | inChild {d c c1 : VDirectory} :
      c ∈ d.subDirs → Step c c1 →
      Step d (d.setSubDirs (updateSubDir c.addr (fun _ => c1) d.subDirs))
/-- The states of a Directory Node that a sequence of calls reaches from a
freshly constructed node; a child of such a node is such a node too. -/
inductive Reachable : VDirectory → Prop
  | fresh (addr : Nat) (parent : Option Nat) (name : String) (created : QDateTime) :
      Reachable (VDirectory.new addr parent name created)
  | step {d d1 : VDirectory} : Reachable d → Step d d1 → Reachable d1
  | sub {d c : VDirectory} : Reachable d → c ∈ d.subDirs → Reachable c
end

/-- The state invariant of a tree: every node of it that is not opened has no
child directory and no file. -/
def ClosedEmptyTree (d : VDirectory) : Prop := ∀ n ∈ nodes d, ClosedEmpty n

end VDirectory

/-- The root that `open()` builds from `sampleConfig` on `sampleDisk`. -/
def sampleOpened : VDirectory :=
  VDirectory.mk 1 none "nb" true false (QDateTime.fromString "2020-01-01T00:00:00Z")
    [VDirectory.new 101 (some 1) "sub" QDateTime.null]
    [VNoteFile.new 102 1 "a.md" FileType.Note true QDateTime.null QDateTime.null,
     VNoteFile.new 103 1 "b.md" FileType.Note true QDateTime.null QDateTime.null]

/-- Whether the assertion of `addNotebookConfig` holds when the directory writes
its config: a directory with a parent does not merge the notebook keys, and for
the root no notebook key is a key of the directory config or occurs twice. -/
def VDirectory.configWritable (cx : Ctx) (d : VDirectory) : Bool :=
  d.parent.isSome || (VDirectory.mergeNotebookConfig cx.nbJson (VDirectory.toConfigJson cx d)).isSome

/-- Conversion `QJsonValue::toInt()`: the number of a numeric value that fits an
`int`, else the default 0. -/
def QJsonValue.toInt : QJsonValue → Int
  | QJsonValue.double n => if -2147483648 ≤ n ∧ n ≤ 2147483647 then n else 0
  | _ => 0

/-- Conversion `QJsonValue::toBool()`: the flag of a boolean value, else false. -/
def QJsonValue.toBool : QJsonValue → Bool
  | QJsonValue.bool b => b
  | _ => false

/-- A copy of the folder at `src`, with everything below it, comes into being at
`dst`. -/
def World.copyTree (w : World) (src dst : String) : World :=
  { w with
    entries := w.entries ++ (w.entries.filter (World.under src)).map (World.rebase src dst)
    configs := w.configs ++ (w.configs.filter (fun kv => World.under src kv.1)).map
      (fun kv => (World.rebase src dst kv.1, kv.2)) }

/-- Modelled from the spec: `VUtils::copyDirectory(src, dest, isCut)`, which
physically copies the directory tree, or moves it when `isCut`; `ok` is its
outcome, and a refused copy leaves the disk as it was. -/
def copyDirectoryOnDisk (ok : Bool) (w : World) (src dst : String) (isCut : Bool) : World :=
  if ok then (if isCut then w.renameTree src dst else w.copyTree src dst) else w

/-- The parent of the source directory of `copyDirectory`, as
`p_srcDir->getParentDirectory()` yields it: none (the source is a root), the
object `p_destDir` itself, or another object, given with its context. -/
inductive SrcParent where
  | root
  | dest
  | other (parentDir : VDirectory) (pcx : Ctx)

/-- What `copyDirectory` leaves: the node it returns (`none` is NULL) and the
states of the objects it works on, each with its own fields. -/
structure CopyOutcome where
  ret : Option VDirectory
  destDir : VDirectory
  srcParentDir : SrcParent
  srcDir : VDirectory
  world : World

/-- The state of the parent of the source once the object `n` has changed: the
change shows where `n` lies below a parent that is an object of its own. -/
def SrcParent.syncBelow (n : VDirectory) : SrcParent → SrcParent
  | SrcParent.root => SrcParent.root
  | SrcParent.dest => SrcParent.dest
  | SrcParent.other parentDir pcx => SrcParent.other (VDirectory.syncBelow n parentDir) pcx

namespace VDirectory

/-- Static method `VDirectory::copyDirectory(p_destDir, p_destName, p_srcDir, p_cut)`.
`cleanPath` and `equalPath` are `QDir::cleanPath` and `VUtils::equalPath`;
`srcPath` is `p_srcDir->fetchPath()` and `dcx` the context of `p_destDir`;
`copyOk`, `removeWriteOk` and `addWriteOk` are the outcomes of the physical copy,
of the config write of the source parent and of the config write of the
destination. The method works on up to three objects that point to one
another: the destination, the source and the parent of the source. They are
given by their states, each being the tree of the states below it, and the
outcome gives each of them in its state after the call: a renaming or
re-parenting of the source shows at every position of the two sequences that
holds it, the changed parent shows where it lies below the destination, and
the changed destination shows where it lies below the parent or, for a copy,
below the source. The states are finite trees: a move of a directory to a
place below itself, which would leave a cycle of pointers, is not among the
states they can show. -/
def copyDirectory (cleanPath : String → String) (equalPath : String → String → Bool)
    (copyOk removeWriteOk addWriteOk : Bool) (now : QDateTime) (dcx : Ctx) (w : World)
    (p_destDir : VDirectory) (p_destName : String) (srcPath : String)
    (srcParentDir : SrcParent) (p_srcDir : VDirectory) (p_cut : Bool) : Option CopyOutcome :=
  let srcPath := cleanPath srcPath
  let destPath := cleanPath (filePath dcx.path p_destName)
  if equalPath srcPath destPath then
    some { ret := some p_srcDir, destDir := p_destDir, srcParentDir := srcParentDir,
           srcDir := p_srcDir, world := w }
  else
    let w1 := copyDirectoryOnDisk copyOk w srcPath destPath p_cut
    if !copyOk then
      some { ret := none, destDir := p_destDir, srcParentDir := srcParentDir,
             srcDir := p_srcDir, world := w1 }
    else if p_cut then
      match srcParentDir with
      | SrcParent.root => none
      | SrcParent.dest =>
        match removeSubDirectory removeWriteOk dcx w1 p_destDir p_srcDir.addr with
        | none => none
        | some (_, dest1, w2) =>
          let src1 := p_srcDir.setName p_destName
          let dest2 := dest1.setSubDirs
            (updateSubDir p_srcDir.addr (fun dir => dir.setName p_destName) dest1.subDirs)
          match addSubDirectory addWriteOk dcx w2 dest2 src1 (-1) with
          | none => none
          | some (true, dest3, w3) =>
            some { ret := some (src1.setParent dest3.addr), destDir := dest3,
                   srcParentDir := SrcParent.dest, srcDir := src1.setParent dest3.addr,
                   world := w3 }
          | some (false, dest3, w3) =>
            some { ret := none, destDir := dest3, srcParentDir := SrcParent.dest,
                   srcDir := src1, world := w3 }
      | SrcParent.other parentDir pcx =>
        match removeSubDirectory removeWriteOk pcx w1 parentDir p_srcDir.addr with
        | none => none
        | some (_, parent1, w2) =>
          let src1 := p_srcDir.setName p_destName
          let parent2 := parent1.setSubDirs
            (updateSubDir p_srcDir.addr (fun dir => dir.setName p_destName) parent1.subDirs)
          let dest1 := p_destDir.setSubDirs
            (updateSubDir p_srcDir.addr (fun dir => dir.setName p_destName) p_destDir.subDirs)
          match addSubDirectory addWriteOk dcx w2 dest1 src1 (-1) with
          | none => none
          | some (true, dest2, w3) =>
            let parent3 := parent2.setSubDirs
              (updateSubDir p_srcDir.addr (fun dir => dir.setParent dest2.addr) parent2.subDirs)
            some { ret := some (src1.setParent dest2.addr), destDir := syncBelow parent3 dest2,
                   srcParentDir := SrcParent.other (syncBelow dest2 parent3) pcx,
                   srcDir := src1.setParent dest2.addr, world := w3 }
          | some (false, dest2, w3) =>
            some { ret := none, destDir := syncBelow parent2 dest2,
                   srcParentDir := SrcParent.other (syncBelow dest2 parent2) pcx,
                   srcDir := src1, world := w3 }
    else
      match addSubDirectoryNamed addWriteOk now dcx w1 p_destDir p_destName (-1) with
      | none => none
      | some (r, dest1, w2) =>
        some { ret := r, destDir := dest1, srcParentDir := srcParentDir.syncBelow dest1,
               srcDir := syncBelow dest1 p_srcDir, world := w2 }

end VDirectory

/-! ## Clipboard checks of the File List -/

/-- Modelled from the spec: key `magic` of the clipboard payload
(`ClipboardConfig::c_magic`, declared outside the sources at hand). -/
def ClipboardConfig.c_magic : String := "magic"

/-- Modelled from the spec: key `type` of the clipboard payload. -/
def ClipboardConfig.c_type : String := "type"

/-- Modelled from the spec: key `is_cut` of the clipboard payload. -/
def ClipboardConfig.c_isCut : String := "is_cut"

/-- Modelled from the spec: key `files` of the clipboard payload. -/
def ClipboardConfig.c_files : String := "files"

/-- Modelled from the spec: the number of `ClipboardOpType::CopyFile`, which the
payload format gives as 0. -/
def ClipboardOpType.CopyFile : Int := 0

namespace VFileList

/-- Method `VFileList::checkMagic(p_magic)`; `m_magicForClipboard` is the nonce of
the session. -/
def checkMagic (m_magicForClipboard p_magic : Int) : Bool :=
  m_magicForClipboard == p_magic

/-- Method `VFileList::pasteAvailable()`; `obj` is `VUtils::clipboardToJson()`, the
clipboard text read as a JSON object. -/
def pasteAvailable (m_magicForClipboard : Int) (obj : QJsonObject) : Bool :=
  if obj.isEmpty then false
  else if !obj.contains ClipboardConfig.c_type then false
  else
    let type := (obj.value ClipboardConfig.c_type).toInt
    if type != ClipboardOpType.CopyFile then false
    else if !obj.contains ClipboardConfig.c_magic
        || !obj.contains ClipboardConfig.c_isCut
        || !obj.contains ClipboardConfig.c_files then false
    else
      let magic := (obj.value ClipboardConfig.c_magic).toInt
      if !checkMagic m_magicForClipboard magic then false
      else
        let files := (obj.value ClipboardConfig.c_files).toArray
        !files.isEmpty

end VFileList

/-- A well-formed clipboard payload with magic 41, for one file. -/
def samplePayload : QJsonObject :=
  [("magic", QJsonValue.double 41), ("type", QJsonValue.double 0),
   ("is_cut", QJsonValue.bool false),
   ("files", QJsonValue.array [QJsonValue.string "/nb/a.md"])]

/-- The matching rule that the contract of `findFile` and `findSubDirectory`
states: equal names when case-sensitive, equal lower-cased names otherwise;
`toLower` is the case mapping of the toolkit. -/
def nameMatches (toLower : String → String) (caseSensitive : Bool) (p_name candidate : String) :
    Bool :=
  if caseSensitive then candidate == p_name else toLower candidate == toLower p_name

/-- An opened directory that holds the note `Note.md` and the folder `Docs`. -/
def sampleNoteDir : VDirectory :=
  VDirectory.mk 1 none "nb" true false QDateTime.null
    [VDirectory.new 3 (some 1) "Docs" QDateTime.null]
    [sampleFile 2 "Note.md"]

/-- A note N at address 9 that belongs to another directory (address 7). -/
def sampleForeignFile : VNoteFile :=
  VNoteFile.new 9 7 "N" FileType.Note true QDateTime.null QDateTime.null

/-- A disk on which the folders of `sampleTree` exist. -/
def sampleFolders : World :=
  { configs := [("/nb", VDirectory.toConfigJson sampleCtx sampleTree)],
    entries := ["/nb", "/nb/sub", "/nb/tmp"], nextAddr := 100, deleted := [] }

/-- The child `sub` of `sampleTree`: opened, one note, one closed child `deep`. -/
def sampleSub : VDirectory :=
  VDirectory.mk 2 (some 1) "sub" true false QDateTime.null
    [VDirectory.new 3 (some 2) "deep" QDateTime.null]
    [VNoteFile.new 4 2 "x.md" FileType.Note true QDateTime.null QDateTime.null]

/-- The child `deep` of `sampleSub`. -/
def sampleDeep : VDirectory := VDirectory.new 3 (some 2) "deep" QDateTime.null

/-- Path equality by equal text, for paths that are already clean. -/
def sampleEqualPath (a b : String) : Bool := a == b

/-- The context of `sampleSub` inside `sampleTree`. -/
def sampleSubCtx : Ctx := sampleCtx.child "sub"

/-- A disk with a config for `/nb`, which lists the child `sub`, and a config
for `/nb/sub`, which lists the single note `x.md`. -/
def sampleNested : World :=
  { configs := [("/nb", sampleConfig),
      ("/nb/sub", [("version", QJsonValue.string "1"),
        ("created_time", QJsonValue.string "2020-01-02T00:00:00Z"),
        ("sub_directories", QJsonValue.array []),
        ("files", QJsonValue.array [QJsonValue.object [("name", QJsonValue.string "x.md")]])])],
    entries := ["/nb", "/nb/sub"], nextAddr := 100, deleted := [] }

/-- No node of `d1` is opened unless the node of `d` at the same address was:
`d1` has the opened flag and the address of `d`, and every opened node of the
tree `d1` has an opened node of the tree `d` at its address. -/
def NoResidualOpen (d d1 : VDirectory) : Prop :=
  d1.opened = d.opened ∧ d1.addr = d.addr ∧
    ∀ n ∈ VDirectory.nodes d1, n.opened = true →
      ∃ m ∈ VDirectory.nodes d, m.addr = n.addr ∧ m.opened = true

/-! ## The File List (`src/vfilelist.cpp`) -/

/-- Item of a list widget (`QListWidgetItem`): the data stored under
`Qt::UserRole` (for the File List the address of a File Node), the tool tip and
the text. -/
structure QListWidgetItem where
  data : Nat
  toolTip : String
  text : String
  deriving DecidableEq, Repr

/-- Default-constructed item, `new QListWidgetItem()`. -/
def QListWidgetItem.new : QListWidgetItem := { data := 0, toolTip := "", text := "" }

namespace VFileList

/-- Method `VFileList::fillItem(p_item, p_file)`. -/
def fillItem (p_item : QListWidgetItem) (p_file : VNoteFile) : QListWidgetItem :=
  { p_item with data := p_file.addr, toolTip := p_file.name, text := p_file.name }

/-- Modelled from the spec: `getVFile(item)` (inline in the header, outside the
sources at hand), the pointer that `fillItem` stored in the item. -/
def getVFile (item : QListWidgetItem) : Nat := item.data

/-- Method `VFileList::insertFileListItem(file, atFront)` on the items `fileList`
of the widget: the new item and the items afterwards; `V_ASSERT(file)` refuses
the null pointer. -/
def insertFileListItem (fileList : List QListWidgetItem) (file : VNoteFile) (atFront : Bool) :
    Option (QListWidgetItem × List QListWidgetItem) :=
  if file.addr = 0 then none
  else
    let item := fillItem QListWidgetItem.new file
    if atFront then some (item, QVector.insert 0 item fileList)
    else some (item, fileList ++ [item])

/-- The loop of `updateFileList()`: one `insertFileListItem(file)` per file, the
flag `atFront` left at its default, which is false. -/
def updateFileListLoop : List VNoteFile → List QListWidgetItem → Option (List QListWidgetItem)
  | [], fileList => some fileList
  | file :: rest, fileList =>
    match insertFileListItem fileList file false with
    | none => none
    | some (_, fileList1) => updateFileListLoop rest fileList1

/-- Method `VFileList::updateFileList()`: the items afterwards, with the
directory `m_directory` and the world as `open()` leaves them. -/
def updateFileList (cx : Ctx) (w : World) (m_directory : VDirectory) :
    Option (List QListWidgetItem × VDirectory × World) :=
  match VDirectory.openDirectory cx w m_directory with
  | none => none
  | some (false, d1, w1) => some ([], d1, w1)
  | some (true, d1, w1) =>
    match updateFileListLoop d1.files [] with
    | none => none
    | some fileList => some (fileList, d1, w1)

/-- The loop of `updateFileListAdded()`: `files` are the files from index `i` on,
`ret` the items collected so far, `fileList` the items of the widget. -/
def updateFileListAddedLoop :
    List VNoteFile → Nat → List QListWidgetItem → List QListWidgetItem →
      Option (List QListWidgetItem × List QListWidgetItem)
  | [], _, ret, fileList => some (ret, fileList)
  | file :: rest, i, ret, fileList =>
    if i ≥ fileList.length then
      match insertFileListItem fileList file false with
      | none => none
      | some (item, fileList1) => updateFileListAddedLoop rest (i + 1) (ret ++ [item]) fileList1
    else
      match fileList[i]? with
      | none => none
      | some shown =>
        if getVFile shown != file.addr then
          match insertFileListItem fileList file false with
          | none => none
          | some (item, fileList1) =>
            updateFileListAddedLoop rest (i + 1) (ret ++ [item]) fileList1
        else updateFileListAddedLoop rest (i + 1) ret fileList

/-- Method `VFileList::updateFileListAdded()`: the returned vector and the items
of the widget afterwards. -/
def updateFileListAdded (m_directory : VDirectory) (fileList : List QListWidgetItem) :
    Option (List QListWidgetItem × List QListWidgetItem) :=
  updateFileListAddedLoop m_directory.files 0 [] fileList

end VFileList

/-- The item that the File List builds for a file. -/
def sampleItem (a : Nat) (n : String) : QListWidgetItem := { data := a, toolTip := n, text := n }

/-- The calls `m_files.move(from, to)` that the loop of `reorderFiles` for
`p_destStart < p_first` makes, in order: `n` calls, starting with `(i, dst)`,
both arguments advancing by one. -/
def movesBefore : Nat → Int → Int → List (Int × Int)
  | 0, _, _ => []
  | n + 1, i, dst => (i, dst) :: movesBefore n (i + 1) (dst + 1)

/-- The calls `m_files.move(from, to)` that `reorderFiles` makes, in order: for
`p_destStart > p_last` the call `move(p_first, p_destStart - 1)` once for every
`i` with `p_first ≤ i ≤ p_last`, else the calls `move(i, to++)`. -/
def reorderMoves (p_first p_last p_destStart : Int) : List (Int × Int) :=
  if p_destStart > p_last then
    List.replicate (p_last - p_first + 1).toNat (p_first, p_destStart - 1)
  else
    movesBefore (p_last - p_first + 1).toNat p_first p_destStart

/-- The calls of a list made one after the other on a vector; a refused call
stops the run. -/
def applyMoves {α : Type} : List (Int × Int) → List α → Option (List α)
  | [], v => some v
  | m :: rest, v =>
    match QVector.move m.1 m.2 v with
    | none => none
    | some v1 => applyMoves rest v1

/-- A context of the root in a notebook whose notebook-level config holds the
two keys `image_folder` and `recycle_bin_folder`. -/
def sampleNotebookCtx : Ctx :=
  { sampleCtx with
    nbJson := [("image_folder", QJsonValue.string "_v_images"),
      ("recycle_bin_folder", QJsonValue.string "_v_recycle_bin")] }

/-- The value that an `int` holds after the conversion of `x` to `int`
(two's complement, 32 bits). -/
def toInt32 (x : Int) : Int := (x + 2147483648) % 4294967296 - 2147483648

/-- State of the File List widget: `m_directory` (`none` is the null pointer;
the directory is given with its state), the items of `fileList`, the nonce
`m_magicForClipboard`, and the text of the clipboard, represented by the JSON
object that `VUtils::clipboardToJson()` reads from it (the empty object for a
cleared clipboard). -/
structure VFileList where
  m_directory : Option VDirectory
  fileList : List QListWidgetItem
  m_magicForClipboard : Int
  clipboard : QJsonObject

namespace VFileList

/-- Method `VFileList::getNewMagic()`, the new value of `m_magicForClipboard`:
`time` is `QDateTime::currentDateTime().toTime_t()` and `rnd` is `qrand()`; the
member is an `int`. -/
def getNewMagic (time : Nat) (rnd : Int) : Int := toInt32 (Int.lor (toInt32 time) rnd)

/-- Method `VFileList::copySelectedFiles(p_isCut)`; `items` are the selected
items, `fetchPath` is `VNoteFile::fetchPath()` of the file at an address. The
clipboard text written as compact JSON is read back as the object `clip`. -/
def copySelectedFiles (time : Nat) (rnd : Int) (fetchPath : Nat → String)
    (items : List QListWidgetItem) (p_isCut : Bool) (st : VFileList) : VFileList :=
  if items.isEmpty then st
  else
    let files : QJsonArray := items.map (fun item => QJsonValue.string (fetchPath (getVFile item)))
    let magic := getNewMagic time rnd
    let clip : QJsonObject := []
    let clip := clip.set ClipboardConfig.c_magic (QJsonValue.double magic)
    let clip := clip.set ClipboardConfig.c_type (QJsonValue.double ClipboardOpType.CopyFile)
    let clip := clip.set ClipboardConfig.c_isCut (QJsonValue.bool p_isCut)
    let clip := clip.set ClipboardConfig.c_files (QJsonValue.array files)
    { st with m_magicForClipboard := magic, clipboard := clip }

end VFileList

/-- What `pasteFiles` calls outside the sources at hand, each seen on the state
of `m_directory` and of the world at the time of the call:
`g_vnote->getInternalFile(path)`, `file->getDocType() == DocType::Markdown`,
whether `VUtils::fetchImagesFromMarkdownFile(file, LocalRelativeInternal)` is
non-empty, `VUtils::generateCopiedFileName(dirPath, fileName)`,
`file->fetchBasePath()`, `fetchPath()` of the destination, and
`VNoteFile::copyFile(p_destDir, fileName, file, p_isCut, &destFile, &msg)`, which
yields its result, `destFile`, and the new state. -/
structure PasteEnv where
  getInternalFile : Option VDirectory → World → String → Option VNoteFile
  isMarkdown : VNoteFile → Bool
  hasInternalImages : World → VNoteFile → Bool
  generateCopiedFileName : World → String → String → String
  fetchBasePath : VNoteFile → String
  fetchPath : Nat → String
  copyFile : Nat → String → VNoteFile → Bool → Option VDirectory → World →
    Bool × Option VNoteFile × Option VDirectory × World

namespace VFileList

/-- The loop of `pasteFiles` over `p_files`: the count `nrPasted`, and the state
of `m_directory` and of the world after it. The message boxes are not part of
the state. -/
def pasteFilesLoop (env : PasteEnv) (p_destDir : Nat) (p_isCut : Bool) :
    List String → Nat → Option VDirectory → World → Nat × Option VDirectory × World
  | [], nrPasted, dir, w => (nrPasted, dir, w)
  | path :: rest, nrPasted, dir, w =>
    match env.getInternalFile dir w path with
    | none => pasteFilesLoop env p_destDir p_isCut rest nrPasted dir w
    | some file =>
      if file.parent == some p_destDir then
        if p_isCut then pasteFilesLoop env p_destDir p_isCut rest nrPasted dir w
        else if env.isMarkdown file && env.hasInternalImages w file then
          pasteFilesLoop env p_destDir p_isCut rest nrPasted dir w
        else
          let fileName := env.generateCopiedFileName w (env.fetchBasePath file) file.name
          let r := env.copyFile p_destDir fileName file p_isCut dir w
          pasteFilesLoop env p_destDir p_isCut rest
            (if r.2.1.isSome then nrPasted + 1 else nrPasted) r.2.2.1 r.2.2.2
      else
        let fileName := env.generateCopiedFileName w (env.fetchPath p_destDir) file.name
        let r := env.copyFile p_destDir fileName file p_isCut dir w
        pasteFilesLoop env p_destDir p_isCut rest
          (if r.2.1.isSome then nrPasted + 1 else nrPasted) r.2.2.1 r.2.2.2

/-- Method `VFileList::pasteFiles(p_destDir, p_files, p_isCut)`; `p_destDir` is
the address of the destination (`0` is the null pointer), `cx` the context of
`m_directory`, `time` and `rnd` what `getNewMagic()` reads. -/
def pasteFiles (env : PasteEnv) (time : Nat) (rnd : Int) (cx : Ctx) (st : VFileList) (w : World)
    (p_destDir : Nat) (p_files : List String) (p_isCut : Bool) : Option (VFileList × World) :=
  if p_destDir = 0 ∨ p_files.isEmpty then some ({ st with clipboard := [] }, w)
  else
    let r := pasteFilesLoop env p_destDir p_isCut p_files 0 st.m_directory w
    match r.2.1 with
    | none => none
    | some dir =>
      match updateFileList cx r.2.2 dir with
      | none => none
      | some (fileList, dir1, w1) =>
        some ({ m_directory := some dir1, fileList := fileList, clipboard := [],
                m_magicForClipboard := getNewMagic time rnd }, w1)

/-- Method `VFileList::pasteFilesFromClipboard()`. -/
def pasteFilesFromClipboard (env : PasteEnv) (time : Nat) (rnd : Int) (cx : Ctx)
    (st : VFileList) (w : World) : Option (VFileList × World) :=
  if !pasteAvailable st.m_magicForClipboard st.clipboard then some (st, w)
  else
    let obj := st.clipboard
    let files := (obj.value ClipboardConfig.c_files).toArray
    let isCut := (obj.value ClipboardConfig.c_isCut).toBool
    let filesToPaste := files.map QJsonValue.toString
    pasteFiles env time rnd cx st w
      (match st.m_directory with
       | some dir => dir.addr
       | none => 0)
      filesToPaste isCut

end VFileList

/-- A sample of what `pasteFiles` calls: the note `x.md` of `sub` (address 4) is
the only internal file, no note has images, the copied name is the name, and
the copy succeeds without a change to the directory at hand. -/
def samplePasteEnv : PasteEnv :=
  { getInternalFile := fun _ _ path =>
      if path == "/nb/sub/x.md" then
        some (VNoteFile.new 4 2 "x.md" FileType.Note true QDateTime.null QDateTime.null)
      else none
    isMarkdown := fun _ => true
    hasInternalImages := fun _ _ => false
    generateCopiedFileName := fun _ _ name => name
    fetchBasePath := fun _ => "/nb/sub"
    fetchPath := fun _ => "/nb"
    copyFile := fun _ _ file _ dir w => (true, some file, dir, w) }

/-- A File List on the opened directory with the notes A, B, C, D, E, whose
clipboard holds `samplePayload` made with the current nonce 41. -/
def sampleFileList : VFileList :=
  { m_directory := some sampleDir
    fileList := [sampleItem 2 "A", sampleItem 3 "B", sampleItem 4 "C", sampleItem 5 "D",
      sampleItem 6 "E"]
    m_magicForClipboard := 41
    clipboard := samplePayload }

/-- What `importFiles` calls outside the sources at hand, each seen on the world
at the time of the call: whether `QFileInfo(file)` exists and is a file,
`VUtils::fileNameFromPath`, `VUtils::getFileNameWithSequence(dirPath, name)`,
`VUtils::copyFile(file, targetFilePath, false)` with its result and the world
after it, and the outcome of the config write of `addFile(name, -1)`. -/
structure ImportEnv where
  isFile : World → String → Bool
  fileNameFromPath : String → String
  getFileNameWithSequence : World → String → String → String
  copyFile : World → String → String → Bool × World
  addWriteOk : String → Bool

namespace VFileList

/-- The loop of `importFiles` over `p_files`. The argument `ret` is the variable
`ret` of the function, which the loop sets in the branch of a skipped file only:
the body declares a second `ret` (`bool ret = VUtils::copyFile(...)`), and the
assignments `ret = false` after a failed copy and after a failed `addFile` go to
that one. `errMsg` collects the texts of `VUtils::addErrMsg`, `nrImported` is
the counter of the loop. -/
def importFilesLoop (env : ImportEnv) (now : QDateTime) (cx : Ctx) :
    List String → Bool → List String → Nat → VDirectory → World →
      Option (Bool × List String × Nat × VDirectory × World)
  | [], ret, errMsg, nrImported, dir, w => some (ret, errMsg, nrImported, dir, w)
  | file :: rest, ret, errMsg, nrImported, dir, w =>
    if !env.isFile w file then
      importFilesLoop env now cx rest false
        (errMsg ++ ["Skip importing non-exist file " ++ file ++ "."]) nrImported dir w
    else
      let name := env.fileNameFromPath file
      if name.isEmpty then none
      else
        let name := env.getFileNameWithSequence w cx.path name
        let targetFilePath := filePath cx.path name
        let copied := env.copyFile w file targetFilePath
        if !copied.1 then
          importFilesLoop env now cx rest ret
            (errMsg ++ ["Fail to copy file " ++ file ++ " as " ++ file ++ "."]) nrImported dir
            copied.2
        else
          match VDirectory.addFileNamed (env.addWriteOk name) now cx copied.2 dir name (-1) with
          | none => none
          | some (some _, dir1, w1) =>
            importFilesLoop env now cx rest ret errMsg (nrImported + 1) dir1 w1
          | some (none, dir1, w1) =>
            importFilesLoop env now cx rest ret
              (errMsg ++ ["Fail to add the note " ++ file
                ++ " to target folder's configuration."]) nrImported dir1 w1

/-- Method `VFileList::importFiles(p_files, p_errMsg)`: the result, the texts
added to the error message, and the state afterwards; `cx` is the context of
`m_directory` and `now` the time that `addFile` reads. -/
def importFiles (env : ImportEnv) (now : QDateTime) (cx : Ctx) (st : VFileList) (w : World)
    (p_files : List String) : Option (Bool × List String × VFileList × World) :=
  if p_files.isEmpty then some (false, [], st, w)
  else
    match st.m_directory with
    | none => none
    | some dir =>
      if !dir.opened then none
      else
        match importFilesLoop env now cx p_files true [] 0 dir w with
        | none => none
        | some (ret, errMsg, _, dir1, w1) =>
          match updateFileList cx w1 dir1 with
          | none => none
          | some (fileList, dir2, w2) =>
            some (ret, errMsg, { st with m_directory := some dir2, fileList := fileList }, w2)

/-- Method `VFileList::sortItems()`; `dialog` is the outcome of the sort dialog:
`none` for a rejected dialog, else the numbers `data[i].toInt()` of
`dialog.getSortedData()`. The result carries the vector `sortedIdx` that the
method computes (none when it computes none), and the state afterwards. -/
def sortItems (dialog : Option (List Int)) (st : VFileList) (w : World) :
    Option (Option (List Int) × VFileList × World) :=
  match st.m_directory with
  | none => none
  | some dir =>
    let files := dir.files
    if files.length < 2 then some (none, st, w)
    else
      match dialog with
      | none => some (none, st, w)
      | some data =>
        if data.length ≠ files.length then none
        else
          let sortedIdx := data
          some (some sortedIdx, st, w)

end VFileList

/-- A sample of what `importFiles` calls: every path but `/ext/gone.md` is a
file, the name of a path is what follows `/ext/`, no sequence number is needed,
the copy of `/ext/locked.md` fails and every other copy succeeds and creates
the target, and the config write succeeds but for the name `ro.md`. -/
def sampleImportEnv : ImportEnv :=
  { isFile := fun _ file => file != "/ext/gone.md"
    fileNameFromPath := fun file => file.drop 5
    getFileNameWithSequence := fun _ _ name => name
    copyFile := fun w file target =>
      if file == "/ext/locked.md" then (false, w) else (true, w.addEntry target)
    addWriteOk := fun name => name != "ro.md" }

/-! ## The Attachment List (`src/vattachmentlist.cpp`) -/

/-- Item of the attachment list (a `QListWidgetItem`): its text, and its data
under `Qt::UserRole`, which is the name of the attachment. -/
structure AttachmentItem where
  text : String
  data : String
  deriving DecidableEq, Repr

/-- Modelled from the spec: `VNoteFile::findAttachment(p_name, p_caseSensitive)`,
the index of the first attachment of the note with that name (compared in
lower case unless case-sensitive), or `-1`; `toLower` is `QString::toLower()`,
the case mapping of the toolkit. -/
def VNoteFile.findAttachment (f : VNoteFile) (toLower : String → String) (p_name : String)
    (p_caseSensitive : Bool) : Int :=
  match f.attachments.findIdx?
      (fun a => if p_caseSensitive then a == p_name else toLower a == toLower p_name) with
  | some i => (i : Int)
  | none => -1

namespace VAttachmentList

/-- What `handleListItemCommitData` leaves: the current item, the note `m_file`,
the calls `renameAttachment(old, new)` that it made, and whether it showed the
message box. -/
structure CommitOutcome where
  item : AttachmentItem
  m_file : VNoteFile
  renameCalls : List (String × String)
  messageShown : Bool
  deriving DecidableEq, Repr

/-- Method `VAttachmentList::handleListItemCommitData(p_itemEdit)`: `text` is the
text of the editor, `item` the current item of the list, `toLower` is
`QString::toLower()`, the case mapping of the toolkit, `exactMatch` the full
match against `VUtils::c_fileNameRegExp`, and `renameAttachment` is
`VNoteFile::renameAttachment(old, new)` with its result and the note after it. -/
def handleListItemCommitData (toLower : String → String) (exactMatch : String → Bool)
    (renameAttachment : VNoteFile → String → String → Bool × VNoteFile)
    (m_file : VNoteFile) (item : AttachmentItem) (text : String) : Option CommitOutcome :=
  if item.text ≠ text then none
  else
    let oldText := item.data
    if oldText == text then
      some { item := item, m_file := m_file, renameCalls := [], messageShown := false }
    else
      let legalName := if text.isEmpty then false else if !exactMatch text then false else true
      if !legalName then
        some { item := { item with text := oldText }, m_file := m_file, renameCalls := [],
               messageShown := false }
      else if !(toLower oldText == toLower text)
          && m_file.findAttachment toLower text false > -1 then
        some { item := { item with text := oldText }, m_file := m_file, renameCalls := [],
               messageShown := false }
      else
        let r := renameAttachment m_file oldText text
        if !r.1 then
          some { item := { item with text := oldText }, m_file := r.2,
                 renameCalls := [(oldText, text)], messageShown := true }
        else
          some { item := { item with data := text }, m_file := r.2,
                 renameCalls := [(oldText, text)], messageShown := false }

end VAttachmentList

/-- A note with the attachments `a.pdf` and `b.png`. -/
def sampleNote : VNoteFile :=
  { addr := 2, parent := some 1, name := "n.md", type := FileType.Note, modifiable := true,
    createdTimeUtc := QDateTime.null, modifiedTimeUtc := QDateTime.null,
    attachmentFolder := "n_att", attachments := ["a.pdf", "b.png"] }

/-- A sample `renameAttachment`: it renames the attachment, and fails for the
new name `locked.pdf`. -/
def sampleRenameAttachment (f : VNoteFile) (old new : String) : Bool × VNoteFile :=
  if new == "locked.pdf" then (false, f)
  else (true, { f with attachments := f.attachments.map (fun a => if a == old then new else a) })

/-- A sample file-name test: a legal name holds no slash. -/
def sampleExactMatch (s : String) : Bool := !s.data.contains '/'

/-- An opened root of another notebook that holds the closed folder `s`. -/
def sampleOther : VDirectory :=
  VDirectory.mk 50 none "other" true false QDateTime.null
    [VDirectory.new 51 (some 50) "s" QDateTime.null] []

/-- The context of `sampleOther`. -/
def sampleOtherCtx : Ctx := { sampleCtx with path := "/other" }

/-- The disk of `sampleNested` with the folder of the other notebook and its
folder `s`. -/
def sampleTwo : World :=
  { sampleNested with entries := ["/nb", "/nb/sub", "/other", "/other/s"] }

/-! # Properties -/

open VDirectory

theorem QVector.remove_append {α : Type} (a r : List α) (x : α) :
    QVector.remove a.length (a ++ x :: r) = a ++ r := by
  simp [QVector.remove, List.take_append_eq_append_take, List.drop_append_eq_append_drop]

theorem QVector.insert_append {α : Type} (a r : List α) (x : α) :
    QVector.insert a.length x (a ++ r) = a ++ x :: r := by
  simp [QVector.insert, List.take_append_eq_append_take, List.drop_append_eq_append_drop]

theorem QVector.getElem?_append_cons {α : Type} (a r : List α) (x : α) :
    (a ++ x :: r)[a.length]? = some x := by
  rw [List.getElem?_append_right (le_refl _)]
  simp

theorem QVector.move_nat {α : Type} (i j : Nat) (v : List α) (x : α) (hi : v[i]? = some x)
    (hj : j < v.length) :
    QVector.move (i : Int) (j : Int) v = some (QVector.insert j x (QVector.remove i v)) := by
  have hi' : i < v.length := by
    by_contra h
    rw [List.getElem?_eq_none (by omega)] at hi
    cases hi
  unfold QVector.move
  rw [if_pos (by omega)]
  simp [hi]

theorem QVector.move_forward {α : Type} (a m c : List α) (x : α) :
    QVector.move (a.length : Int) ((a.length + m.length : Nat) : Int) (a ++ x :: (m ++ c))
      = some (a ++ (m ++ x :: c)) := by
  rw [QVector.move_nat _ _ _ x (QVector.getElem?_append_cons a _ x) (by simp; omega),
    QVector.remove_append]
  have h := QVector.insert_append (a ++ m) c x
  rw [List.length_append, List.append_assoc, List.append_assoc] at h
  rw [h]

theorem QVector.move_backward {α : Type} (p b c : List α) (x : α) :
    QVector.move ((p.length + b.length : Nat) : Int) (p.length : Int) (p ++ (b ++ x :: c))
      = some (p ++ x :: (b ++ c)) := by
  have hg := QVector.getElem?_append_cons (p ++ b) c x
  have hr := QVector.remove_append (p ++ b) c x
  rw [List.length_append, List.append_assoc] at hg hr
  rw [QVector.move_nat _ _ _ x hg (by simp), hr, List.append_assoc,
    QVector.insert_append p (b ++ c) x]

theorem reorderAfter_append {α : Type} (a c : List α) :
    ∀ (r b : List α),
      reorderAfter (a.length : Int) ((a.length + r.length + b.length : Nat) - 1 : Int) r.length
        (a ++ (r ++ (b ++ c))) = some (a ++ (b ++ (r ++ c))) := by
  intro r
  induction r with
  | nil => intro b; simp [reorderAfter]
  | cons x r ih =>
    intro b
    have hm := QVector.move_forward a (r ++ b) c x
    have ih' := ih (b ++ [x])
    have hidx' : ((a.length + r.length + (b ++ [x]).length : Nat) : Int) - 1
        = ((a.length + (r ++ b).length : Nat) : Int) := by
      simp only [List.length_cons, List.length_append, List.length_nil]; omega
    rw [hidx'] at ih'
    simp only [List.length_cons, reorderAfter]
    rw [show ((a.length + (r.length + 1) + b.length : Nat) : Int) - 1
        = ((a.length + (r ++ b).length : Nat) : Int) from by
          simp only [List.length_append]; omega]
    simp only [List.cons_append, List.append_assoc] at hm ⊢
    rw [hm]
    simp only [List.append_assoc, List.singleton_append] at ih'
    simpa using ih'

theorem reorderBefore_append {α : Type} (c : List α) :
    ∀ (r p b : List α),
      reorderBefore r.length ((p.length + b.length : Nat) : Int) (p.length : Int)
        (p ++ (b ++ (r ++ c))) = some (p ++ (r ++ (b ++ c))) := by
  intro r
  induction r with
  | nil => intro p b; simp [reorderBefore]
  | cons x r ih =>
    intro p b
    have hm := QVector.move_backward p b (r ++ c) x
    have ih' := ih (p ++ [x]) b
    simp only [List.length_cons, reorderBefore, List.cons_append]
    rw [hm]
    simp only [List.length_append, List.length_singleton, List.append_assoc,
      List.singleton_append] at ih'
    rw [show ((p.length + b.length : Nat) : Int) + 1 = ((p.length + 1 + b.length : Nat) : Int) from by
      omega, show (p.length : Int) + 1 = ((p.length + 1 : Nat) : Int) from by omega]
    exact ih'

theorem QVector.seg_split {α : Type} (a b c : Nat) (v : List α) (hab : a ≤ b) (hbc : b ≤ c) :
    v = v.take a ++ (QVector.seg a b v ++ (QVector.seg b c v ++ v.drop c)) := by
  unfold QVector.seg
  have h1 : v.take a ++ (v.take b).drop a = v.take b := by
    have h := List.take_append_drop a (v.take b)
    rwa [List.take_take, Nat.min_eq_left hab] at h
  have h2 : v.take b ++ (v.take c).drop b = v.take c := by
    have h := List.take_append_drop b (v.take c)
    rwa [List.take_take, Nat.min_eq_left hbc] at h
  rw [← List.append_assoc, h1, ← List.append_assoc, h2, List.take_append_drop]

theorem QVector.length_seg {α : Type} (a b : Nat) (v : List α) (hb : b ≤ v.length) :
    (QVector.seg a b v).length = b - a := by
  simp [QVector.seg, Nat.min_eq_left hb]

theorem reorderVector_after {α : Type} (f l ds : Nat) (v : List α) (h1 : f ≤ l)
    (h2 : l < ds) (h3 : ds ≤ v.length) :
    reorderVector (f : Int) (l : Int) (ds : Int) v = some (reorderedAsStated f l ds v) := by
  have hsplit := QVector.seg_split f (l + 1) ds v (by omega) (by omega)
  have hA := reorderAfter_append (v.take f) (v.drop ds) (QVector.seg f (l + 1) v)
    (QVector.seg (l + 1) ds v)
  rw [← hsplit] at hA
  rw [QVector.length_seg _ _ _ (by omega), QVector.length_seg _ _ _ h3,
    List.length_take, Nat.min_eq_left (by omega)] at hA
  unfold reorderVector reorderedAsStated
  rw [if_pos (by omega), if_neg (by omega)]
  rw [show ((l : Int) - (f : Int) + 1).toNat = l + 1 - f from by omega,
    show (ds : Int) - 1 = ((f + (l + 1 - f) + (ds - (l + 1)) : Nat) : Int) - 1 from by omega]
  exact hA

theorem reorderVector_before {α : Type} (f l ds : Nat) (v : List α) (h1 : f ≤ l)
    (h2 : ds < f) (h3 : l < v.length) :
    reorderVector (f : Int) (l : Int) (ds : Int) v = some (reorderedAsStated f l ds v) := by
  have hsplit := QVector.seg_split ds f (l + 1) v (by omega) (by omega)
  have hB := reorderBefore_append (v.drop (l + 1)) (QVector.seg f (l + 1) v) (v.take ds)
    (QVector.seg ds f v)
  rw [← hsplit] at hB
  rw [QVector.length_seg _ _ _ (by omega), QVector.length_seg _ _ _ (by omega),
    List.length_take, Nat.min_eq_left (by omega)] at hB
  unfold reorderVector reorderedAsStated
  rw [if_neg (by omega), if_pos (by omega)]
  rw [show ((l : Int) - (f : Int) + 1).toNat = l + 1 - f from by omega,
    show (f : Int) = ((ds + (f - ds) : Nat) : Int) from by omega]
  exact hB

theorem reorderVector_stated {α : Type} (f l ds : Nat) (v : List α) (h1 : f ≤ l)
    (h2 : l < v.length) (h3 : ds ≤ v.length) (h4 : ds < f ∨ ds > l) :
    reorderVector (f : Int) (l : Int) (ds : Int) v = some (reorderedAsStated f l ds v) := by
  rcases h4 with h | h
  · exact reorderVector_before f l ds v h1 h h2
  · exact reorderVector_after f l ds v h1 h h3

theorem VDirectory.files_setFiles (d : VDirectory) (fs : List VNoteFile) :
    (d.setFiles fs).files = fs := by
  cases d; rfl

theorem VDirectory.setFiles_setFiles_files (d : VDirectory) (fs : List VNoteFile) :
    (d.setFiles fs).setFiles d.files = d := by
  cases d; rfl

theorem VDirectory.writeToConfig_false {cx : Ctx} {w w1 : World} {d : VDirectory} {r : Bool}
    (h : writeToConfig false cx w d = some (r, w1)) : r = false ∧ w1 = w := by
  unfold writeToConfig at h
  dsimp only at h
  cases hj : (if d.parent.isNone = true then addNotebookConfig cx d (toConfigJson cx d)
      else some (toConfigJson cx d)) with
  | none => rw [hj] at h; cases h
  | some json =>
    rw [hj] at h
    simp only [writeDirectoryConfig, Bool.false_eq_true, if_false, Option.some.injEq,
      Prod.mk.injEq] at h
    exact ⟨h.1.symm, h.2.symm⟩

/-- C1: on an opened directory with file sequence L, for indices with
first ≤ last < |L|, destStart ≤ |L| and destStart outside [first, last], when
the config write succeeds reorderFiles returns the directory whose file
sequence is L with the run L[first..last] taken out and put back, in its order,
right before the item that was at index destStart; nothing else of the node
changes. -/
theorem reorderFiles_moves_run (cx : Ctx) (w w1 : World) (d : VDirectory)
    (first last destStart : Nat)
    (hopen : d.opened = true) (h1 : first ≤ last) (h2 : last < d.files.length)
    (h3 : destStart ≤ d.files.length) (h4 : destStart < first ∨ destStart > last)
    (hwrite : writeToConfig true cx w
      (d.setFiles (reorderedAsStated first last destStart d.files)) = some (true, w1)) :
    reorderFiles true cx w d first last destStart
      = some (d.setFiles (reorderedAsStated first last destStart d.files), w1) := by
  unfold reorderFiles
  rw [if_pos ⟨hopen, by omega, by omega, by omega, by omega, by omega⟩]
  simp only [reorderVector_stated first last destStart d.files h1 h2 h3 h4, hwrite]

/-- Witness of C1 on the files A, B, C, D, E: moving the run 1..2 before index 4
gives A, D, B, C, E, and moving the run 3..4 before index 0 gives D, E, A, B, C. -/
theorem reorderFiles_moves_run_witness :
    reorderFiles true sampleCtx sampleWorld sampleDir 1 2 4
      = some (sampleDir.setFiles [sampleFile 2 "A", sampleFile 5 "D", sampleFile 3 "B",
          sampleFile 4 "C", sampleFile 6 "E"],
        (writeDirectoryConfig true sampleWorld "/nb"
          (toConfigJson sampleCtx (sampleDir.setFiles [sampleFile 2 "A", sampleFile 5 "D",
            sampleFile 3 "B", sampleFile 4 "C", sampleFile 6 "E"]))).2) ∧
    reorderFiles true sampleCtx sampleWorld sampleDir 3 4 0
      = some (sampleDir.setFiles [sampleFile 5 "D", sampleFile 6 "E", sampleFile 2 "A",
          sampleFile 3 "B", sampleFile 4 "C"],
        (writeDirectoryConfig true sampleWorld "/nb"
          (toConfigJson sampleCtx (sampleDir.setFiles [sampleFile 5 "D", sampleFile 6 "E",
            sampleFile 2 "A", sampleFile 3 "B", sampleFile 4 "C"]))).2) :=
  ⟨reorderFiles_moves_run sampleCtx sampleWorld _ sampleDir 1 2 4 rfl (by decide) (by decide)
      (by decide) (by decide) rfl,
   reorderFiles_moves_run sampleCtx sampleWorld _ sampleDir 3 4 0 rfl (by decide) (by decide)
      (by decide) (by decide) rfl⟩

/-- C2: on an opened directory, for every index triple within the preconditions
of reorderFiles, if the config write fails then reorderFiles returns the node
exactly as it was before the call, the file sequence included (same items, same
order); and whatever the arguments, a call that completes after a failed write
returns the node as it was. -/
theorem reorderFiles_write_failure_restores (cx : Ctx) (w : World) (d : VDirectory) :
    (∀ (first last destStart : Nat) (w1 : World), d.opened = true → first ≤ last →
        last < d.files.length → destStart ≤ d.files.length →
        (destStart < first ∨ destStart > last) →
        writeToConfig false cx w
          (d.setFiles (reorderedAsStated first last destStart d.files)) = some (false, w1) →
        reorderFiles false cx w d first last destStart = some (d, w1))
    ∧ (∀ (p_first p_last p_destStart : Int) (d1 : VDirectory) (w1 : World),
        reorderFiles false cx w d p_first p_last p_destStart = some (d1, w1) →
        d1 = d ∧ d1.files = d.files) := by
  constructor
  · intro first last destStart w1 hopen h1 h2 h3 h4 hwrite
    unfold reorderFiles
    rw [if_pos ⟨hopen, by omega, by omega, by omega, by omega, by omega⟩]
    simp only [reorderVector_stated first last destStart d.files h1 h2 h3 h4, hwrite,
      VDirectory.setFiles_setFiles_files]
  · intro p_first p_last p_destStart d1 w1 h
    unfold reorderFiles at h
    split at h
    · split at h
      · cases h
      · rename_i files hfiles
        dsimp only at h
        cases hw : writeToConfig false cx w (d.setFiles files) with
        | none => rw [hw] at h; cases h
        | some r =>
          obtain ⟨b, w2⟩ := r
          have hb := (VDirectory.writeToConfig_false hw).1
          subst hb
          rw [hw] at h
          simp only [Option.some.injEq, Prod.mk.injEq] at h
          rw [← h.1, VDirectory.setFiles_setFiles_files]
          exact ⟨rfl, rfl⟩
    · cases h


/-- Witness of C2 on the files A, B, C, D, E: after a failed write the directory
is as it was. -/
theorem reorderFiles_write_failure_restores_witness :
    reorderFiles false sampleCtx sampleWorld sampleDir 1 2 4 = some (sampleDir, sampleWorld) :=
  (reorderFiles_write_failure_restores sampleCtx sampleWorld sampleDir).1 1 2 4 sampleWorld rfl
    (by decide) (by decide) (by decide) (by decide) rfl

theorem VDirectory.openSubDirs_spec (self : Nat) :
    ∀ (arr : QJsonArray) (acc : List VDirectory) (w : World),
      ∃ news, (openSubDirs self arr acc w).1 = acc ++ news ∧
        List.Forall₂ (fun (c : VDirectory) (item : QJsonValue) =>
          c.name = (item.toObject.value DirConfig.c_name).toString ∧ c.opened = false
            ∧ c.subDirs = [] ∧ c.files = [] ∧ c.parent = some self) news arr := by
  intro arr
  induction arr with
  | nil => intro acc w; exact ⟨[], by simp [openSubDirs], List.Forall₂.nil⟩
  | cons item rest ih =>
    intro acc w
    obtain ⟨news, h1, h2⟩ := ih
      (acc ++ [VDirectory.new w.alloc.1 (some self)
        (item.toObject.value DirConfig.c_name).toString QDateTime.null]) w.alloc.2
    refine ⟨VDirectory.new w.alloc.1 (some self)
        (item.toObject.value DirConfig.c_name).toString QDateTime.null :: news, ?_,
      List.Forall₂.cons ⟨rfl, rfl, rfl, rfl, rfl⟩ h2⟩
    simp only [openSubDirs]
    rw [h1, List.append_assoc, List.singleton_append]

theorem VDirectory.openFiles_spec (cx : Ctx) (self : Nat) :
    ∀ (arr : QJsonArray) (acc : List VNoteFile) (w : World),
      ∃ news, (openFiles cx self arr acc w).1 = acc ++ news ∧
        List.Forall₂ (fun (f : VNoteFile) (item : QJsonValue) =>
          ∃ a, f = cx.fileFromJson a self item.toObject FileType.Note true) news arr := by
  intro arr
  induction arr with
  | nil => intro acc w; exact ⟨[], by simp [openFiles], List.Forall₂.nil⟩
  | cons item rest ih =>
    intro acc w
    obtain ⟨news, h1, h2⟩ := ih
      (acc ++ [cx.fileFromJson w.alloc.1 self item.toObject FileType.Note true]) w.alloc.2
    refine ⟨cx.fileFromJson w.alloc.1 self item.toObject FileType.Note true :: news, ?_,
      List.Forall₂.cons ⟨w.alloc.1, rfl⟩ h2⟩
    simp only [openFiles]
    rw [h1, List.append_assoc, List.singleton_append]

theorem VDirectory.openDirectory_closed (cx : Ctx) (w : World) (d : VDirectory)
    (hclosed : d.opened = false) (hsub : d.subDirs = []) (hfiles : d.files = [])
    (hcfg : (readDirectoryConfig w cx.path).isEmpty = false) :
    openDirectory cx w d = some (true,
      mk d.addr d.parent d.name true d.expanded
        (QDateTime.fromString
          ((readDirectoryConfig w cx.path).value DirConfig.c_createdTime).toString)
        (openSubDirs d.addr
          ((readDirectoryConfig w cx.path).value DirConfig.c_subDirectories).toArray [] w).1
        (openFiles cx d.addr ((readDirectoryConfig w cx.path).value DirConfig.c_files).toArray []
          (openSubDirs d.addr
            ((readDirectoryConfig w cx.path).value DirConfig.c_subDirectories).toArray [] w).2).1,
      (openFiles cx d.addr ((readDirectoryConfig w cx.path).value DirConfig.c_files).toArray []
          (openSubDirs d.addr
            ((readDirectoryConfig w cx.path).value DirConfig.c_subDirectories).toArray [] w).2).2)
    := by
  unfold openDirectory
  rw [if_neg (by simp [hclosed]), if_pos (by simp [hsub, hfiles])]
  simp only [hcfg, Bool.false_eq_true, if_false, hsub, hfiles]

theorem VDirectory.openDirectory_loads (cx : Ctx) (w : World) (d : VDirectory)
    (hclosed : d.opened = false) (hsub : d.subDirs = []) (hfiles : d.files = [])
    (hcfg : (readDirectoryConfig w cx.path).isEmpty = false) :
    ∃ d1 w1, openDirectory cx w d = some (true, d1, w1) ∧ d1.opened = true ∧
      List.Forall₂ (fun (c : VDirectory) (item : QJsonValue) =>
          c.name = (item.toObject.value DirConfig.c_name).toString ∧ c.opened = false
            ∧ c.subDirs = [] ∧ c.files = [] ∧ c.parent = some d.addr)
        d1.subDirs ((readDirectoryConfig w cx.path).value DirConfig.c_subDirectories).toArray ∧
      List.Forall₂ (fun (f : VNoteFile) (item : QJsonValue) =>
          ∃ a, f = cx.fileFromJson a d.addr item.toObject FileType.Note true)
        d1.files ((readDirectoryConfig w cx.path).value DirConfig.c_files).toArray := by
  obtain ⟨nd, hd1, hd2⟩ := VDirectory.openSubDirs_spec d.addr
    ((readDirectoryConfig w cx.path).value DirConfig.c_subDirectories).toArray [] w
  obtain ⟨nf, hf1, hf2⟩ := VDirectory.openFiles_spec cx d.addr
    ((readDirectoryConfig w cx.path).value DirConfig.c_files).toArray []
    (openSubDirs d.addr
      ((readDirectoryConfig w cx.path).value DirConfig.c_subDirectories).toArray [] w).2
  refine ⟨_, _, VDirectory.openDirectory_closed cx w d hclosed hsub hfiles hcfg, rfl, ?_, ?_⟩
  · simp only [VDirectory.subDirs]
    rw [hd1, List.nil_append]
    exact hd2
  · simp only [VDirectory.files]
    rw [hf1, List.nil_append]
    exact hf2

/-- C3: for every closed directory (not opened, both sequences empty) whose
config JSON is not empty, open() returns true and the node it leaves is opened,
its child-directory sequence matches the sub_directories array of the config
entry by entry in array order, each child carrying the name of its entry and
being itself closed with no children, and its file sequence matches the files
array entry by entry in array order, each file being the File Node that
fromJson builds from its entry. -/
theorem open_loads_config (cx : Ctx) (w : World) (d : VDirectory)
    (hclosed : d.opened = false) (hsub : d.subDirs = []) (hfiles : d.files = [])
    (hcfg : (readDirectoryConfig w cx.path).isEmpty = false) :
    ∃ d1 w1, openDirectory cx w d = some (true, d1, w1) ∧ d1.opened = true ∧
      List.Forall₂ (fun (c : VDirectory) (item : QJsonValue) =>
          c.name = (item.toObject.value DirConfig.c_name).toString ∧ c.opened = false
            ∧ c.subDirs = [] ∧ c.files = [] ∧ c.parent = some d.addr)
        d1.subDirs ((readDirectoryConfig w cx.path).value DirConfig.c_subDirectories).toArray ∧
      List.Forall₂ (fun (f : VNoteFile) (item : QJsonValue) =>
          ∃ a, f = cx.fileFromJson a d.addr item.toObject FileType.Note true)
        d1.files ((readDirectoryConfig w cx.path).value DirConfig.c_files).toArray :=
  VDirectory.openDirectory_loads cx w d hclosed hsub hfiles hcfg

/-- Witness of C3: the freshly constructed root opens on a disk that holds a
config for it. -/
theorem open_loads_config_witness :
    ∃ d1 w1, openDirectory sampleCtx sampleDisk sampleClosed = some (true, d1, w1) ∧
      d1.opened = true ∧
      List.Forall₂ (fun (c : VDirectory) (item : QJsonValue) =>
          c.name = (item.toObject.value DirConfig.c_name).toString ∧ c.opened = false
            ∧ c.subDirs = [] ∧ c.files = [] ∧ c.parent = some sampleClosed.addr)
        d1.subDirs
        ((readDirectoryConfig sampleDisk sampleCtx.path).value
          DirConfig.c_subDirectories).toArray ∧
      List.Forall₂ (fun (f : VNoteFile) (item : QJsonValue) =>
          ∃ a, f = sampleCtx.fileFromJson a sampleClosed.addr item.toObject FileType.Note true)
        d1.files
        ((readDirectoryConfig sampleDisk sampleCtx.path).value DirConfig.c_files).toArray :=
  open_loads_config sampleCtx sampleDisk sampleClosed rfl rfl rfl rfl

theorem VDirectory.closeFiles_eq (fs : List VNoteFile) :
    ∀ w : World, closeFiles w fs = { w with deleted := w.deleted ++ fs.map VNoteFile.addr } := by
  induction fs with
  | nil => intro w; simp [closeFiles]
  | cons f rest ih =>
    intro w
    simp only [closeFiles]
    rw [ih]
    simp [World.delete]

mutual
theorem VDirectory.close_frame (w : World) :
    ∀ d : VDirectory, ∃ log, (close w d).2 = { w with deleted := w.deleted ++ log }
  | mk a p n o e c subs fs => by
    cases o with
    | false => exact ⟨[], by simp [close]⟩
    | true =>
      obtain ⟨log, h⟩ := VDirectory.closeSubDirs_frame w subs
      refine ⟨log ++ fs.map VNoteFile.addr, ?_⟩
      simp only [close, if_true]
      rw [VDirectory.closeFiles_eq, h]
      simp
theorem VDirectory.closeSubDirs_frame (w : World) :
    ∀ l : List VDirectory, ∃ log, closeSubDirs w l = { w with deleted := w.deleted ++ log }
  | [] => ⟨[], by simp [closeSubDirs]⟩
  | dir :: rest => by
    obtain ⟨log1, h1⟩ := VDirectory.close_frame w dir
    obtain ⟨log2, h2⟩ := VDirectory.closeSubDirs_frame ((close w dir).2.delete dir.addr) rest
    refine ⟨log1 ++ [dir.addr] ++ log2, ?_⟩
    simp only [closeSubDirs]
    rw [h2, h1]
    simp [World.delete]
end



theorem VDirectory.mem_nodesOfList (n : VDirectory) :
    ∀ l : List VDirectory, n ∈ nodesOfList l ↔ ∃ c ∈ l, n ∈ nodes c := by
  intro l
  induction l with
  | nil => simp [nodesOfList]
  | cons c rest ih => simp [nodesOfList, ih]

theorem VDirectory.nodes_eq (d : VDirectory) : nodes d = d :: nodesOfList d.subDirs := by
  cases d; simp [nodes, VDirectory.subDirs]

theorem VDirectory.mem_nodes_self (d : VDirectory) : d ∈ nodes d := by
  rw [VDirectory.nodes_eq]; exact List.mem_cons_self _ _

theorem VDirectory.mem_nodes_of_child {d c n : VDirectory} (hc : c ∈ d.subDirs)
    (hn : n ∈ nodes c) : n ∈ nodes d := by
  rw [VDirectory.nodes_eq]
  exact List.mem_cons_of_mem _ ((VDirectory.mem_nodesOfList n _).2 ⟨c, hc, hn⟩)

mutual
theorem VDirectory.close_deleted (w : World) :
    ∀ d : VDirectory, (∀ n ∈ nodes d, ClosedEmpty n) →
      (close w d).2 = { w with deleted := w.deleted ++ objectsBelow d }
  | mk a p n o e c subs fs => by
    intro hinv
    cases o with
    | false =>
      have h := hinv _ (VDirectory.mem_nodes_self _) rfl
      simp only [VDirectory.subDirs, VDirectory.files] at h
      obtain ⟨h1, h2⟩ := h
      subst h1; subst h2
      simp [close, objectsBelow, objectsBelowList]
    | true =>
      have hsub : ∀ n ∈ nodesOfList subs, ClosedEmpty n := by
        intro n hn
        apply hinv
        simp only [nodes]
        exact List.mem_cons_of_mem _ hn
      simp only [close, if_true, objectsBelow]
      rw [VDirectory.closeFiles_eq, VDirectory.closeSubDirs_deleted w subs hsub]
      simp
theorem VDirectory.closeSubDirs_deleted (w : World) :
    ∀ l : List VDirectory, (∀ n ∈ nodesOfList l, ClosedEmpty n) →
      closeSubDirs w l = { w with deleted := w.deleted ++ objectsBelowList l }
  | [] => by intro _; simp [closeSubDirs, objectsBelowList]
  | dir :: rest => by
    intro hinv
    have h1 : ∀ n ∈ nodes dir, ClosedEmpty n := by
      intro n hn; apply hinv; simp only [nodesOfList]; exact List.mem_append_left _ hn
    have h2 : ∀ n ∈ nodesOfList rest, ClosedEmpty n := by
      intro n hn; apply hinv; simp only [nodesOfList]; exact List.mem_append_right _ hn
    simp only [closeSubDirs, objectsBelowList]
    rw [VDirectory.closeSubDirs_deleted _ rest h2, VDirectory.close_deleted w dir h1]
    simp [World.delete]
end

theorem VDirectory.open_fails_on_empty_config_aux (cx : Ctx) (w : World) (d : VDirectory)
    (hclosed : d.opened = false) (hsub : d.subDirs = []) (hfiles : d.files = [])
    (hcfg : (readDirectoryConfig w cx.path).isEmpty = true) :
    ∃ d1 w1, openDirectory cx w d = some (false, d1, w1) ∧ d1.opened = false ∧
      d1.subDirs = [] ∧ d1.files = [] ∧ d1 = d ∧ w1 = w := by
  refine ⟨d, w, ?_, hclosed, hsub, hfiles, rfl, rfl⟩
  unfold openDirectory
  rw [if_neg (by simp [hclosed]), if_pos (by simp [hsub, hfiles])]
  simp only [hcfg, if_true]

/-- C4: for every closed directory (not opened, both sequences empty) whose
config read yields the empty object, open() returns false and leaves the node
as it was: closed, with no child directory and no file; the world is untouched. -/
theorem open_fails_on_empty_config (cx : Ctx) (w : World) (d : VDirectory)
    (hclosed : d.opened = false) (hsub : d.subDirs = []) (hfiles : d.files = [])
    (hcfg : (readDirectoryConfig w cx.path).isEmpty = true) :
    ∃ d1 w1, openDirectory cx w d = some (false, d1, w1) ∧ d1.opened = false ∧
      d1.subDirs = [] ∧ d1.files = [] ∧ d1 = d ∧ w1 = w :=
  VDirectory.open_fails_on_empty_config_aux cx w d hclosed hsub hfiles hcfg

/-- Witness of C4: the freshly constructed root on a disk without any config. -/
theorem open_fails_on_empty_config_witness :
    ∃ d1 w1, openDirectory sampleCtx sampleWorld sampleClosed = some (false, d1, w1) ∧
      d1.opened = false ∧ d1.subDirs = [] ∧ d1.files = [] ∧ d1 = sampleClosed ∧
      w1 = sampleWorld :=
  open_fails_on_empty_config sampleCtx sampleWorld sampleClosed rfl rfl rfl rfl

theorem VDirectory.openDirectory_opened (cx : Ctx) (w : World) (d : VDirectory)
    (h : d.opened = true) : openDirectory cx w d = some (true, d, w) := by
  unfold openDirectory
  rw [if_pos h]

theorem VDirectory.openDirectory_true_opened {cx : Ctx} {w w1 : World} {d d1 : VDirectory}
    (h : openDirectory cx w d = some (true, d1, w1)) : d1.opened = true := by
  unfold openDirectory at h
  split at h
  · rename_i ho
    simp only [Option.some.injEq, Prod.mk.injEq, true_and] at h
    rw [← h.1]; exact ho
  · split at h
    · dsimp only at h
      split at h
      · simp at h
      · simp only [Option.some.injEq, Prod.mk.injEq, true_and] at h
        rw [← h.1]; rfl
    · cases h

/-- C5: open() is idempotent. On an already-opened directory it returns true and
changes neither the node (name, creation time, both sequences, flags) nor the
world, whatever the context and the disk hold; and after any open() that
returned true, a second open() returns true and leaves the node as the first
one left it. -/
theorem open_idempotent (cx : Ctx) (w : World) (d : VDirectory) :
    (d.opened = true → openDirectory cx w d = some (true, d, w)) ∧
    (∀ (d1 : VDirectory) (w1 : World), openDirectory cx w d = some (true, d1, w1) →
      ∀ (cx2 : Ctx) (w2 : World), openDirectory cx2 w2 d1 = some (true, d1, w2)) :=
  ⟨VDirectory.openDirectory_opened cx w d,
   fun _ _ h cx2 w2 =>
     VDirectory.openDirectory_opened cx2 w2 _ (VDirectory.openDirectory_true_opened h)⟩

/-- Witness of C5: the opened sample directory, read against a disk that holds
a different config for its path. -/
theorem open_idempotent_witness :
    openDirectory sampleCtx sampleDisk sampleDir = some (true, sampleDir, sampleDisk) :=
  (open_idempotent sampleCtx sampleDisk sampleDir).1 rfl

theorem VDirectory.close_empty (w : World) (d : VDirectory)
    (h : d.opened = true ∨ (d.subDirs = [] ∧ d.files = [])) :
    (close w d).1.opened = false ∧ (close w d).1.subDirs = [] ∧ (close w d).1.files = [] := by
  cases d with
  | mk a p n o e c subs fs =>
    cases o with
    | true => simp [close, VDirectory.opened, VDirectory.subDirs, VDirectory.files]
    | false =>
      rcases h with h | ⟨h1, h2⟩
      · cases h
      · simp only [VDirectory.subDirs, VDirectory.files] at h1 h2
        subst h1; subst h2
        simp [close, VDirectory.opened, VDirectory.subDirs, VDirectory.files]

theorem VDirectory.close_not_opened (w : World) (d : VDirectory) (h : d.opened = false) :
    close w d = (d, w) := by
  cases d with
  | mk a p n o e c subs fs =>
    simp only [VDirectory.opened] at h
    subst h
    simp [close]

/-- C6: after close() a directory is not opened and has no child directory and
no file (for a node that was opened, or that was closed with both sequences
empty); close() on a directory that is not opened changes nothing, neither the
node nor the world; and on a tree in which every closed node is empty, close()
deletes exactly the objects below the directory, each child after the objects
below that child. -/
theorem close_clears (w : World) (d : VDirectory) :
    ((d.opened = true ∨ (d.subDirs = [] ∧ d.files = [])) →
      (close w d).1.opened = false ∧ (close w d).1.subDirs = [] ∧ (close w d).1.files = []) ∧
    (d.opened = false → close w d = (d, w)) ∧
    ((∀ n ∈ nodes d, ClosedEmpty n) →
      (close w d).2 = { w with deleted := w.deleted ++ objectsBelow d }) :=
  ⟨VDirectory.close_empty w d, VDirectory.close_not_opened w d, VDirectory.close_deleted w d⟩

/-- Witness of C6: closing the sample tree leaves the root closed and empty and
deletes the five objects below it, the objects below `sub` before `sub`. -/
theorem close_clears_witness :
    (close sampleWorld sampleTree).1.opened = false ∧
    (close sampleWorld sampleTree).1.subDirs = [] ∧
    (close sampleWorld sampleTree).1.files = [] ∧
    (close sampleWorld sampleTree).2 = { sampleWorld with deleted := [3, 4, 2, 5, 6] } := by
  have h := close_clears sampleWorld sampleTree
  refine ⟨(h.1 (Or.inl rfl)).1, (h.1 (Or.inl rfl)).2.1, (h.1 (Or.inl rfl)).2.2, ?_⟩
  exact h.2.2 (by
    intro n hn
    simp only [sampleTree, VDirectory.new, nodes, nodesOfList, List.cons_append,
      List.nil_append, List.mem_cons, List.mem_singleton, List.not_mem_nil, or_false] at hn
    rcases hn with rfl | rfl | rfl | rfl <;> simp [ClosedEmpty, VDirectory.opened,
      VDirectory.subDirs, VDirectory.files])

theorem forall₂_map_eq {α β γ : Type} (f : α → γ) (g : β → γ) :
    ∀ (l : List α) (l0 : List β), List.Forall₂ (fun a b => f a = g b) l l0 →
      l.map f = l0.map g := by
  intro l l0 h
  induction h with
  | nil => rfl
  | cons hab _ ih => simp [hab, ih]

theorem VDirectory.toConfigJson_subDirectories (cx : Ctx) (d : VDirectory) :
    ((toConfigJson cx d).value DirConfig.c_subDirectories).toArray
      = d.subDirs.map (fun dir =>
          QJsonValue.object [(DirConfig.c_name, QJsonValue.string dir.name)]) := by
  simp [toConfigJson, QJsonObject.set, QJsonObject.value, DirConfig.c_version,
    DirConfig.c_createdTime, DirConfig.c_subDirectories, DirConfig.c_files, DirConfig.c_name,
    QJsonValue.toArray, List.find?]

theorem VDirectory.toConfigJson_files (cx : Ctx) (d : VDirectory) :
    ((toConfigJson cx d).value DirConfig.c_files).toArray
      = d.files.map (fun file => QJsonValue.object (cx.fileToJson file)) := by
  simp [toConfigJson, QJsonObject.set, QJsonObject.value, DirConfig.c_version,
    DirConfig.c_createdTime, DirConfig.c_subDirectories, DirConfig.c_files, DirConfig.c_name,
    QJsonValue.toArray, List.find?]

theorem VDirectory.toConfigJson_isEmpty (cx : Ctx) (d : VDirectory) :
    (toConfigJson cx d).isEmpty = false := by
  simp [toConfigJson, QJsonObject.set, DirConfig.c_version,
    DirConfig.c_createdTime, DirConfig.c_subDirectories, DirConfig.c_files]



theorem VDirectory.readDirectoryConfig_close (w : World) (d : VDirectory) (path : String) :
    readDirectoryConfig (close w d).2 path = readDirectoryConfig w path := by
  obtain ⟨log, h⟩ := VDirectory.close_frame w d
  rw [h]
  rfl

/-- C7: round trip. For every opened directory whose persisted config equals its
toConfigJson(), close() followed by open() returns true and restores the same
sub-directory names in the same order and the same file names in the same
order (hence as many sub-directories and files as before), provided the file
record round trip fromJson(toConfigJson(f)) keeps the name of each file. -/
theorem close_open_round_trip (cx : Ctx) (w : World) (d : VDirectory)
    (hopen : d.opened = true)
    (hcfg : readDirectoryConfig w cx.path = toConfigJson cx d)
    (hcodec : ∀ f ∈ d.files, ∀ a p : Nat,
      (cx.fileFromJson a p (cx.fileToJson f) FileType.Note true).name = f.name) :
    ∃ d1 w1, openDirectory cx (close w d).2 (close w d).1 = some (true, d1, w1) ∧
      d1.subDirs.map VDirectory.name = d.subDirs.map VDirectory.name ∧
      d1.files.map VNoteFile.name = d.files.map VNoteFile.name := by
  obtain ⟨hc1, hc2, hc3⟩ := VDirectory.close_empty w d (Or.inl hopen)
  have hread : readDirectoryConfig (close w d).2 cx.path = toConfigJson cx d := by
    rw [VDirectory.readDirectoryConfig_close, hcfg]
  obtain ⟨d1, w1, ho, _, hd, hf⟩ := VDirectory.openDirectory_loads cx (close w d).2 (close w d).1 hc1 hc2 hc3
    (by rw [hread]; exact VDirectory.toConfigJson_isEmpty cx d)
  refine ⟨d1, w1, ho, ?_, ?_⟩
  · rw [hread, VDirectory.toConfigJson_subDirectories, List.forall₂_map_right_iff] at hd
    have hd' : List.Forall₂ (fun (c dir : VDirectory) => c.name = dir.name) d1.subDirs
        d.subDirs := by
      refine hd.imp ?_
      intro c dir h
      rw [h.1]
      simp [QJsonValue.toObject, QJsonObject.value, List.find?, QJsonValue.toString]
    exact forall₂_map_eq _ _ _ _ hd'
  · rw [hread, VDirectory.toConfigJson_files, List.forall₂_map_right_iff] at hf
    have hmem : ∀ (l : List VNoteFile) (l0 : List VNoteFile), (∀ f ∈ l0, f ∈ d.files) →
        List.Forall₂ (fun (f file : VNoteFile) => ∃ a, f = cx.fileFromJson a (close w d).1.addr
          (QJsonValue.object (cx.fileToJson file)).toObject FileType.Note true) l l0 →
        l.map VNoteFile.name = l0.map VNoteFile.name := by
      intro l l0 hsubset h
      induction h with
      | nil => rfl
      | @cons f file l' l0' hab _ ih =>
        obtain ⟨a, rfl⟩ := hab
        have h1 := hcodec file (hsubset file (List.mem_cons_self _ _)) a (close w d).1.addr
        have h2 := ih (fun g hg => hsubset g (List.mem_cons_of_mem _ hg))
        simp only [List.map_cons, QJsonValue.toObject]
        rw [h1, h2]
    exact hmem _ _ (fun _ h => h) hf

/-- Witness of C7: the sample tree, saved, closed and opened again, shows the
sub-directories sub, tmp and the file y.md. -/
theorem close_open_round_trip_witness :
    ∃ d1 w1, openDirectory sampleCtx (close sampleSaved sampleTree).2
        (close sampleSaved sampleTree).1 = some (true, d1, w1) ∧
      d1.subDirs.map VDirectory.name = ["sub", "tmp"] ∧
      d1.files.map VNoteFile.name = ["y.md"] :=
  close_open_round_trip sampleCtx sampleSaved sampleTree rfl rfl (by
    intro f _ a p
    simp [sampleCtx, VNoteFile.new, QJsonObject.value, List.find?, QJsonValue.toString])

@[simp] theorem VDirectory.opened_setFiles (d : VDirectory) (fs : List VNoteFile) :
    (d.setFiles fs).opened = d.opened := by cases d; rfl

@[simp] theorem VDirectory.subDirs_setFiles (d : VDirectory) (fs : List VNoteFile) :
    (d.setFiles fs).subDirs = d.subDirs := by cases d; rfl

@[simp] theorem VDirectory.opened_setSubDirs (d : VDirectory) (l : List VDirectory) :
    (d.setSubDirs l).opened = d.opened := by cases d; rfl

@[simp] theorem VDirectory.subDirs_setSubDirs (d : VDirectory) (l : List VDirectory) :
    (d.setSubDirs l).subDirs = l := by cases d; rfl

@[simp] theorem VDirectory.files_setSubDirs (d : VDirectory) (l : List VDirectory) :
    (d.setSubDirs l).files = d.files := by cases d; rfl

@[simp] theorem VDirectory.opened_setParent (d : VDirectory) (p : Nat) :
    (d.setParent p).opened = d.opened := by cases d; rfl

@[simp] theorem VDirectory.subDirs_setParent (d : VDirectory) (p : Nat) :
    (d.setParent p).subDirs = d.subDirs := by cases d; rfl

@[simp] theorem VDirectory.files_setParent (d : VDirectory) (p : Nat) :
    (d.setParent p).files = d.files := by cases d; rfl

@[simp] theorem VDirectory.opened_setName (d : VDirectory) (n : String) :
    (d.setName n).opened = d.opened := by cases d; rfl

@[simp] theorem VDirectory.subDirs_setName (d : VDirectory) (n : String) :
    (d.setName n).subDirs = d.subDirs := by cases d; rfl

@[simp] theorem VDirectory.files_setName (d : VDirectory) (n : String) :
    (d.setName n).files = d.files := by cases d; rfl

theorem VDirectory.closedEmptyTree_iff (d : VDirectory) :
    ClosedEmptyTree d ↔ ClosedEmpty d ∧ ∀ c ∈ d.subDirs, ClosedEmptyTree c := by
  unfold ClosedEmptyTree
  rw [VDirectory.nodes_eq]
  constructor
  · intro h
    refine ⟨h d (List.mem_cons_self _ _), fun c hc n hn => ?_⟩
    exact h n (List.mem_cons_of_mem _ ((VDirectory.mem_nodesOfList n _).2 ⟨c, hc, hn⟩))
  · rintro ⟨h1, h2⟩ n hn
    rcases List.mem_cons.1 hn with rfl | hn
    · exact h1
    · obtain ⟨c, hc, hn⟩ := (VDirectory.mem_nodesOfList n _).1 hn
      exact h2 c hc n hn

/-- A tree whose root differs from the root of an invariant tree in fields other
than the flag and the two sequences satisfies the invariant too. -/
theorem VDirectory.closedEmptyTree_congr {d d1 : VDirectory} (ho : d1.opened = d.opened)
    (hs : d1.subDirs = d.subDirs) (hf : d1.files = d.files) (h : ClosedEmptyTree d) :
    ClosedEmptyTree d1 := by
  rw [VDirectory.closedEmptyTree_iff] at h ⊢
  refine ⟨?_, by rw [hs]; exact h.2⟩
  intro hc
  rw [hs, hf]
  exact h.1 (by rw [← ho]; exact hc)

theorem VDirectory.closedEmptyTree_opened {d : VDirectory} (ho : d.opened = true)
    (h : ∀ c ∈ d.subDirs, ClosedEmptyTree c) : ClosedEmptyTree d := by
  rw [VDirectory.closedEmptyTree_iff]
  refine ⟨?_, h⟩
  intro hc
  rw [ho] at hc
  cases hc

theorem VDirectory.closedEmptyTree_empty {d : VDirectory} (hs : d.subDirs = [])
    (hf : d.files = []) : ClosedEmptyTree d := by
  rw [VDirectory.closedEmptyTree_iff]
  refine ⟨fun _ => ⟨hs, hf⟩, ?_⟩
  rw [hs]
  intro c hc
  cases hc

theorem VDirectory.closedEmptyTree_setFiles {d : VDirectory} (fs : List VNoteFile)
    (ho : d.opened = true) (h : ClosedEmptyTree d) : ClosedEmptyTree (d.setFiles fs) := by
  apply VDirectory.closedEmptyTree_opened (by simpa using ho)
  rw [VDirectory.subDirs_setFiles]
  exact ((VDirectory.closedEmptyTree_iff d).1 h).2

theorem VDirectory.closedEmptyTree_setSubDirs {d : VDirectory} (l : List VDirectory)
    (ho : d.opened = true) (h : ∀ c ∈ l, ClosedEmptyTree c) :
    ClosedEmptyTree (d.setSubDirs l) := by
  apply VDirectory.closedEmptyTree_opened (by simpa using ho)
  rw [VDirectory.subDirs_setSubDirs]
  exact h

theorem VDirectory.closedEmptyTree_close (w : World) (d : VDirectory)
    (h : ClosedEmptyTree d) : ClosedEmptyTree (close w d).1 := by
  cases ho : d.opened with
  | true =>
    obtain ⟨_, h2, h3⟩ := VDirectory.close_empty w d (Or.inl ho)
    exact VDirectory.closedEmptyTree_empty h2 h3
  | false =>
    rw [VDirectory.close_not_opened w d ho]
    exact h

theorem QVector.mem_removeLast {α : Type} {x : α} {v : List α}
    (h : x ∈ QVector.removeLast v) : x ∈ v :=
  List.dropLast_subset v h

theorem QVector.mem_remove {α : Type} {x : α} {v : List α} {i : Nat}
    (h : x ∈ QVector.remove i v) : x ∈ v := by
  unfold QVector.remove at h
  rcases List.mem_append.1 h with h | h
  · exact List.mem_of_mem_take h
  · exact List.mem_of_mem_drop h

theorem QVector.mem_insert {α : Type} {x y : α} {v : List α} {i : Nat}
    (h : x ∈ QVector.insert i y v) : x = y ∨ x ∈ v := by
  unfold QVector.insert at h
  rcases List.mem_append.1 h with h | h
  · exact Or.inr (List.mem_of_mem_take h)
  · rcases List.mem_cons.1 h with h | h
    · exact Or.inl h
    · exact Or.inr (List.mem_of_mem_drop h)

theorem VDirectory.mem_updateSubDir {p : Nat} {f : VDirectory → VDirectory}
    {v : List VDirectory} {x : VDirectory} (h : x ∈ updateSubDir p f v) :
    x ∈ v ∨ ∃ c ∈ v, x = f c := by
  unfold updateSubDir at h
  obtain ⟨c, hc, rfl⟩ := List.mem_map.1 h
  by_cases hp : (c.addr == p) = true
  · rw [if_pos hp]; exact Or.inr ⟨c, hc, rfl⟩
  · rw [if_neg hp]; exact Or.inl hc

theorem forall₂_left_mem {α β : Type} {R : α → β → Prop} {l : List α} {l0 : List β}
    (h : List.Forall₂ R l l0) : ∀ a ∈ l, ∃ b, R a b := by
  induction h with
  | nil => intro a ha; cases ha
  | @cons a b l l0 hab _ ih =>
    intro x hx
    rcases List.mem_cons.1 hx with rfl | hx
    · exact ⟨b, hab⟩
    · exact ih x hx

/-- What open() returns: the node as it was (already opened, or the config is
empty), or an opened node whose children are closed and empty. -/
theorem VDirectory.openDirectory_result {cx : Ctx} {w w1 : World} {d d1 : VDirectory} {r : Bool}
    (h : openDirectory cx w d = some (r, d1, w1)) :
    (d1 = d ∧ w1 = w ∧ r = d.opened) ∨
    (r = true ∧ d.opened = false ∧ d.subDirs = [] ∧ d.files = [] ∧ d1.opened = true ∧
      ∀ c ∈ d1.subDirs, c.opened = false ∧ c.subDirs = [] ∧ c.files = []) := by
  cases ho : d.opened with
  | true =>
    rw [VDirectory.openDirectory_opened cx w d ho] at h
    simp only [Option.some.injEq, Prod.mk.injEq] at h
    exact Or.inl ⟨h.2.1.symm, h.2.2.symm, h.1.symm⟩
  | false =>
    cases hs : d.subDirs with
    | cons c rest =>
      unfold openDirectory at h
      rw [if_neg (by simp [ho]), if_neg (by simp [hs])] at h
      cases h
    | nil =>
      cases hf : d.files with
      | cons f rest =>
        unfold openDirectory at h
        rw [if_neg (by simp [ho]), if_neg (by simp [hf])] at h
        cases h
      | nil =>
        cases hcfg : (readDirectoryConfig w cx.path).isEmpty with
        | true =>
          obtain ⟨d2, w2, h2, _, _, _, hd, hw⟩ :=
            VDirectory.open_fails_on_empty_config_aux cx w d ho hs hf hcfg
          rw [h2] at h
          simp only [Option.some.injEq, Prod.mk.injEq] at h
          exact Or.inl ⟨by rw [← h.2.1, hd], by rw [← h.2.2, hw], h.1.symm⟩
        | false =>
          obtain ⟨d2, w2, h2, hop, hd, _⟩ := VDirectory.openDirectory_loads cx w d ho hs hf hcfg
          rw [h2] at h
          simp only [Option.some.injEq, Prod.mk.injEq] at h
          obtain ⟨hr, hd2, _⟩ := h
          subst hd2
          refine Or.inr ⟨hr.symm, rfl, rfl, rfl, hop, ?_⟩
          intro c hc
          obtain ⟨item, _, h3, h4, h5, _⟩ := forall₂_left_mem hd c hc
          exact ⟨h3, h4, h5⟩

theorem VDirectory.openDirectory_inv {cx : Ctx} {w w1 : World} {d d1 : VDirectory} {r : Bool}
    (h : openDirectory cx w d = some (r, d1, w1)) (hinv : ClosedEmptyTree d) :
    ClosedEmptyTree d1 ∧ (r = true → d1.opened = true) := by
  rcases VDirectory.openDirectory_result h with ⟨h1, _, h3⟩ | ⟨h1, _, _, _, h5, h6⟩
  · subst h1
    exact ⟨hinv, fun hr => by rw [← h3]; exact hr⟩
  · refine ⟨VDirectory.closedEmptyTree_opened h5 ?_, fun _ => h5⟩
    intro c hc
    exact VDirectory.closedEmptyTree_empty (h6 c hc).2.1 (h6 c hc).2.2

theorem VDirectory.closedEmptyTree_new (a : Nat) (p : Option Nat) (n : String) (t : QDateTime) :
    ClosedEmptyTree (VDirectory.new a p n t) :=
  VDirectory.closedEmptyTree_empty rfl rfl

theorem VDirectory.closedEmptyTree_children {d : VDirectory} (h : ClosedEmptyTree d) :
    ∀ c ∈ d.subDirs, ClosedEmptyTree c :=
  ((VDirectory.closedEmptyTree_iff d).1 h).2

theorem VDirectory.createFile_inv {cx : Ctx} {w w1 : World} {d d1 : VDirectory}
    {fileOpenOk writeOk removeOk : Bool} {now : QDateTime} {p_name : String} {r : Option VNoteFile}
    (h : createFile fileOpenOk writeOk removeOk now cx w d p_name = some (r, d1, w1))
    (hinv : ClosedEmptyTree d) : ClosedEmptyTree d1 := by
  unfold createFile at h
  split at h
  · cases h
  · split at h
    · cases h
    · rename_i d0 w0 ho
      simp only [Option.some.injEq, Prod.mk.injEq] at h
      rw [← h.2.1]
      exact (VDirectory.openDirectory_inv ho hinv).1
    · rename_i d0 w0 ho
      obtain ⟨hi, hop⟩ := VDirectory.openDirectory_inv ho hinv
      dsimp only at h
      split at h
      · simp only [Option.some.injEq, Prod.mk.injEq] at h
        rw [← h.2.1]; exact hi
      · split at h
        · cases h
        · simp only [Option.some.injEq, Prod.mk.injEq] at h
          rw [← h.2.1]
          exact VDirectory.closedEmptyTree_setFiles _ (by simpa using hop rfl)
            (VDirectory.closedEmptyTree_setFiles _ (hop rfl) hi)
        · simp only [Option.some.injEq, Prod.mk.injEq] at h
          rw [← h.2.1]
          exact VDirectory.closedEmptyTree_setFiles _ (hop rfl) hi

theorem VDirectory.createSubDirectory_inv {cx : Ctx} {w w1 : World} {d d1 : VDirectory}
    {mkdirOk retWriteOk selfWriteOk delConfigOk rmdirOk : Bool} {now : QDateTime} {p_name : String}
    {r : Option VDirectory}
    (h : createSubDirectory mkdirOk retWriteOk selfWriteOk delConfigOk rmdirOk now cx w d p_name = some (r, d1, w1))
    (hinv : ClosedEmptyTree d) : ClosedEmptyTree d1 := by
  unfold createSubDirectory at h
  split at h
  · cases h
  · split at h
    · cases h
    · rename_i d0 w0 ho
      simp only [Option.some.injEq, Prod.mk.injEq] at h
      rw [← h.2.1]
      exact (VDirectory.openDirectory_inv ho hinv).1
    · rename_i d0 w0 ho
      obtain ⟨hi, hop⟩ := VDirectory.openDirectory_inv ho hinv
      have hnew : ∀ c ∈ d0.subDirs ++ [VDirectory.new
          (w0.addEntry (filePath cx.path p_name)).alloc.1 (some d0.addr) p_name now],
          ClosedEmptyTree c := by
        intro c hc
        rcases List.mem_append.1 hc with hc | hc
        · exact VDirectory.closedEmptyTree_children hi c hc
        · rw [List.mem_singleton.1 hc]
          exact VDirectory.closedEmptyTree_new _ _ _ _
      dsimp only at h
      split at h
      · simp only [Option.some.injEq, Prod.mk.injEq] at h
        rw [← h.2.1]; exact hi
      · split at h
        · cases h
        · simp only [Option.some.injEq, Prod.mk.injEq] at h
          rw [← h.2.1]; exact hi
        · split at h
          · cases h
          · simp only [Option.some.injEq, Prod.mk.injEq] at h
            rw [← h.2.1]
            apply VDirectory.closedEmptyTree_setSubDirs _ (by simpa using hop rfl)
            intro c hc
            have hc' := QVector.mem_removeLast hc
            rw [VDirectory.subDirs_setSubDirs] at hc'
            exact hnew c hc'
          · simp only [Option.some.injEq, Prod.mk.injEq] at h
            rw [← h.2.1]
            exact VDirectory.closedEmptyTree_setSubDirs _ (hop rfl) hnew

theorem VDirectory.addFile_inv {cx : Ctx} {w w1 : World} {d d1 : VDirectory} {writeOk : Bool}
    {p_file : VNoteFile} {p_index : Int} {r : Bool}
    (h : addFile writeOk cx w d p_file p_index = some (r, d1, w1))
    (hinv : ClosedEmptyTree d) : ClosedEmptyTree d1 ∧ (r = true → d1.opened = true) := by
  unfold addFile at h
  split at h
  · cases h
  · rename_i d0 w0 ho
    simp only [Option.some.injEq, Prod.mk.injEq] at h
    rw [← h.2.1, ← h.1]
    exact ⟨(VDirectory.openDirectory_inv ho hinv).1, fun hr => by cases hr⟩
  · rename_i d0 w0 ho
    obtain ⟨hi, hop⟩ := VDirectory.openDirectory_inv ho hinv
    split at h
    · dsimp only at h
      split at h
      · cases h
      · simp only [Option.some.injEq, Prod.mk.injEq] at h
        rw [← h.2.1, ← h.1]
        exact ⟨VDirectory.closedEmptyTree_setFiles _ (by simpa using hop rfl)
          (VDirectory.closedEmptyTree_setFiles _ (hop rfl) hi), fun hr => by cases hr⟩
      · simp only [Option.some.injEq, Prod.mk.injEq] at h
        rw [← h.2.1]
        exact ⟨VDirectory.closedEmptyTree_setFiles _ (by simpa using hop rfl)
          (VDirectory.closedEmptyTree_setFiles _ (hop rfl) hi), fun _ => by simpa using hop rfl⟩
    · cases h

theorem VDirectory.addFileNamed_inv {cx : Ctx} {w w1 : World} {d d1 : VDirectory}
    {writeOk : Bool} {now : QDateTime} {p_name : String} {p_index : Int}
    {r : Option VNoteFile}
    (h : addFileNamed writeOk now cx w d p_name p_index = some (r, d1, w1))
    (hinv : ClosedEmptyTree d) : ClosedEmptyTree d1 := by
  unfold addFileNamed at h
  split at h
  · cases h
  · rename_i d0 w0 ho
    simp only [Option.some.injEq, Prod.mk.injEq] at h
    rw [← h.2.1]
    exact (VDirectory.openDirectory_inv ho hinv).1
  · rename_i d0 w0 ho
    obtain ⟨hi, hop⟩ := VDirectory.openDirectory_inv ho hinv
    split at h
    · simp only [Option.some.injEq, Prod.mk.injEq] at h
      rw [← h.2.1]; exact hi
    · dsimp only at h
      split at h
      · cases h
      · rename_i d2 w2 ha
        simp only [Option.some.injEq, Prod.mk.injEq] at h
        rw [← h.2.1]
        exact (VDirectory.addFile_inv ha hi).1
      · rename_i d2 w2 ha
        simp only [Option.some.injEq, Prod.mk.injEq] at h
        rw [← h.2.1]
        exact (VDirectory.addFile_inv ha hi).1

theorem VDirectory.closedEmptyTree_setParent {c : VDirectory} (p : Nat)
    (h : ClosedEmptyTree c) : ClosedEmptyTree (c.setParent p) :=
  VDirectory.closedEmptyTree_congr (by simp) (by simp) (by simp) h

theorem VDirectory.closedEmptyTree_setName {c : VDirectory} (n : String)
    (h : ClosedEmptyTree c) : ClosedEmptyTree (c.setName n) :=
  VDirectory.closedEmptyTree_congr (by simp) (by simp) (by simp) h

theorem VDirectory.closedEmptyTree_updateSubDir {p : Nat} {f : VDirectory → VDirectory}
    {v : List VDirectory} (hv : ∀ c ∈ v, ClosedEmptyTree c)
    (hf : ∀ c ∈ v, ClosedEmptyTree (f c)) : ∀ c ∈ updateSubDir p f v, ClosedEmptyTree c := by
  intro c hc
  rcases VDirectory.mem_updateSubDir hc with hc | ⟨c0, hc0, rfl⟩
  · exact hv c hc
  · exact hf c0 hc0

theorem VDirectory.addSubDirectory_inv {cx : Ctx} {w w1 : World} {d d1 p_dir : VDirectory}
    {writeOk : Bool} {p_index : Int} {r : Bool}
    (h : addSubDirectory writeOk cx w d p_dir p_index = some (r, d1, w1))
    (hinv : ClosedEmptyTree d) (hp : ClosedEmptyTree p_dir) : ClosedEmptyTree d1 := by
  unfold addSubDirectory at h
  split at h
  · cases h
  · rename_i d0 w0 ho
    simp only [Option.some.injEq, Prod.mk.injEq] at h
    rw [← h.2.1]
    exact (VDirectory.openDirectory_inv ho hinv).1
  · rename_i d0 w0 ho
    obtain ⟨hi, hop⟩ := VDirectory.openDirectory_inv ho hinv
    have hnew : ∀ c ∈ (if p_index = -1 then d0.subDirs ++ [p_dir]
        else QVector.insert p_index.toNat p_dir d0.subDirs), ClosedEmptyTree c := by
      intro c hc
      split at hc
      · rcases List.mem_append.1 hc with hc | hc
        · exact VDirectory.closedEmptyTree_children hi c hc
        · rw [List.mem_singleton.1 hc]; exact hp
      · rcases QVector.mem_insert hc with hc | hc
        · rw [hc]; exact hp
        · exact VDirectory.closedEmptyTree_children hi c hc
    split at h
    · dsimp only at h
      split at h
      · cases h
      · simp only [Option.some.injEq, Prod.mk.injEq] at h
        rw [← h.2.1]
        apply VDirectory.closedEmptyTree_setSubDirs _ (by simpa using hop rfl)
        intro c hc
        rw [VDirectory.subDirs_setSubDirs] at hc
        split at hc
        · rename_i hidx
          exact hnew c (by rw [if_pos hidx]; exact QVector.mem_removeLast hc)
        · rename_i hidx
          exact hnew c (by rw [if_neg hidx]; exact QVector.mem_remove hc)
      · simp only [Option.some.injEq, Prod.mk.injEq] at h
        rw [← h.2.1]
        apply VDirectory.closedEmptyTree_setSubDirs _ (by simpa using hop rfl)
        rw [VDirectory.subDirs_setSubDirs]
        exact VDirectory.closedEmptyTree_updateSubDir hnew
          (fun c hc => VDirectory.closedEmptyTree_setParent _ (hnew c hc))
    · cases h

theorem VDirectory.addSubDirectoryNamed_inv {cx : Ctx} {w w1 : World} {d d1 : VDirectory}
    {writeOk : Bool} {now : QDateTime} {p_name : String} {p_index : Int}
    {r : Option VDirectory}
    (h : addSubDirectoryNamed writeOk now cx w d p_name p_index = some (r, d1, w1))
    (hinv : ClosedEmptyTree d) : ClosedEmptyTree d1 := by
  unfold addSubDirectoryNamed at h
  split at h
  · cases h
  · rename_i d0 w0 ho
    simp only [Option.some.injEq, Prod.mk.injEq] at h
    rw [← h.2.1]
    exact (VDirectory.openDirectory_inv ho hinv).1
  · rename_i d0 w0 ho
    obtain ⟨hi, hop⟩ := VDirectory.openDirectory_inv ho hinv
    dsimp only at h
    split at h
    · cases h
    · rename_i d2 w2 ha
      simp only [Option.some.injEq, Prod.mk.injEq] at h
      rw [← h.2.1]
      exact VDirectory.addSubDirectory_inv ha hi (VDirectory.closedEmptyTree_new _ _ _ _)
    · rename_i d2 w2 ha
      simp only [Option.some.injEq, Prod.mk.injEq] at h
      rw [← h.2.1]
      exact VDirectory.addSubDirectory_inv ha hi (VDirectory.closedEmptyTree_new _ _ _ _)

theorem VDirectory.removeSubDirectory_inv {cx : Ctx} {w w1 : World} {d d1 : VDirectory}
    {writeOk : Bool} {p_dir : Nat} {r : Bool}
    (h : removeSubDirectory writeOk cx w d p_dir = some (r, d1, w1))
    (hinv : ClosedEmptyTree d) : ClosedEmptyTree d1 := by
  unfold removeSubDirectory at h
  split at h
  · rename_i hpre
    dsimp only at h
    split at h
    · split at h
      · cases h
      · simp only [Option.some.injEq, Prod.mk.injEq] at h
        rw [← h.2.1]
        apply VDirectory.closedEmptyTree_setSubDirs _ hpre.1
        intro c hc
        exact VDirectory.closedEmptyTree_children hinv c (QVector.mem_remove hc)
    · cases h
  · cases h

theorem VDirectory.removeFile_inv {cx : Ctx} {w w1 : World} {d d1 : VDirectory}
    {writeOk : Bool} {p_file : Nat} {r : Bool}
    (h : removeFile writeOk cx w d p_file = some (r, d1, w1))
    (hinv : ClosedEmptyTree d) : ClosedEmptyTree d1 := by
  unfold removeFile at h
  split at h
  · rename_i hpre
    dsimp only at h
    split at h
    · split at h
      · cases h
      · simp only [Option.some.injEq, Prod.mk.injEq] at h
        rw [← h.2.1]
        exact VDirectory.closedEmptyTree_setFiles _ hpre.1 hinv
    · cases h
  · cases h

theorem VDirectory.closedEmptyTree_replaceSubDirs {d : VDirectory} (l : List VDirectory)
    (hinv : ClosedEmptyTree d) (hl : ∀ c ∈ l, ClosedEmptyTree c)
    (hclosed : d.opened = false → l = []) : ClosedEmptyTree (d.setSubDirs l) := by
  cases ho : d.opened with
  | true => exact VDirectory.closedEmptyTree_setSubDirs l ho hl
  | false =>
    apply VDirectory.closedEmptyTree_empty
    · rw [VDirectory.subDirs_setSubDirs]; exact hclosed ho
    · rw [VDirectory.files_setSubDirs]
      exact (((VDirectory.closedEmptyTree_iff d).1 hinv).1 ho).2

theorem VDirectory.closedEmptyTree_updateChildren {d : VDirectory} (p : Nat)
    (f : VDirectory → VDirectory) (hinv : ClosedEmptyTree d)
    (hf : ∀ c ∈ d.subDirs, ClosedEmptyTree (f c)) :
    ClosedEmptyTree (d.setSubDirs (updateSubDir p f d.subDirs)) := by
  apply VDirectory.closedEmptyTree_replaceSubDirs _ hinv
  · exact VDirectory.closedEmptyTree_updateSubDir (VDirectory.closedEmptyTree_children hinv) hf
  · intro ho
    rw [(((VDirectory.closedEmptyTree_iff d).1 hinv).1 ho).1]
    rfl

theorem VDirectory.deleteSubDirectory_inv {cx : Ctx} {w w1 : World} {d d1 : VDirectory}
    {removeWriteOk deleteOk : Bool} {p_subDir : Nat} {p_skipRecycleBin : Bool}
    (h : deleteSubDirectory removeWriteOk deleteOk cx w d p_subDir p_skipRecycleBin
      = some (d1, w1))
    (hinv : ClosedEmptyTree d) : ClosedEmptyTree d1 := by
  unfold deleteSubDirectory at h
  split at h
  · cases h
  · dsimp only at h
    split at h
    · cases h
    · rename_i hr
      simp only [Option.some.injEq, Prod.mk.injEq] at h
      rw [← h.1]
      refine VDirectory.removeSubDirectory_inv hr ?_
      exact VDirectory.closedEmptyTree_updateChildren _ _ hinv
        (fun c hc => VDirectory.closedEmptyTree_close w c
          (VDirectory.closedEmptyTree_children hinv c hc))

theorem VDirectory.rename_inv {pcx : Ctx} {w w1 : World} {d d1 : VDirectory}
    {renameOk writeOk backOk : Bool} {self : Nat} {p_name : String} {r : Bool}
    (h : rename renameOk writeOk backOk pcx w d self p_name = some (r, d1, w1))
    (hinv : ClosedEmptyTree d) : ClosedEmptyTree d1 := by
  have hset : ∀ n : String, ClosedEmptyTree
      (d.setSubDirs (updateSubDir self (fun dir => dir.setName n) d.subDirs)) := fun n =>
    VDirectory.closedEmptyTree_updateChildren _ _ hinv
      (fun c hc => VDirectory.closedEmptyTree_setName _
        (VDirectory.closedEmptyTree_children hinv c hc))
  unfold rename at h
  split at h
  · cases h
  · split at h
    · simp only [Option.some.injEq, Prod.mk.injEq] at h
      rw [← h.2.1]; exact hinv
    · dsimp only at h
      split at h
      · simp only [Option.some.injEq, Prod.mk.injEq] at h
        rw [← h.2.1]; exact hinv
      · split at h
        · cases h
        · simp only [Option.some.injEq, Prod.mk.injEq] at h
          rw [← h.2.1]
          exact VDirectory.closedEmptyTree_updateChildren self _ (hset p_name)
            (fun c hc => VDirectory.closedEmptyTree_setName _
              (VDirectory.closedEmptyTree_children (hset p_name) c hc))
        · simp only [Option.some.injEq, Prod.mk.injEq] at h
          rw [← h.2.1]
          exact hset p_name

theorem VDirectory.renameRoot_inv {d d1 : VDirectory} {p_name : String} {r : Bool}
    (h : renameRoot d p_name = some (r, d1)) (hinv : ClosedEmptyTree d) :
    ClosedEmptyTree d1 := by
  unfold renameRoot at h
  split at h
  · simp only [Option.some.injEq, Prod.mk.injEq] at h
    rw [← h.2]; exact hinv
  · cases h

theorem VDirectory.reorderFiles_inv {cx : Ctx} {w w1 : World} {d d1 : VDirectory}
    {writeOk : Bool} {p_first p_last p_destStart : Int}
    (h : reorderFiles writeOk cx w d p_first p_last p_destStart = some (d1, w1))
    (hinv : ClosedEmptyTree d) : ClosedEmptyTree d1 := by
  unfold reorderFiles at h
  split at h
  · rename_i hpre
    dsimp only at h
    split at h
    · cases h
    · split at h
      · cases h
      · simp only [Option.some.injEq, Prod.mk.injEq] at h
        rw [← h.1]
        exact VDirectory.closedEmptyTree_setFiles _ hpre.1 hinv
      · simp only [Option.some.injEq, Prod.mk.injEq] at h
        rw [← h.1]
        exact VDirectory.closedEmptyTree_setFiles _ (by simpa using hpre.1)
          (VDirectory.closedEmptyTree_setFiles _ hpre.1 hinv)
  · cases h

theorem VDirectory.findFile_inv {cx : Ctx} {w w1 : World} {d d1 : VDirectory}
    {p_name : String} {p_caseSensitive : Bool} {r : Option VNoteFile}
    (h : findFile cx w d p_name p_caseSensitive = some (r, d1, w1))
    (hinv : ClosedEmptyTree d) : ClosedEmptyTree d1 := by
  unfold findFile at h
  split at h
  · cases h
  · rename_i d0 w0 ho
    simp only [Option.some.injEq, Prod.mk.injEq] at h
    rw [← h.2.1]
    exact (VDirectory.openDirectory_inv ho hinv).1
  · rename_i d0 w0 ho
    simp only [Option.some.injEq, Prod.mk.injEq] at h
    rw [← h.2.1]
    exact (VDirectory.openDirectory_inv ho hinv).1

theorem VDirectory.findSubDirectory_inv {cx : Ctx} {w w1 : World} {d d1 : VDirectory}
    {p_name : String} {p_caseSensitive : Bool} {r : Option VDirectory}
    (h : findSubDirectory cx w d p_name p_caseSensitive = some (r, d1, w1))
    (hinv : ClosedEmptyTree d) :
    ClosedEmptyTree d1 ∧ ∀ dir, r = some dir → dir ∈ d1.subDirs := by
  unfold findSubDirectory at h
  split at h
  · cases h
  · rename_i d0 w0 ho
    simp only [Option.some.injEq, Prod.mk.injEq] at h
    rw [← h.2.1, ← h.1]
    exact ⟨(VDirectory.openDirectory_inv ho hinv).1, fun _ hd => by cases hd⟩
  · rename_i d0 w0 ho
    simp only [Option.some.injEq, Prod.mk.injEq] at h
    rw [← h.2.1, ← h.1]
    exact ⟨(VDirectory.openDirectory_inv ho hinv).1, fun dir hd => List.mem_of_find?_eq_some hd⟩

theorem VDirectory.tryLoadFile_inv (caseSensitive : Bool) :
    ∀ (p_filePath : List String) (cx : Ctx) (w w1 : World) (d d1 : VDirectory)
      (r : Option VNoteFile),
      tryLoadFile caseSensitive cx w d p_filePath = some (r, d1, w1) →
      ClosedEmptyTree d → ClosedEmptyTree d1 := by
  intro p_filePath
  induction p_filePath with
  | nil =>
    intro cx w w1 d d1 r h hinv
    simp only [tryLoadFile, Option.some.injEq, Prod.mk.injEq] at h
    rw [← h.2.1]; exact hinv
  | cons seg rest ih =>
    intro cx w w1 d d1 r h hinv
    have hfinish : ∀ (opened : Bool) (file : Option VNoteFile) (d3 : VDirectory) (w3 : World),
        ClosedEmptyTree d3 →
        (if (file.isNone && !opened) = true then some (file, (close w3 d3).1, (close w3 d3).2)
          else some (file, d3, w3)) = some (r, d1, w1) → ClosedEmptyTree d1 := by
      intro opened file d3 w3 hd3 hfin
      split at hfin
      · simp only [Option.some.injEq, Prod.mk.injEq] at hfin
        rw [← hfin.2.1]
        exact VDirectory.closedEmptyTree_close w3 d3 hd3
      · simp only [Option.some.injEq, Prod.mk.injEq] at hfin
        rw [← hfin.2.1]
        exact hd3
    cases rest with
    | nil =>
      unfold tryLoadFile at h
      dsimp only at h
      split at h
      · cases h
      · rename_i d0 w0 ho
        simp only [Option.some.injEq, Prod.mk.injEq] at h
        rw [← h.2.1]
        exact (VDirectory.openDirectory_inv ho hinv).1
      · rename_i d0 w0 ho
        obtain ⟨hi, hop⟩ := VDirectory.openDirectory_inv ho hinv
        split at h
        · cases h
        · rename_i file d3 w3 hf
          exact hfinish _ file d3 w3 (VDirectory.findFile_inv hf hi) h
    | cons seg2 rest2 =>
      unfold tryLoadFile at h
      dsimp only at h
      split at h
      · cases h
      · rename_i d0 w0 ho
        simp only [Option.some.injEq, Prod.mk.injEq] at h
        rw [← h.2.1]
        exact (VDirectory.openDirectory_inv ho hinv).1
      · rename_i d0 w0 ho
        obtain ⟨hi, hop⟩ := VDirectory.openDirectory_inv ho hinv
        split at h
        · cases h
        · rename_i file d3 w3 hf
          refine hfinish _ file d3 w3 ?_ h
          split at hf
          · cases hf
          · rename_i d2 w2 hfs
            simp only [Option.some.injEq, Prod.mk.injEq] at hf
            rw [← hf.2.1]
            exact (VDirectory.findSubDirectory_inv hfs hi).1
          · rename_i dir d2 w2 hfs
            obtain ⟨hi2, hmem⟩ := VDirectory.findSubDirectory_inv hfs hi
            split at hf
            · cases hf
            · rename_i file1 dir1 w4 htl
              simp only [Option.some.injEq, Prod.mk.injEq] at hf
              rw [← hf.2.1]
              have hdir1 : ClosedEmptyTree dir1 :=
                ih _ _ _ _ _ _ htl (VDirectory.closedEmptyTree_children hi2 dir (hmem dir rfl))
              exact VDirectory.closedEmptyTree_updateChildren _ _ hi2 (fun _ _ => hdir1)

theorem VDirectory.reachable_closedEmptyTree {d : VDirectory} (h : Reachable d) :
    ClosedEmptyTree d := by
  refine @Reachable.rec
    (fun d d1 _ => ClosedEmptyTree d → ClosedEmptyTree d1)
    (fun d _ => ClosedEmptyTree d)
    ?_ ?_ ?_ ?_ ?_ ?_ ?_ ?_ ?_ ?_ ?_ ?_ ?_ ?_ ?_ ?_ ?_ ?_ ?_ ?_ ?_ d h
  · intro d d1 cx w w1 r h hinv
    exact (VDirectory.openDirectory_inv h hinv).1
  · intro d w hinv
    exact VDirectory.closedEmptyTree_close w d hinv
  · intro d d1 cx w w1 mkdirOk retWriteOk selfWriteOk delConfigOk rmdirOk now p_name r h hinv
    exact VDirectory.createSubDirectory_inv h hinv
  · intro d d1 cx w w1 fileOpenOk writeOk removeOk now p_name r h hinv
    exact VDirectory.createFile_inv h hinv
  · intro d d1 cx w w1 writeOk p_file p_index r h hinv
    exact (VDirectory.addFile_inv h hinv).1
  · intro d d1 cx w w1 writeOk now p_name p_index r h hinv
    exact VDirectory.addFileNamed_inv h hinv
  · intro d d1 p_dir cx w w1 writeOk p_index r _ h hp hinv
    exact VDirectory.addSubDirectory_inv h hinv hp
  · intro d d1 cx w w1 writeOk now p_name p_index r h hinv
    exact VDirectory.addSubDirectoryNamed_inv h hinv
  · intro d d1 cx w w1 writeOk p_dir r h hinv
    exact VDirectory.removeSubDirectory_inv h hinv
  · intro d d1 cx w w1 writeOk p_file r h hinv
    exact VDirectory.removeFile_inv h hinv
  · intro d d1 cx w w1 removeWriteOk deleteOk p_subDir p_skipRecycleBin h hinv
    exact VDirectory.deleteSubDirectory_inv h hinv
  · intro d d1 pcx w w1 renameOk writeOk backOk self p_name r h hinv
    exact VDirectory.rename_inv h hinv
  · intro d d1 p_name r h hinv
    exact VDirectory.renameRoot_inv h hinv
  · intro d d1 cx w w1 writeOk p_first p_last p_destStart h hinv
    exact VDirectory.reorderFiles_inv h hinv
  · intro d d1 cx w w1 p_name p_caseSensitive r h hinv
    exact VDirectory.findFile_inv h hinv
  · intro d d1 cx w w1 p_name p_caseSensitive r h hinv
    exact (VDirectory.findSubDirectory_inv h hinv).1
  · intro d d1 cx w w1 caseSensitive p_filePath r h hinv
    exact VDirectory.tryLoadFile_inv caseSensitive p_filePath cx w w1 d d1 r h hinv
  · intro d c c1 hc _ ih hinv
    exact VDirectory.closedEmptyTree_updateChildren _ _ hinv
      (fun _ _ => ih (VDirectory.closedEmptyTree_children hinv c hc))
  · intro addr parent name created
    exact VDirectory.closedEmptyTree_new addr parent name created
  · intro d d1 _ _ ih1 ih2
    exact ih2 ih1
  · intro d c _ hc ih
    exact VDirectory.closedEmptyTree_children ih c hc

/-- C8: state invariant. In every state that a sequence of open, close,
createSubDirectory, createFile, addFile, addSubDirectory, removeSubDirectory,
removeFile, deleteSubDirectory, rename, reorderFiles, findFile, findSubDirectory
and tryLoadFile calls (each within its assertions, on the node or on a node
below it) reaches from a freshly constructed Directory Node, every node of the
tree whose opened flag is false has an empty child-directory sequence and an
empty file sequence. -/
theorem closed_nodes_are_empty (d : VDirectory) (h : Reachable d) :
    ∀ n ∈ nodes d, n.opened = false → n.subDirs = [] ∧ n.files = [] :=
  VDirectory.reachable_closedEmptyTree h

/-- Witness of C8: the root opened from the sample disk is reachable, and its
closed child `sub` is empty. -/
theorem closed_nodes_are_empty_witness :
    (VDirectory.new 101 (some 1) "sub" QDateTime.null).subDirs = [] ∧
    (VDirectory.new 101 (some 1) "sub" QDateTime.null).files = [] :=
  closed_nodes_are_empty sampleOpened
    (Reachable.step (Reachable.fresh 1 none "nb" QDateTime.null)
      (@Step.openDirectory _ _ sampleCtx sampleDisk { sampleDisk with nextAddr := 103 } true
        (show openDirectory sampleCtx sampleDisk (VDirectory.new 1 none "nb" QDateTime.null)
          = some (true, sampleOpened, { sampleDisk with nextAddr := 103 }) from rfl)))
    (VDirectory.new 101 (some 1) "sub" QDateTime.null)
    (by simp [sampleOpened, VDirectory.new, nodes, nodesOfList])
    rfl

theorem QJsonObject.contains_congr {j j1 : QJsonObject} (h : j.keys = j1.keys) (k : String) :
    j.contains k = j1.contains k := by
  have e : ∀ o : QJsonObject, o.contains k = o.keys.any (fun x => x == k) := by
    intro o
    induction o with
    | nil => rfl
    | cons kv rest ih =>
      simp only [QJsonObject.contains, QJsonObject.keys, List.any_cons, List.map_cons] at ih ⊢
      rw [ih]
  rw [e, e, h]

theorem QJsonObject.keys_set_congr (k : String) (v v1 : QJsonValue) :
    ∀ (j j1 : QJsonObject), j.keys = j1.keys → (j.set k v).keys = (j1.set k v1).keys := by
  intro j
  induction j with
  | nil =>
    intro j1 h
    cases j1 with
    | nil => rfl
    | cons _ _ => simp [QJsonObject.keys] at h
  | cons kv rest ih =>
    intro j1 h
    cases j1 with
    | nil => simp [QJsonObject.keys] at h
    | cons kv1 rest1 =>
      simp only [QJsonObject.keys, List.map_cons, List.cons.injEq] at h
      obtain ⟨h1, h2⟩ := h
      simp only [QJsonObject.set]
      rw [← h1]
      by_cases hk : (kv.1 == k) = true
      · rw [if_pos hk, if_pos hk]
        simp only [QJsonObject.keys, List.map_cons, List.cons.injEq, true_and]
        exact h2
      · rw [if_neg hk, if_neg hk]
        simp only [QJsonObject.keys, List.map_cons, List.cons.injEq]
        exact ⟨h1, ih rest1 h2⟩

theorem VDirectory.mergeNotebookConfig_congr :
    ∀ (nb j j1 : QJsonObject), j.keys = j1.keys →
      (mergeNotebookConfig nb j).isSome = (mergeNotebookConfig nb j1).isSome := by
  intro nb
  induction nb with
  | nil => intro j j1 _; rfl
  | cons kv rest ih =>
    intro j j1 h
    simp only [mergeNotebookConfig]
    rw [QJsonObject.contains_congr h kv.1]
    by_cases hc : j1.contains kv.1 = true
    · rw [if_pos hc, if_pos hc]
    · rw [if_neg hc, if_neg hc]
      exact ih _ _ (QJsonObject.keys_set_congr kv.1 kv.2 kv.2 j j1 h)

theorem VDirectory.toConfigJson_keys (cx : Ctx) (d : VDirectory) :
    (toConfigJson cx d).keys = [DirConfig.c_version, DirConfig.c_createdTime,
      DirConfig.c_subDirectories, DirConfig.c_files] := by
  simp [toConfigJson, QJsonObject.set, QJsonObject.keys, DirConfig.c_version,
    DirConfig.c_createdTime, DirConfig.c_subDirectories, DirConfig.c_files]

theorem VDirectory.configWritable_congr (cx : Ctx) {d d1 : VDirectory}
    (hp : d1.parent = d.parent) : configWritable cx d1 = configWritable cx d := by
  unfold configWritable
  rw [hp, VDirectory.mergeNotebookConfig_congr cx.nbJson (toConfigJson cx d1) (toConfigJson cx d)
    (by rw [VDirectory.toConfigJson_keys, VDirectory.toConfigJson_keys])]

theorem QJsonObject.value_set_ne (k k1 : String) (v : QJsonValue) (hne : (k1 == k) = false) :
    ∀ j : QJsonObject, (j.set k1 v).value k = j.value k := by
  intro j
  induction j with
  | nil => simp [QJsonObject.set, QJsonObject.value, List.find?, hne]
  | cons kv rest ih =>
    simp only [QJsonObject.set]
    by_cases hk : (kv.1 == k1) = true
    · rw [if_pos hk]
      have hkv : (kv.1 == k) = false := by
        have e1 : kv.1 = k1 := by simpa using hk
        rw [e1]; exact hne
      simp [QJsonObject.value, List.find?, hne, hkv]
    · rw [if_neg hk]
      by_cases hkv : (kv.1 == k) = true
      · simp [QJsonObject.value, List.find?, hkv]
      · have ih' := ih
        simp only [QJsonObject.value] at ih' ⊢
        simp only [List.find?, hkv]
        exact ih'

theorem QJsonObject.contains_set (k k1 : String) (v : QJsonValue) :
    ∀ j : QJsonObject, j.contains k = true → (j.set k1 v).contains k = true := by
  intro j
  induction j with
  | nil => intro h; simp [QJsonObject.contains] at h
  | cons kv rest ih =>
    intro h
    simp only [QJsonObject.contains, List.any_cons, Bool.or_eq_true] at h
    simp only [QJsonObject.set]
    by_cases hk : (kv.1 == k1) = true
    · rw [if_pos hk]
      simp only [QJsonObject.contains, List.any_cons, Bool.or_eq_true]
      rcases h with h | h
      · left
        have e1 : kv.1 = k1 := by simpa using hk
        rw [← e1]; exact h
      · right; exact h
    · rw [if_neg hk]
      simp only [QJsonObject.contains, List.any_cons, Bool.or_eq_true]
      rcases h with h | h
      · left; exact h
      · right; exact ih h

theorem VDirectory.mergeNotebookConfig_value (k : String) :
    ∀ (nb j j1 : QJsonObject), mergeNotebookConfig nb j = some j1 → j.contains k = true →
      j1.value k = j.value k := by
  intro nb
  induction nb with
  | nil =>
    intro j j1 h _
    simp only [mergeNotebookConfig, Option.some.injEq] at h
    rw [h]
  | cons kv rest ih =>
    intro j j1 h hk
    simp only [mergeNotebookConfig] at h
    split at h
    · cases h
    · rename_i hc
      have hne : (kv.1 == k) = false := by
        cases hkk : (kv.1 == k) with
        | false => rfl
        | true =>
          have e1 : kv.1 = k := by simpa using hkk
          rw [e1] at hc
          exact absurd hk hc
      rw [ih _ _ h (QJsonObject.contains_set k kv.1 kv.2 j hk),
        QJsonObject.value_set_ne k kv.1 kv.2 hne]

theorem VDirectory.toConfigJson_contains_files (cx : Ctx) (d : VDirectory) :
    (toConfigJson cx d).contains DirConfig.c_files = true := by
  simp [toConfigJson, QJsonObject.set, QJsonObject.contains, DirConfig.c_version,
    DirConfig.c_createdTime, DirConfig.c_subDirectories, DirConfig.c_files]

theorem VDirectory.toConfigJson_contains_subDirectories (cx : Ctx) (d : VDirectory) :
    (toConfigJson cx d).contains DirConfig.c_subDirectories = true := by
  simp [toConfigJson, QJsonObject.set, QJsonObject.contains, DirConfig.c_version,
    DirConfig.c_createdTime, DirConfig.c_subDirectories, DirConfig.c_files]

/-- The object that `writeToConfig` hands to the disk. -/
theorem VDirectory.writeToConfig_writable {cx : Ctx} {d : VDirectory}
    (h : configWritable cx d = true) (ok : Bool) (w : World) :
    ∃ json, writeToConfig ok cx w d = some (writeDirectoryConfig ok w cx.path json) ∧
      ((json.value DirConfig.c_files).toArray
        = d.files.map (fun file => QJsonValue.object (cx.fileToJson file))) ∧
      ((json.value DirConfig.c_subDirectories).toArray
        = d.subDirs.map (fun dir =>
            QJsonValue.object [(DirConfig.c_name, QJsonValue.string dir.name)])) := by
  unfold writeToConfig
  dsimp only
  cases hp : d.parent with
  | some p =>
    refine ⟨toConfigJson cx d, by simp, VDirectory.toConfigJson_files cx d,
      VDirectory.toConfigJson_subDirectories cx d⟩
  | none =>
    unfold configWritable at h
    rw [hp] at h
    simp only [Option.isSome_none, Bool.false_or] at h
    obtain ⟨json, hj⟩ := Option.isSome_iff_exists.1 h
    refine ⟨json, by simp [addNotebookConfig, hp, hj], ?_, ?_⟩
    · rw [VDirectory.mergeNotebookConfig_value _ _ _ _ hj
        (VDirectory.toConfigJson_contains_files cx d)]
      exact VDirectory.toConfigJson_files cx d
    · rw [VDirectory.mergeNotebookConfig_value _ _ _ _ hj
        (VDirectory.toConfigJson_contains_subDirectories cx d)]
      exact VDirectory.toConfigJson_subDirectories cx d

theorem readDirectoryConfig_write (w : World) (path : String) (json : QJsonObject) :
    readDirectoryConfig (writeDirectoryConfig true w path json).2 path = json := by
  simp [readDirectoryConfig, writeDirectoryConfig, List.find?]

theorem VDirectory.openDirectory_total (cx : Ctx) (w : World) (d : VDirectory)
    (hclosed : d.opened = false → d.subDirs = [] ∧ d.files = []) :
    ∃ r0 d0 w0, openDirectory cx w d = some (r0, d0, w0) := by
  cases ho : d.opened with
  | true => exact ⟨true, d, w, VDirectory.openDirectory_opened cx w d ho⟩
  | false =>
    obtain ⟨hs, hf⟩ := hclosed ho
    cases hcfg : (readDirectoryConfig w cx.path).isEmpty with
    | true =>
      obtain ⟨d2, w2, h2, _⟩ := VDirectory.open_fails_on_empty_config_aux cx w d ho hs hf hcfg
      exact ⟨false, d2, w2, h2⟩
    | false =>
      obtain ⟨d2, w2, h2, _⟩ := VDirectory.openDirectory_loads cx w d ho hs hf hcfg
      exact ⟨true, d2, w2, h2⟩

theorem VDirectory.openDirectory_parent {cx : Ctx} {w w1 : World} {d d1 : VDirectory} {r : Bool}
    (h : openDirectory cx w d = some (r, d1, w1)) :
    d1.parent = d.parent ∧ d1.addr = d.addr ∧ d1.name = d.name := by
  unfold openDirectory at h
  split at h
  · simp only [Option.some.injEq, Prod.mk.injEq] at h
    rw [← h.2.1]; exact ⟨rfl, rfl, rfl⟩
  · split at h
    · dsimp only at h
      split at h
      · simp only [Option.some.injEq, Prod.mk.injEq] at h
        rw [← h.2.1]; exact ⟨rfl, rfl, rfl⟩
      · simp only [Option.some.injEq, Prod.mk.injEq] at h
        rw [← h.2.1]; exact ⟨rfl, rfl, rfl⟩
    · cases h

@[simp] theorem VDirectory.parent_setFiles (d : VDirectory) (fs : List VNoteFile) :
    (d.setFiles fs).parent = d.parent := by cases d; rfl

@[simp] theorem VDirectory.parent_setSubDirs (d : VDirectory) (l : List VDirectory) :
    (d.setSubDirs l).parent = d.parent := by cases d; rfl

theorem World.not_mem_removeEntry (w : World) (path : String) :
    path ∉ (w.removeEntry path).entries := by
  simp [World.removeEntry]

theorem VDirectory.writeDirectoryConfig_false (w : World) (path : String) (json : QJsonObject) :
    writeDirectoryConfig false w path json = (false, w) := rfl

theorem VDirectory.writeDirectoryConfig_true_fst (w : World) (path : String)
    (json : QJsonObject) : (writeDirectoryConfig true w path json).1 = true := rfl

/-- What createFile() does once open() has returned `(r0, d0, w0)`. -/
theorem VDirectory.createFile_after_open (fileOpenOk writeOk removeOk : Bool) (now : QDateTime)
    (cx : Ctx) (w w0 : World) (d d0 : VDirectory) (r0 : Bool) (p_name : String)
    (hname : p_name.isEmpty = false)
    (hnb : configWritable cx d = true)
    (ho : openDirectory cx w d = some (r0, d0, w0)) :
    ∃ r d1 w1,
      createFile fileOpenOk writeOk removeOk now cx w d p_name = some (r, d1, w1) ∧
      r.isSome = (r0 && fileOpenOk && writeOk) ∧
      ((∃ ret, r = some ret ∧ ret.name = p_name ∧ ret.createdTimeUtc = ret.modifiedTimeUtc ∧
          d1.files = d0.files ++ [ret] ∧
          ((readDirectoryConfig w1 cx.path).value DirConfig.c_files).toArray
            = (d0.files ++ [ret]).map (fun f => QJsonValue.object (cx.fileToJson f)))
       ∨ (r = none ∧ d1.files = d0.files ∧
          (r0 = true → fileOpenOk = true → removeOk = true →
            filePath cx.path p_name ∉ w1.entries) ∧
          (r0 = true → fileOpenOk = true → removeOk = false →
            filePath cx.path p_name ∈ w1.entries))) := by
  unfold createFile
  rw [if_neg (by simp [hname]), ho]
  cases r0 with
  | false =>
    exact ⟨none, d0, w0, rfl, rfl, Or.inr ⟨rfl, rfl, (fun h => by cases h), fun h => by cases h⟩⟩
  | true =>
    cases fileOpenOk with
    | false =>
      exact ⟨none, d0, w0, rfl, rfl,
        Or.inr ⟨rfl, rfl, (fun _ h => by cases h), fun _ h => by cases h⟩⟩
    | true =>
      dsimp only
      have hw : configWritable cx (d0.setFiles (d0.files ++
          [VNoteFile.new (w0.addEntry (filePath cx.path p_name)).alloc.1 d0.addr p_name
            FileType.Note true now now])) = true := by
        have hp : (d0.setFiles (d0.files ++
            [VNoteFile.new (w0.addEntry (filePath cx.path p_name)).alloc.1 d0.addr p_name
              FileType.Note true now now])).parent = d.parent := by
          rw [VDirectory.parent_setFiles]
          exact (VDirectory.openDirectory_parent ho).1
        rw [VDirectory.configWritable_congr cx hp]
        exact hnb
      cases writeOk with
      | false =>
        obtain ⟨json, hj, _, _⟩ := VDirectory.writeToConfig_writable hw false
          (w0.addEntry (filePath cx.path p_name)).alloc.2
        rw [hj, VDirectory.writeDirectoryConfig_false]
        refine ⟨none, _, _, rfl, rfl, Or.inr ⟨rfl, ?_, fun _ _ hrm => ?_, fun _ _ hrm => ?_⟩⟩
        · simp [VDirectory.files_setFiles, QVector.removeLast]
        · subst hrm
          exact World.not_mem_removeEntry _ _
        · subst hrm
          simp [World.delete, World.alloc, World.addEntry]
      | true =>
        obtain ⟨json, hj, hfiles, _⟩ := VDirectory.writeToConfig_writable hw true
          (w0.addEntry (filePath cx.path p_name)).alloc.2
        rw [hj]
        refine ⟨some _, _, _, rfl, rfl, Or.inl ⟨_, rfl, rfl, rfl, ?_, ?_⟩⟩
        · simp [VDirectory.files_setFiles]
        · have hread := readDirectoryConfig_write
            (w0.addEntry (filePath cx.path p_name)).alloc.2 cx.path json
          rw [VDirectory.files_setFiles] at hfiles
          rw [← hfiles]
          exact congrArg (fun j => (QJsonObject.value j DirConfig.c_files).toArray) hread

/-- C9, as amended: for every directory within the state invariant and every
non-empty name, createFile(name) either (a) returns a new File Node with that
name, with creation time equal to modification time, placed as the last
element of the file sequence (all earlier elements unchanged) and included in
the config that was written, or (b) returns failure and leaves the file
sequence as it was: the sequence before the call for a directory that was
already opened or could not be opened, the sequence that open() loaded for a
directory the call had to open. In case (b), when the physical file had been
created, its removal has been issued and its result is not looked at: the file
is gone when the removal succeeds and still on disk when it fails. (a) happens
exactly when open(), the creation of the physical file and the config write
all succeed. -/
theorem createFile_atomic_after_open (fileOpenOk writeOk removeOk : Bool) (now : QDateTime)
    (cx : Ctx) (w : World) (d : VDirectory) (p_name : String)
    (hname : p_name.isEmpty = false)
    (hclosed : d.opened = false → d.subDirs = [] ∧ d.files = [])
    (hnb : configWritable cx d = true) :
    ∃ r0 d0 w0 r d1 w1,
      openDirectory cx w d = some (r0, d0, w0) ∧
      (d.opened = true ∨ r0 = false → d0 = d) ∧
      createFile fileOpenOk writeOk removeOk now cx w d p_name = some (r, d1, w1) ∧
      r.isSome = (r0 && fileOpenOk && writeOk) ∧
      ((∃ ret, r = some ret ∧ ret.name = p_name ∧ ret.createdTimeUtc = ret.modifiedTimeUtc ∧
          d1.files = d0.files ++ [ret] ∧
          ((readDirectoryConfig w1 cx.path).value DirConfig.c_files).toArray
            = (d0.files ++ [ret]).map (fun f => QJsonValue.object (cx.fileToJson f)))
       ∨ (r = none ∧ d1.files = d0.files ∧
          (r0 = true → fileOpenOk = true → removeOk = true →
            filePath cx.path p_name ∉ w1.entries) ∧
          (r0 = true → fileOpenOk = true → removeOk = false →
            filePath cx.path p_name ∈ w1.entries))) := by
  obtain ⟨r0, d0, w0, ho⟩ := VDirectory.openDirectory_total cx w d hclosed
  obtain ⟨r, d1, w1, h1, h2, h3⟩ :=
    VDirectory.createFile_after_open fileOpenOk writeOk removeOk now cx w w0 d d0 r0 p_name hname hnb ho
  refine ⟨r0, d0, w0, r, d1, w1, ho, ?_, h1, h2, h3⟩
  intro hcase
  rcases VDirectory.openDirectory_result ho with ⟨hd, _, _⟩ | ⟨hr, hcl, _⟩
  · exact hd
  · rcases hcase with hop | hr0
    · rw [hop] at hcl; cases hcl
    · rw [hr0] at hr; cases hr

/-- Witness of C9 as amended: on the closed root with a saved config, a failed
config write leaves the two loaded files and no physical file x.md. -/
theorem createFile_atomic_after_open_witness :
    ∃ r0 d0 w0 r d1 w1,
      openDirectory sampleCtx sampleDisk sampleClosed = some (r0, d0, w0) ∧
      (sampleClosed.opened = true ∨ r0 = false → d0 = sampleClosed) ∧
      createFile true false true QDateTime.null sampleCtx sampleDisk sampleClosed "x.md"
        = some (r, d1, w1) ∧
      r.isSome = (r0 && true && false) ∧
      ((∃ ret, r = some ret ∧ ret.name = "x.md" ∧ ret.createdTimeUtc = ret.modifiedTimeUtc ∧
          d1.files = d0.files ++ [ret] ∧
          ((readDirectoryConfig w1 sampleCtx.path).value DirConfig.c_files).toArray
            = (d0.files ++ [ret]).map (fun f => QJsonValue.object (sampleCtx.fileToJson f)))
       ∨ (r = none ∧ d1.files = d0.files ∧
          (r0 = true → true = true → true = true →
            filePath sampleCtx.path "x.md" ∉ w1.entries) ∧
          (r0 = true → true = true → true = false →
            filePath sampleCtx.path "x.md" ∈ w1.entries))) :=
  createFile_atomic_after_open true false true QDateTime.null sampleCtx sampleDisk sampleClosed "x.md"
    rfl (fun _ => ⟨rfl, rfl⟩) rfl

/-- Counterexample to C9 as stated: on the opened directory with the notes A, B,
C, D, E, createFile("x.md") creates the physical file, the config write fails
and the removal of the file fails as well. The call returns failure with the
file sequence as before the call, and the physical file it created has not
been removed: `/nb/x.md`, which was not there before, is on disk. -/
theorem createFile_failure_leaves_file :
    sampleDir.opened = true ∧ "/nb/x.md" ∉ sampleWorld.entries ∧
    ∃ d1 w1, createFile true false false QDateTime.null sampleCtx sampleWorld sampleDir "x.md"
        = some (none, d1, w1) ∧
      d1.files = sampleDir.files ∧ "/nb/x.md" ∈ w1.entries :=
  ⟨rfl, by decide, _, _, rfl, rfl, by decide⟩

theorem VDirectory.configWritable_of_parent (cx : Ctx) (d : VDirectory) (p : Nat)
    (h : d.parent = some p) : configWritable cx d = true := by
  unfold configWritable
  rw [h]
  rfl



/-- What createSubDirectory() does once open() has returned `(r0, d0, w0)`. -/
theorem VDirectory.createSubDirectory_after_open (mkdirOk retWriteOk selfWriteOk delConfigOk rmdirOk : Bool)
    (now : QDateTime) (cx : Ctx) (w w0 : World) (d d0 : VDirectory) (r0 : Bool)
    (p_name : String) (hname : p_name.isEmpty = false)
    (hnb : configWritable cx d = true)
    (ho : openDirectory cx w d = some (r0, d0, w0)) :
    ∃ r d1 w1,
      createSubDirectory mkdirOk retWriteOk selfWriteOk delConfigOk rmdirOk now cx w d p_name = some (r, d1, w1) ∧
      r.isSome = (r0 && mkdirOk && retWriteOk && selfWriteOk) ∧
      (r = none → d1.subDirs = d0.subDirs) ∧
      (∀ ret, r = some ret → ret.name = p_name ∧ ret.opened = false ∧
        d1.subDirs = d0.subDirs ++ [ret]) := by
  unfold createSubDirectory
  rw [if_neg (by simp [hname]), ho]
  cases r0 with
  | false => exact ⟨none, d0, w0, rfl, rfl, fun _ => rfl, fun _ h => by cases h⟩
  | true =>
    cases mkdirOk with
    | false => exact ⟨none, d0, w0, rfl, rfl, fun _ => rfl, fun _ h => by cases h⟩
    | true =>
      dsimp only
      obtain ⟨json1, hj1, _, _⟩ := VDirectory.writeToConfig_writable
        (VDirectory.configWritable_of_parent (cx.child p_name)
          (VDirectory.new (w0.addEntry (filePath cx.path p_name)).alloc.1 (some d0.addr)
            p_name now) d0.addr rfl)
        retWriteOk (w0.addEntry (filePath cx.path p_name)).alloc.2
      rw [hj1]
      cases retWriteOk with
      | false =>
        rw [VDirectory.writeDirectoryConfig_false]
        exact ⟨none, d0, _, rfl, rfl, fun _ => rfl, fun _ h => by cases h⟩
      | true =>
        have hw : configWritable cx (d0.setSubDirs (d0.subDirs ++
            [VDirectory.new (w0.addEntry (filePath cx.path p_name)).alloc.1 (some d0.addr)
              p_name now])) = true := by
          have hp : (d0.setSubDirs (d0.subDirs ++
              [VDirectory.new (w0.addEntry (filePath cx.path p_name)).alloc.1 (some d0.addr)
                p_name now])).parent = d.parent := by
            rw [VDirectory.parent_setSubDirs]
            exact (VDirectory.openDirectory_parent ho).1
          rw [VDirectory.configWritable_congr cx hp]
          exact hnb
        obtain ⟨json2, hj2, _, _⟩ := VDirectory.writeToConfig_writable hw selfWriteOk
          (writeDirectoryConfig true (w0.addEntry (filePath cx.path p_name)).alloc.2
            (cx.child p_name).path json1).2
        have hfst : writeDirectoryConfig true (w0.addEntry (filePath cx.path p_name)).alloc.2
            (cx.child p_name).path json1
            = (true, (writeDirectoryConfig true (w0.addEntry (filePath cx.path p_name)).alloc.2
              (cx.child p_name).path json1).2) := rfl
        rw [hfst]
        dsimp only
        rw [hj2]
        cases selfWriteOk with
        | false =>
          rw [VDirectory.writeDirectoryConfig_false]
          refine ⟨none, _, _, rfl, rfl, fun _ => ?_, fun _ h => by cases h⟩
          simp [VDirectory.subDirs_setSubDirs, QVector.removeLast]
        | true =>
          refine ⟨some _, _, _, rfl, rfl, (fun h => by cases h), fun ret h => ?_⟩
          simp only [Option.some.injEq] at h
          subst h
          exact ⟨rfl, rfl, by simp [VDirectory.subDirs_setSubDirs]⟩

/-- C10: for every directory within the state invariant and every non-empty
name, createSubDirectory(name) reports failure exactly when a step fails (self
cannot be opened, the folder cannot be created, the config of the new node or
the config of self cannot be written), and then the child-directory sequence of
self is identical to the sequence it had before the new node was appended (the
sequence of the opened directory, which is the sequence before the call when
self was already opened or cannot be opened): no new node remains registered.
On success the new node, named as asked and closed, is the last element of the
sequence and all earlier elements are unchanged. -/
theorem createSubDirectory_rolls_back (mkdirOk retWriteOk selfWriteOk delConfigOk rmdirOk : Bool)
    (now : QDateTime) (cx : Ctx) (w : World) (d : VDirectory) (p_name : String)
    (hname : p_name.isEmpty = false)
    (hclosed : d.opened = false → d.subDirs = [] ∧ d.files = [])
    (hnb : configWritable cx d = true) :
    ∃ r0 d0 w0 r d1 w1,
      openDirectory cx w d = some (r0, d0, w0) ∧
      (d.opened = true ∨ r0 = false → d0 = d) ∧
      createSubDirectory mkdirOk retWriteOk selfWriteOk delConfigOk rmdirOk now cx w d p_name = some (r, d1, w1) ∧
      r.isSome = (r0 && mkdirOk && retWriteOk && selfWriteOk) ∧
      (r = none → d1.subDirs = d0.subDirs) ∧
      (∀ ret, r = some ret → ret.name = p_name ∧ ret.opened = false ∧
        d1.subDirs = d0.subDirs ++ [ret]) := by
  obtain ⟨r0, d0, w0, ho⟩ := VDirectory.openDirectory_total cx w d hclosed
  obtain ⟨r, d1, w1, h1, h2, h3, h4⟩ :=
    VDirectory.createSubDirectory_after_open mkdirOk retWriteOk selfWriteOk delConfigOk rmdirOk
      now cx w w0 d d0 r0
      p_name hname hnb ho
  refine ⟨r0, d0, w0, r, d1, w1, ho, ?_, h1, h2, h3, h4⟩
  intro hcase
  rcases VDirectory.openDirectory_result ho with ⟨hd, _, _⟩ | ⟨hr, hcl, _⟩
  · exact hd
  · rcases hcase with hop | hr0
    · rw [hop] at hcl; cases hcl
    · rw [hr0] at hr; cases hr

/-- Witness of C10: on the opened sample tree the write of the config of self
fails, and the child-directory sequence is as it was. -/
theorem createSubDirectory_rolls_back_witness :
    ∃ r0 d0 w0 r d1 w1,
      openDirectory sampleCtx sampleSaved sampleTree = some (r0, d0, w0) ∧
      (sampleTree.opened = true ∨ r0 = false → d0 = sampleTree) ∧
      createSubDirectory true true false true true QDateTime.null sampleCtx sampleSaved sampleTree "new"
        = some (r, d1, w1) ∧
      r.isSome = (r0 && true && true && false) ∧
      (r = none → d1.subDirs = d0.subDirs) ∧
      (∀ ret, r = some ret → ret.name = "new" ∧ ret.opened = false ∧
        d1.subDirs = d0.subDirs ++ [ret]) :=
  createSubDirectory_rolls_back true true false true true QDateTime.null sampleCtx sampleSaved sampleTree
    "new" rfl (fun h => by cases h) rfl

theorem QJsonValue.toArray_ne_nil_iff (v : QJsonValue) :
    v.toArray.isEmpty = false ↔ ∃ x rest, v = QJsonValue.array (x :: rest) := by
  cases v with
  | array a =>
    cases a with
    | nil => simp [QJsonValue.toArray]
    | cons x rest => simp [QJsonValue.toArray]
  | _ => simp [QJsonValue.toArray]

theorem QJsonObject.contains_of_isEmpty {obj : QJsonObject} (h : obj.isEmpty = true)
    (k : String) : obj.contains k = false := by
  cases obj with
  | nil => rfl
  | cons _ _ => simp at h

theorem VFileList.pasteAvailable_eq (nonce : Int) (obj : QJsonObject) :
    VFileList.pasteAvailable nonce obj =
      (obj.contains ClipboardConfig.c_type
        && decide ((obj.value ClipboardConfig.c_type).toInt = ClipboardOpType.CopyFile)
        && obj.contains ClipboardConfig.c_magic
        && obj.contains ClipboardConfig.c_isCut
        && obj.contains ClipboardConfig.c_files
        && decide (nonce = (obj.value ClipboardConfig.c_magic).toInt)
        && !(obj.value ClipboardConfig.c_files).toArray.isEmpty) := by
  unfold VFileList.pasteAvailable VFileList.checkMagic
  by_cases he : obj.isEmpty = true
  · simp [he, QJsonObject.contains_of_isEmpty he]
  · simp only [he, Bool.false_eq_true, if_false]
    cases h1 : obj.contains ClipboardConfig.c_type <;>
    cases h2 : obj.contains ClipboardConfig.c_magic <;>
    cases h3 : obj.contains ClipboardConfig.c_isCut <;>
    cases h4 : obj.contains ClipboardConfig.c_files <;>
    by_cases h5 : (obj.value ClipboardConfig.c_type).toInt = ClipboardOpType.CopyFile <;>
    by_cases h6 : nonce = (obj.value ClipboardConfig.c_magic).toInt <;>
    simp [h5, h6]

/-- C19, as amended: for every clipboard JSON object and every current nonce,
pasteAvailable() returns true if and only if the object contains the four keys
magic, type, is_cut and files, its type value read with toInt() equals
CopyFile, its magic value read with toInt() equals the nonce of the session,
and its files value is a non-empty array; toInt() yields the number of a
numeric value that fits an `int` and 0 for every other value, a string or an
out-of-range number included (numbers are the whole numbers). -/
theorem pasteAvailable_iff (nonce : Int) (obj : QJsonObject) :
    (VFileList.pasteAvailable nonce obj = true ↔
      (obj.contains ClipboardConfig.c_magic = true ∧ obj.contains ClipboardConfig.c_type = true ∧
        obj.contains ClipboardConfig.c_isCut = true ∧ obj.contains ClipboardConfig.c_files = true ∧
        (obj.value ClipboardConfig.c_type).toInt = ClipboardOpType.CopyFile ∧
        (obj.value ClipboardConfig.c_magic).toInt = nonce ∧
        ∃ x rest, obj.value ClipboardConfig.c_files = QJsonValue.array (x :: rest))) ∧
    (∀ n : Int, -2147483648 ≤ n ∧ n ≤ 2147483647 → (QJsonValue.double n).toInt = n) ∧
    (∀ n : Int, n < -2147483648 ∨ 2147483647 < n → (QJsonValue.double n).toInt = 0) ∧
    (∀ v : QJsonValue, (∀ n : Int, v ≠ QJsonValue.double n) → v.toInt = 0) := by
  refine ⟨?_, ?_, ?_, ?_⟩
  · rw [VFileList.pasteAvailable_eq, ← QJsonValue.toArray_ne_nil_iff]
    simp only [Bool.and_eq_true, decide_eq_true_eq, Bool.not_eq_true']
    constructor
    · rintro ⟨⟨⟨⟨⟨⟨h1, h2⟩, h3⟩, h4⟩, h5⟩, h6⟩, h7⟩
      exact ⟨h3, h1, h4, h5, h2, h6.symm, h7⟩
    · rintro ⟨h3, h1, h4, h5, h2, h6, h7⟩
      exact ⟨⟨⟨⟨⟨⟨h1, h2⟩, h3⟩, h4⟩, h5⟩, h6.symm⟩, h7⟩
  · intro n hn
    simp [QJsonValue.toInt, hn.1, hn.2]
  · intro n hn
    have hno : ¬ (-2147483648 ≤ n ∧ n ≤ 2147483647) := by omega
    simp only [QJsonValue.toInt, if_neg hno]
  · intro v hv
    cases v with
    | double n => exact absurd rfl (hv n)
    | _ => rfl

/-- Witness of C19 as amended: the well-formed payload with magic 41 is accepted
under the nonce 41, and a magic given as the string "41" is read as 0. -/
theorem pasteAvailable_iff_witness :
    VFileList.pasteAvailable 41 samplePayload = true ∧
    (QJsonValue.string "41").toInt = 0 :=
  ⟨(pasteAvailable_iff 41 samplePayload).1.2
      ⟨rfl, rfl, rfl, rfl, rfl, rfl, _, _, rfl⟩,
    (pasteAvailable_iff 41 samplePayload).2.2.2 (QJsonValue.string "41")
      (fun _ h => by cases h)⟩

/-- Counterexample to C19 as stated: under the nonce 0, a payload with the four
keys, the type CopyFile and one file is accepted although its magic is the
string "stale", and also when its magic is the number 4294967296: neither
magic value equals the nonce. Under the nonce 41, the payload with the magic 41
whose type is the string "not-a-number" is accepted although its type value is
not CopyFile. -/
theorem pasteAvailable_accepts_non_numbers :
    VFileList.pasteAvailable 0
        [("magic", QJsonValue.string "stale"),
         ("type", QJsonValue.double ClipboardOpType.CopyFile),
         ("is_cut", QJsonValue.bool false),
         ("files", QJsonValue.array [QJsonValue.string "/nb/a.md"])] = true ∧
    QJsonValue.string "stale" ≠ QJsonValue.double 0 ∧
    VFileList.pasteAvailable 0
        [("magic", QJsonValue.double 4294967296),
         ("type", QJsonValue.double ClipboardOpType.CopyFile),
         ("is_cut", QJsonValue.bool false),
         ("files", QJsonValue.array [QJsonValue.string "/nb/a.md"])] = true ∧
    (4294967296 : Int) ≠ 0 ∧
    VFileList.pasteAvailable 41
        [("magic", QJsonValue.double 41), ("type", QJsonValue.string "not-a-number"),
         ("is_cut", QJsonValue.bool false),
         ("files", QJsonValue.array [QJsonValue.string "/nb/a.md"])] = true ∧
    QJsonValue.string "not-a-number" ≠ QJsonValue.double ClipboardOpType.CopyFile :=
  ⟨by decide, (fun h => by cases h), by decide, by decide, by decide, (fun h => by cases h)⟩

/-- C20: for every clipboard payload whose magic is an integer (an `int` of the
payload format) that differs from the nonce of the session, pasteAvailable()
returns false, however well-formed the rest of the payload is. -/
theorem pasteAvailable_stale_magic (nonce m : Int) (obj : QJsonObject)
    (hmagic : obj.value ClipboardConfig.c_magic = QJsonValue.double m)
    (hint : -2147483648 ≤ m ∧ m ≤ 2147483647)
    (hne : m ≠ nonce) :
    VFileList.pasteAvailable nonce obj = false := by
  rw [VFileList.pasteAvailable_eq]
  have h : (obj.value ClipboardConfig.c_magic).toInt = m := by
    rw [hmagic]
    simp [QJsonValue.toInt, hint.1, hint.2]
  have h2 : decide (nonce = (obj.value ClipboardConfig.c_magic).toInt) = false := by
    rw [h]
    exact decide_eq_false (fun e => hne e.symm)
  rw [h2]
  simp

/-- Witness of C20: a payload with all four keys, type CopyFile and one file,
whose magic 41 is not the nonce 42, is rejected; with the nonce 41 it would be
accepted. -/
theorem pasteAvailable_stale_magic_witness :
    VFileList.pasteAvailable 42 samplePayload = false ∧
    VFileList.pasteAvailable 41 samplePayload = true :=
  ⟨pasteAvailable_stale_magic 42 41 samplePayload rfl (by decide) (by decide), by decide⟩

theorem find?_first {α : Type} (p : α → Bool) :
    ∀ (l : List α) (x : α), l.find? p = some x →
      ∃ i : Nat, l[i]? = some x ∧ p x = true ∧
        ∀ j : Nat, j < i → ∀ g, l[j]? = some g → p g = false := by
  intro l
  induction l with
  | nil => intro x h; simp at h
  | cons a rest ih =>
    intro x h
    cases hp : p a with
    | true =>
      simp only [List.find?, hp, Option.some.injEq] at h
      subst h
      exact ⟨0, by simp, hp, fun j hj => absurd hj (Nat.not_lt_zero j)⟩
    | false =>
      simp only [List.find?, hp] at h
      obtain ⟨i, h1, h2, h3⟩ := ih x h
      refine ⟨i + 1, by simpa using h1, h2, ?_⟩
      intro j hj g hg
      cases j with
      | zero =>
        simp only [List.getElem?_cons_zero, Option.some.injEq] at hg
        rw [← hg]; exact hp
      | succ j =>
        simp only [List.getElem?_cons_succ] at hg
        exact h3 j (by omega) g hg

theorem find?_none_iff {α : Type} (p : α → Bool) (l : List α) :
    l.find? p = none ↔ ∀ x ∈ l, p x = false := by
  induction l with
  | nil => simp
  | cons a rest ih =>
    cases hp : p a with
    | true => simp [List.find?, hp]
    | false => simp [List.find?, hp, ih]

theorem nameMatches_eq (toLower : String → String) (cs : Bool) (p_name candidate : String) :
    ((if cs then p_name else toLower p_name)
        == (if cs then candidate else toLower candidate))
      = nameMatches toLower cs p_name candidate := by
  cases cs <;> simp [nameMatches, Bool.beq_comm, BEq.comm]

theorem VDirectory.findFile_opens {cx : Ctx} {w w0 : World} {d d0 : VDirectory}
    (ho : openDirectory cx w d = some (true, d0, w0)) (p_name : String) (cs : Bool) :
    findFile cx w d p_name cs
      = some (d0.files.find? (fun f => nameMatches cx.toLower cs p_name f.name), d0, w0) := by
  unfold findFile
  rw [ho]
  simp only [nameMatches_eq]

theorem VDirectory.findSubDirectory_opens {cx : Ctx} {w w0 : World} {d d0 : VDirectory}
    (ho : openDirectory cx w d = some (true, d0, w0)) (p_name : String) (cs : Bool) :
    findSubDirectory cx w d p_name cs
      = some (d0.subDirs.find? (fun c => nameMatches cx.toLower cs p_name c.name), d0, w0) := by
  unfold findSubDirectory
  rw [ho]
  simp only [nameMatches_eq]

/-- C11: for every directory that opens successfully, every name and flag,
findFile(name, caseSensitive) returns the file of lowest index whose name
matches (equal names when caseSensitive, equal lower-cased names otherwise),
and not-found exactly when no file matches; findSubDirectory does the same over
the child-directory sequence. Lower-casing is `QString::toLower()`, the case
mapping `cx.toLower` of the toolkit, whatever it maps. -/
theorem find_returns_first_match (cx : Ctx) (w w0 : World) (d d0 : VDirectory)
    (p_name : String) (cs : Bool) (ho : openDirectory cx w d = some (true, d0, w0)) :
    (∃ r, findFile cx w d p_name cs = some (r, d0, w0) ∧
      (r = none ↔ ∀ f ∈ d0.files, nameMatches cx.toLower cs p_name f.name = false) ∧
      (∀ f, r = some f → ∃ i : Nat, d0.files[i]? = some f ∧
        nameMatches cx.toLower cs p_name f.name = true ∧
        ∀ j : Nat, j < i → ∀ g, d0.files[j]? = some g →
          nameMatches cx.toLower cs p_name g.name = false)) ∧
    (∃ r, findSubDirectory cx w d p_name cs = some (r, d0, w0) ∧
      (r = none ↔ ∀ c ∈ d0.subDirs, nameMatches cx.toLower cs p_name c.name = false) ∧
      (∀ c, r = some c → ∃ i : Nat, d0.subDirs[i]? = some c ∧
        nameMatches cx.toLower cs p_name c.name = true ∧
        ∀ j : Nat, j < i → ∀ g, d0.subDirs[j]? = some g →
          nameMatches cx.toLower cs p_name g.name = false)) :=
  ⟨⟨_, VDirectory.findFile_opens ho p_name cs, find?_none_iff _ _,
      fun f h => find?_first (fun f => nameMatches cx.toLower cs p_name f.name) _ f h⟩,
   ⟨_, VDirectory.findSubDirectory_opens ho p_name cs, find?_none_iff _ _,
      fun c h => find?_first (fun c => nameMatches cx.toLower cs p_name c.name) _ c h⟩⟩

/-- Witness of C11: with the file Note.md, findFile("note.md", false) returns
it and findFile("note.md", true) returns not-found. -/
theorem find_returns_first_match_witness :
    findFile sampleCtx sampleWorld sampleNoteDir "note.md" false
      = some (some (sampleFile 2 "Note.md"), sampleNoteDir, sampleWorld) ∧
    findFile sampleCtx sampleWorld sampleNoteDir "note.md" true
      = some (none, sampleNoteDir, sampleWorld) := by
  obtain ⟨⟨r1, h1, _, _⟩, _⟩ := find_returns_first_match sampleCtx sampleWorld sampleWorld
    sampleNoteDir sampleNoteDir "note.md" false rfl
  obtain ⟨⟨r2, h2, h3, _⟩, _⟩ := find_returns_first_match sampleCtx sampleWorld sampleWorld
    sampleNoteDir sampleNoteDir "note.md" true rfl
  have e2 : r2 = none := h3.2 (by decide)
  subst e2
  refine ⟨?_, h2⟩
  rw [h1]
  have e1 : findFile sampleCtx sampleWorld sampleNoteDir "note.md" false
      = some (some (sampleFile 2 "Note.md"), sampleNoteDir, sampleWorld) := rfl
  rw [e1] at h1
  exact h1.symm

theorem QVector.indexOf_cons {α : Type} (ptr : α → Nat) (p : Nat) (a : α) (v : List α) :
    QVector.indexOf ptr p (a :: v)
      = if ptr a = p then 0
        else if QVector.indexOf ptr p v = -1 then -1 else QVector.indexOf ptr p v + 1 := by
  unfold QVector.indexOf
  rw [List.findIdx?_cons, List.findIdx?_succ]
  by_cases h : ptr a = p
  · simp [h]
  · have hb : (ptr a == p) = false := by simp [h]
    rw [hb, if_neg h]
    generalize List.findIdx? (fun x => ptr x == p) v 0 = o
    cases o with
    | none => simp
    | some i =>
      simp only [Bool.false_eq_true, if_false, Option.map_some']
      rw [if_neg (by omega)]
      push_cast
      rfl

/-- What `indexOf` finds: nothing when no item has the address, else the first
item that has it. -/
theorem QVector.indexOf_spec {α : Type} (ptr : α → Nat) (p : Nat) :
    ∀ v : List α,
      (QVector.indexOf ptr p v = -1 ∧ ∀ x ∈ v, ptr x ≠ p) ∨
      (∃ pre x post, v = pre ++ x :: post ∧ ptr x = p ∧ (∀ y ∈ pre, ptr y ≠ p) ∧
        QVector.indexOf ptr p v = (pre.length : Int)) := by
  intro v
  induction v with
  | nil => left; exact ⟨rfl, fun x hx => by cases hx⟩
  | cons a rest ih =>
    rw [QVector.indexOf_cons]
    by_cases h : ptr a = p
    · right
      exact ⟨[], a, rest, rfl, h, (fun y hy => by cases hy), by simp [h]⟩
    · rw [if_neg h]
      rcases ih with ⟨h1, h2⟩ | ⟨pre, x, post, h1, h2, h3, h4⟩
      · left
        refine ⟨by simp [h1], ?_⟩
        intro x hx
        rcases List.mem_cons.1 hx with rfl | hx
        · exact h
        · exact h2 x hx
      · right
        refine ⟨a :: pre, x, post, by simp [h1], h2, ?_, ?_⟩
        · intro y hy
          rcases List.mem_cons.1 hy with rfl | hy
          · exact h
          · exact h3 y hy
        · rw [h4, if_neg (by omega)]
          simp

theorem QVector.remove_at_split {α : Type} (pre post : List α) (x : α) :
    QVector.remove ((pre.length : Int)).toNat (pre ++ x :: post) = pre ++ post := by
  rw [Int.toNat_ofNat]
  exact QVector.remove_append pre post x



theorem VDirectory.writeToConfig_ok {cx : Ctx} {d : VDirectory}
    (h : configWritable cx d = true) (ok : Bool) (w : World) :
    ∃ w1, writeToConfig ok cx w d = some (ok, w1) ∧ (ok = false → w1 = w) := by
  obtain ⟨json, hj, _, _⟩ := VDirectory.writeToConfig_writable h ok w
  rw [hj]
  cases ok with
  | false => exact ⟨w, rfl, fun _ => rfl⟩
  | true => exact ⟨_, rfl, fun h => by cases h⟩

theorem VDirectory.removeFile_first {ok : Bool} {cx : Ctx} {w : World} {d : VDirectory}
    {p : Nat} (hopen : d.opened = true) (hp : p ≠ 0) (hnb : configWritable cx d = true)
    (hmem : ∃ x ∈ d.files, x.addr = p) :
    ∃ pre x post w1, d.files = pre ++ x :: post ∧ x.addr = p ∧ (∀ y ∈ pre, y.addr ≠ p) ∧
      removeFile ok cx w d p = some (ok, d.setFiles (pre ++ post), w1) ∧
      (ok = false → w1 = w) := by
  rcases QVector.indexOf_spec VNoteFile.addr p d.files with ⟨_, h2⟩ | ⟨pre, x, post, h1, h2, h3, h4⟩
  · obtain ⟨x, hx, hxp⟩ := hmem
    exact absurd hxp (h2 x hx)
  · have hw : configWritable cx (d.setFiles (pre ++ post)) = true := by
      rw [VDirectory.configWritable_congr cx (VDirectory.parent_setFiles d _)]
      exact hnb
    obtain ⟨w1, hw1, hw2⟩ := VDirectory.writeToConfig_ok hw ok w
    refine ⟨pre, x, post, w1, h1, h2, h3, ?_, hw2⟩
    unfold removeFile
    rw [if_pos ⟨hopen, hp⟩]
    dsimp only
    rw [h4, if_pos (by omega), h1, QVector.remove_at_split, hw1]

theorem VDirectory.removeSubDirectory_first {ok : Bool} {cx : Ctx} {w : World}
    {d : VDirectory} {p : Nat} (hopen : d.opened = true) (hp : p ≠ 0)
    (hnb : configWritable cx d = true) (hmem : ∃ x ∈ d.subDirs, x.addr = p) :
    ∃ pre x post w1, d.subDirs = pre ++ x :: post ∧ x.addr = p ∧ (∀ y ∈ pre, y.addr ≠ p) ∧
      removeSubDirectory ok cx w d p = some (ok, d.setSubDirs (pre ++ post), w1) ∧
      (ok = false → w1 = w) := by
  rcases QVector.indexOf_spec VDirectory.addr p d.subDirs with
    ⟨_, h2⟩ | ⟨pre, x, post, h1, h2, h3, h4⟩
  · obtain ⟨x, hx, hxp⟩ := hmem
    exact absurd hxp (h2 x hx)
  · have hw : configWritable cx (d.setSubDirs (pre ++ post)) = true := by
      rw [VDirectory.configWritable_congr cx (VDirectory.parent_setSubDirs d _)]
      exact hnb
    obtain ⟨w1, hw1, hw2⟩ := VDirectory.writeToConfig_ok hw ok w
    refine ⟨pre, x, post, w1, h1, h2, h3, ?_, hw2⟩
    unfold removeSubDirectory
    rw [if_pos ⟨hopen, hp⟩]
    dsimp only
    rw [h4, if_pos (by omega), h1, QVector.remove_at_split, hw1]

/-- C13: for every opened directory and every node (a non-null pointer) that is
a current member, removeFile(node) removes exactly the first occurrence of the
node from the file sequence and keeps all other elements in their order: the
sequence pre ++ node :: post, with no occurrence of the node in pre, becomes
pre ++ post. It returns the result `ok` of the config write; when the write
fails it returns false and the entry stays removed. removeSubDirectory(node)
does the same over the child-directory sequence. -/
theorem remove_first_occurrence (ok : Bool) (cx : Ctx) (w : World) (d : VDirectory) (p : Nat)
    (hopen : d.opened = true) (hp : p ≠ 0) (hnb : configWritable cx d = true) :
    ((∃ x ∈ d.files, x.addr = p) →
      ∃ pre x post w1, d.files = pre ++ x :: post ∧ x.addr = p ∧ (∀ y ∈ pre, y.addr ≠ p) ∧
        removeFile ok cx w d p = some (ok, d.setFiles (pre ++ post), w1) ∧
        (ok = false → w1 = w)) ∧
    ((∃ x ∈ d.subDirs, x.addr = p) →
      ∃ pre x post w1, d.subDirs = pre ++ x :: post ∧ x.addr = p ∧ (∀ y ∈ pre, y.addr ≠ p) ∧
        removeSubDirectory ok cx w d p = some (ok, d.setSubDirs (pre ++ post), w1) ∧
        (ok = false → w1 = w)) :=
  ⟨VDirectory.removeFile_first hopen hp hnb, VDirectory.removeSubDirectory_first hopen hp hnb⟩

/-- Witness of C13: removing the note C (address 4) from A, B, C, D, E with a
failing config write returns false and leaves A, B, D, E. -/
theorem remove_first_occurrence_witness :
    ∃ pre x post w1, sampleDir.files = pre ++ x :: post ∧ x.addr = 4 ∧
      (∀ y ∈ pre, y.addr ≠ 4) ∧
      removeFile false sampleCtx sampleWorld sampleDir 4
        = some (false, sampleDir.setFiles (pre ++ post), w1) ∧
      (false = false → w1 = sampleWorld) :=
  (remove_first_occurrence false sampleCtx sampleWorld sampleDir 4 rfl (by decide) rfl).1
    ⟨sampleFile 4 "C", by decide, rfl⟩

theorem QVector.remove_insert {α : Type} (i : Nat) (x : α) (v : List α) (hi : i ≤ v.length) :
    QVector.remove i (QVector.insert i x v) = v := by
  have h := QVector.remove_append (v.take i) (v.drop i) x
  rw [List.length_take, Nat.min_eq_left hi] at h
  unfold QVector.insert
  rw [h, List.take_append_drop]

theorem QVector.removeLast_append {α : Type} (x : α) (v : List α) :
    QVector.removeLast (v ++ [x]) = v := by
  simp [QVector.removeLast]

theorem QVector.map_insert {α β : Type} (g : α → β) (i : Nat) (x : α) (v : List α) :
    (QVector.insert i x v).map g = QVector.insert i (g x) (v.map g) := by
  simp [QVector.insert, List.map_take, List.map_drop]

theorem List.map_eq_self_of {α : Type} (g : α → α) (v : List α) (h : ∀ x ∈ v, g x = x) :
    v.map g = v := by
  induction v with
  | nil => rfl
  | cons a rest ih =>
    simp only [List.map_cons]
    rw [h a (List.mem_cons_self _ _), ih (fun x hx => h x (List.mem_cons_of_mem _ hx))]

/-- The sequence with `x` put at `index`, at the end for `-1`, as `addFile` and
`addSubDirectory` build it. -/
theorem VDirectory.rollback_insert {α : Type} (p_index : Int) (x : α) (v : List α)
    (hidx : p_index = -1 ∨ (0 ≤ p_index ∧ p_index ≤ v.length)) :
    (if p_index = -1 then QVector.removeLast
        (if p_index = -1 then v ++ [x] else QVector.insert p_index.toNat x v)
      else QVector.remove p_index.toNat
        (if p_index = -1 then v ++ [x] else QVector.insert p_index.toNat x v)) = v := by
  by_cases h : p_index = -1
  · rw [if_pos h, if_pos h, QVector.removeLast_append]
  · rw [if_neg h, if_neg h]
    rcases hidx with h1 | ⟨h1, h2⟩
    · exact absurd h1 h
    · exact QVector.remove_insert _ x v (by omega)

@[simp] theorem VDirectory.addr_setFiles (d : VDirectory) (fs : List VNoteFile) :
    (d.setFiles fs).addr = d.addr := by cases d; rfl

@[simp] theorem VDirectory.addr_setSubDirs (d : VDirectory) (l : List VDirectory) :
    (d.setSubDirs l).addr = d.addr := by cases d; rfl

theorem VDirectory.setFiles_files (d : VDirectory) : d.setFiles d.files = d := by
  cases d; rfl

theorem VDirectory.setSubDirs_subDirs (d : VDirectory) : d.setSubDirs d.subDirs = d := by
  cases d; rfl

theorem VDirectory.setFiles_setFiles (d : VDirectory) (a b : List VNoteFile) :
    (d.setFiles a).setFiles b = d.setFiles b := by
  cases d; rfl

theorem VDirectory.setSubDirs_setSubDirs (d : VDirectory) (a b : List VDirectory) :
    (d.setSubDirs a).setSubDirs b = d.setSubDirs b := by
  cases d; rfl

/-- What addFile(node, index) does once open() has returned `(true, d0, w0)`. -/
theorem VDirectory.addFile_after_open (ok : Bool) (cx : Ctx) (w w0 : World)
    (d d0 : VDirectory) (p_file : VNoteFile) (p_index : Int)
    (ho : openDirectory cx w d = some (true, d0, w0))
    (hnb : configWritable cx d = true)
    (hidx : p_index = -1 ∨ (0 ≤ p_index ∧ p_index ≤ d0.files.length)) :
    ∃ w1, addFile ok cx w d p_file p_index
        = some (ok,
            if ok then
              d0.setFiles ((if p_index = -1 then d0.files ++ [p_file]
                  else QVector.insert p_index.toNat p_file d0.files).map
                (fun f => if f.addr == p_file.addr then f.setParent d0.addr else f))
            else d0, w1) ∧
      (ok = false → w1 = w0) := by
  have hw : configWritable cx (d0.setFiles (if p_index = -1 then d0.files ++ [p_file]
      else QVector.insert p_index.toNat p_file d0.files)) = true := by
    have hp : (d0.setFiles (if p_index = -1 then d0.files ++ [p_file]
        else QVector.insert p_index.toNat p_file d0.files)).parent = d.parent := by
      rw [VDirectory.parent_setFiles]
      exact (VDirectory.openDirectory_parent ho).1
    rw [VDirectory.configWritable_congr cx hp]
    exact hnb
  obtain ⟨w1, hw1, hw2⟩ := VDirectory.writeToConfig_ok hw ok w0
  refine ⟨w1, ?_, hw2⟩
  unfold addFile
  rw [ho]
  dsimp only
  rw [if_pos hidx, hw1]
  cases ok with
  | false =>
    dsimp only
    rw [VDirectory.files_setFiles, VDirectory.rollback_insert p_index p_file d0.files hidx,
      VDirectory.setFiles_setFiles, VDirectory.setFiles_files]
    rfl
  | true =>
    dsimp only
    rw [VDirectory.files_setFiles, VDirectory.setFiles_setFiles, VDirectory.addr_setFiles]
    rfl

/-- What addSubDirectory(node, index) does once open() has returned `(true, d0, w0)`. -/
theorem VDirectory.addSubDirectory_after_open (ok : Bool) (cx : Ctx) (w w0 : World)
    (d d0 : VDirectory) (p_dir : VDirectory) (p_index : Int)
    (ho : openDirectory cx w d = some (true, d0, w0))
    (hnb : configWritable cx d = true)
    (hidx : p_index = -1 ∨ (0 ≤ p_index ∧ p_index ≤ d0.subDirs.length)) :
    ∃ w1, addSubDirectory ok cx w d p_dir p_index
        = some (ok,
            if ok then
              d0.setSubDirs (updateSubDir p_dir.addr (fun dir => dir.setParent d0.addr)
                (if p_index = -1 then d0.subDirs ++ [p_dir]
                  else QVector.insert p_index.toNat p_dir d0.subDirs))
            else d0, w1) ∧
      (ok = false → w1 = w0) := by
  have hw : configWritable cx (d0.setSubDirs (if p_index = -1 then d0.subDirs ++ [p_dir]
      else QVector.insert p_index.toNat p_dir d0.subDirs)) = true := by
    have hp : (d0.setSubDirs (if p_index = -1 then d0.subDirs ++ [p_dir]
        else QVector.insert p_index.toNat p_dir d0.subDirs)).parent = d.parent := by
      rw [VDirectory.parent_setSubDirs]
      exact (VDirectory.openDirectory_parent ho).1
    rw [VDirectory.configWritable_congr cx hp]
    exact hnb
  obtain ⟨w1, hw1, hw2⟩ := VDirectory.writeToConfig_ok hw ok w0
  refine ⟨w1, ?_, hw2⟩
  unfold addSubDirectory
  rw [ho]
  dsimp only
  rw [if_pos hidx, hw1]
  cases ok with
  | false =>
    dsimp only
    rw [VDirectory.subDirs_setSubDirs, VDirectory.rollback_insert p_index p_dir d0.subDirs hidx,
      VDirectory.setSubDirs_setSubDirs, VDirectory.setSubDirs_subDirs]
    rfl
  | true =>
    dsimp only
    rw [VDirectory.subDirs_setSubDirs, VDirectory.setSubDirs_setSubDirs,
      VDirectory.addr_setSubDirs]
    rfl

@[simp] theorem VDirectory.addr_setParent (d : VDirectory) (p : Nat) :
    (d.setParent p).addr = d.addr := by cases d; rfl

@[simp] theorem VDirectory.parent_setParent (d : VDirectory) (p : Nat) :
    (d.setParent p).parent = some p := by cases d; rfl

@[simp] theorem VDirectory.addr_setName (d : VDirectory) (n : String) :
    (d.setName n).addr = d.addr := by cases d; rfl

@[simp] theorem VDirectory.name_setName (d : VDirectory) (n : String) :
    (d.setName n).name = n := by cases d; rfl

@[simp] theorem VDirectory.name_setParent (d : VDirectory) (p : Nat) :
    (d.setParent p).name = d.name := by cases d; rfl

/-- The placing of `x` at `index` in `v`, at the end for `-1`. -/
theorem VDirectory.placed_map {α β : Type} (g : α → β) (p_index : Int) (x : α) (v : List α) :
    (if p_index = -1 then v ++ [x] else QVector.insert p_index.toNat x v).map g
      = (if p_index = -1 then v.map g ++ [g x] else QVector.insert p_index.toNat (g x) (v.map g))
    := by
  by_cases h : p_index = -1
  · rw [if_pos h, if_pos h, List.map_append, List.map_singleton]
  · rw [if_neg h, if_neg h, QVector.map_insert]

theorem VDirectory.reparented_files (a : Nat) (p_file : VNoteFile) (p_index : Int)
    (v : List VNoteFile) :
    (((if p_index = -1 then v ++ [p_file] else QVector.insert p_index.toNat p_file v).map
        (fun f => if f.addr == p_file.addr then f.setParent a else f)).map VNoteFile.addr
      = (if p_index = -1 then v.map VNoteFile.addr ++ [p_file.addr]
          else QVector.insert p_index.toNat p_file.addr (v.map VNoteFile.addr))) ∧
    (∀ f ∈ (if p_index = -1 then v ++ [p_file] else QVector.insert p_index.toNat p_file v).map
        (fun f => if f.addr == p_file.addr then f.setParent a else f),
      f.addr = p_file.addr → f.parent = some a) ∧
    ((∀ f ∈ v, f.addr ≠ p_file.addr) →
      (if p_index = -1 then v ++ [p_file] else QVector.insert p_index.toNat p_file v).map
        (fun f => if f.addr == p_file.addr then f.setParent a else f)
      = (if p_index = -1 then v ++ [p_file.setParent a]
          else QVector.insert p_index.toNat (p_file.setParent a) v)) := by
  refine ⟨?_, ?_, ?_⟩
  · rw [List.map_map, ← VDirectory.placed_map]
    apply List.map_congr_left
    intro f _
    simp only [Function.comp]
    split <;> rfl
  · intro f hf hfa
    obtain ⟨f0, _, rfl⟩ := List.mem_map.1 hf
    by_cases h : (f0.addr == p_file.addr) = true
    · rw [if_pos h]; rfl
    · rw [if_neg h] at hfa
      exact absurd (by simpa using hfa) h
  · intro hno
    rw [VDirectory.placed_map]
    have hv : v.map (fun f => if f.addr == p_file.addr then f.setParent a else f) = v :=
      List.map_eq_self_of _ v (fun f hf => by
        have := hno f hf
        simp [this])
    rw [hv]
    simp

theorem VDirectory.reparented_subDirs (a : Nat) (p_dir : VDirectory) (p_index : Int)
    (v : List VDirectory) :
    ((updateSubDir p_dir.addr (fun dir => dir.setParent a)
        (if p_index = -1 then v ++ [p_dir] else QVector.insert p_index.toNat p_dir v)).map
          VDirectory.addr
      = (if p_index = -1 then v.map VDirectory.addr ++ [p_dir.addr]
          else QVector.insert p_index.toNat p_dir.addr (v.map VDirectory.addr))) ∧
    (∀ c ∈ updateSubDir p_dir.addr (fun dir => dir.setParent a)
        (if p_index = -1 then v ++ [p_dir] else QVector.insert p_index.toNat p_dir v),
      c.addr = p_dir.addr → c.parent = some a) ∧
    ((∀ c ∈ v, c.addr ≠ p_dir.addr) →
      updateSubDir p_dir.addr (fun dir => dir.setParent a)
        (if p_index = -1 then v ++ [p_dir] else QVector.insert p_index.toNat p_dir v)
      = (if p_index = -1 then v ++ [p_dir.setParent a]
          else QVector.insert p_index.toNat (p_dir.setParent a) v)) := by
  unfold updateSubDir
  refine ⟨?_, ?_, ?_⟩
  · rw [List.map_map, ← VDirectory.placed_map]
    apply List.map_congr_left
    intro c _
    simp only [Function.comp]
    split
    · exact VDirectory.addr_setParent c a
    · rfl
  · intro c hc hca
    obtain ⟨c0, _, rfl⟩ := List.mem_map.1 hc
    by_cases h : (c0.addr == p_dir.addr) = true
    · rw [if_pos h]; exact VDirectory.parent_setParent c0 a
    · rw [if_neg h] at hca
      exact absurd (by simpa using hca) h
  · intro hno
    rw [VDirectory.placed_map]
    have hv : v.map (fun dir => if dir.addr == p_dir.addr then dir.setParent a else dir) = v :=
      List.map_eq_self_of _ v (fun c hc => by
        have := hno c hc
        simp [this])
    rw [hv]
    simp

/-- C12: for every directory that opens successfully (leaving the opened node
d0), every node and every index in [0, length] or -1: addFile(node, index)
returns the outcome of the config write. If the write succeeds the file
sequence is the sequence of d0 with the node inserted at position index
(appended for -1), the node re-parented to the directory; if it fails the file
sequence is the sequence of d0. The child-directory sequence is untouched.
addSubDirectory(node, index) satisfies the same over the child-directory
sequence. The insertion is stated for the pointer sequence (addresses), and for
the nodes themselves when the node is not yet a member. -/
theorem add_inserts_at_index (ok : Bool) (cx : Ctx) (w w0 : World) (d d0 : VDirectory)
    (ho : openDirectory cx w d = some (true, d0, w0)) (hnb : configWritable cx d = true) :
    (∀ (p_file : VNoteFile) (p_index : Int),
      (p_index = -1 ∨ (0 ≤ p_index ∧ p_index ≤ d0.files.length)) →
      ∃ d1 w1, addFile ok cx w d p_file p_index = some (ok, d1, w1) ∧
        d1.subDirs = d0.subDirs ∧
        (ok = false → d1.files = d0.files) ∧
        (ok = true →
          d1.files.map VNoteFile.addr
            = (if p_index = -1 then d0.files.map VNoteFile.addr ++ [p_file.addr]
                else QVector.insert p_index.toNat p_file.addr (d0.files.map VNoteFile.addr)) ∧
          (∀ f ∈ d1.files, f.addr = p_file.addr → f.parent = some d0.addr) ∧
          ((∀ f ∈ d0.files, f.addr ≠ p_file.addr) →
            d1.files = (if p_index = -1 then d0.files ++ [p_file.setParent d0.addr]
              else QVector.insert p_index.toNat (p_file.setParent d0.addr) d0.files)))) ∧
    (∀ (p_dir : VDirectory) (p_index : Int),
      (p_index = -1 ∨ (0 ≤ p_index ∧ p_index ≤ d0.subDirs.length)) →
      ∃ d1 w1, addSubDirectory ok cx w d p_dir p_index = some (ok, d1, w1) ∧
        d1.files = d0.files ∧
        (ok = false → d1.subDirs = d0.subDirs) ∧
        (ok = true →
          d1.subDirs.map VDirectory.addr
            = (if p_index = -1 then d0.subDirs.map VDirectory.addr ++ [p_dir.addr]
                else QVector.insert p_index.toNat p_dir.addr (d0.subDirs.map VDirectory.addr)) ∧
          (∀ c ∈ d1.subDirs, c.addr = p_dir.addr → c.parent = some d0.addr) ∧
          ((∀ c ∈ d0.subDirs, c.addr ≠ p_dir.addr) →
            d1.subDirs = (if p_index = -1 then d0.subDirs ++ [p_dir.setParent d0.addr]
              else QVector.insert p_index.toNat (p_dir.setParent d0.addr) d0.subDirs)))) := by
  constructor
  · intro p_file p_index hidx
    obtain ⟨w1, h1, _⟩ := VDirectory.addFile_after_open ok cx w w0 d d0 p_file p_index ho hnb hidx
    refine ⟨_, w1, h1, ?_, ?_, ?_⟩
    · cases ok <;> simp
    · intro hok; subst hok; simp
    · intro hok; subst hok
      simp only [if_true, VDirectory.files_setFiles]
      exact VDirectory.reparented_files d0.addr p_file p_index d0.files
  · intro p_dir p_index hidx
    obtain ⟨w1, h1, _⟩ :=
      VDirectory.addSubDirectory_after_open ok cx w w0 d d0 p_dir p_index ho hnb hidx
    refine ⟨_, w1, h1, ?_, ?_, ?_⟩
    · cases ok <;> simp
    · intro hok; subst hok; simp
    · intro hok; subst hok
      simp only [if_true, VDirectory.subDirs_setSubDirs]
      exact VDirectory.reparented_subDirs d0.addr p_dir p_index d0.subDirs

/-- Witness of C12: adding the foreign note N at index 2 of A, B, C, D, E with a
successful write gives A, B, N, C, D, E with N owned by the directory. -/
theorem add_inserts_at_index_witness :
    ∃ d1 w1, addFile true sampleCtx sampleWorld sampleDir sampleForeignFile 2
        = some (true, d1, w1) ∧
      d1.files = [sampleFile 2 "A", sampleFile 3 "B", sampleFile 9 "N", sampleFile 4 "C",
        sampleFile 5 "D", sampleFile 6 "E"] := by
  obtain ⟨d1, w1, h1, _, _, h4⟩ :=
    (add_inserts_at_index true sampleCtx sampleWorld sampleWorld sampleDir sampleDir rfl rfl).1
      sampleForeignFile 2 (Or.inr (by decide))
  exact ⟨d1, w1, h1, (h4 rfl).2.2 (by decide)⟩

theorem VDirectory.find?_updateSubDir (p : Nat) (f : VDirectory → VDirectory)
    (hf : ∀ c, (f c).addr = c.addr) :
    ∀ v : List VDirectory,
      (updateSubDir p f v).find? (fun dir => dir.addr == p)
        = (v.find? (fun dir => dir.addr == p)).map f := by
  intro v
  induction v with
  | nil => rfl
  | cons c rest ih =>
    unfold updateSubDir at ih ⊢
    by_cases h : (c.addr == p) = true
    · simp [List.find?, h, hf]
    · simp only [List.map_cons, if_neg h, List.find?]
      have h' : (c.addr == p) = false := by simpa using h
      rw [h']
      exact ih

theorem VDirectory.setName_setName (d : VDirectory) (a b : String) :
    (d.setName a).setName b = d.setName b := by cases d; rfl

theorem VDirectory.setName_name (d : VDirectory) : d.setName d.name = d := by cases d; rfl

theorem World.renameTree_back_mem (w : World) (old new : String) (h : old ∈ w.entries) :
    old ∈ ((w.renameTree old new).renameTree new old).entries := by
  simp only [World.renameTree, List.map_map, List.mem_map, Function.comp]
  refine ⟨old, h, ?_⟩
  simp [World.rebase]



theorem VDirectory.rename_steps (renameOk writeOk backOk : Bool) (pcx : Ctx) (w : World)
    (parentDir : VDirectory) (self : Nat) (p_name : String) (me : VDirectory)
    (hme : parentDir.subDirs.find? (fun dir => dir.addr == self) = some me)
    (hnb : configWritable pcx parentDir = true) :
    ∃ r d1 w1, rename renameOk writeOk backOk pcx w parentDir self p_name = some (r, d1, w1) ∧
      (p_name = me.name → r = true ∧ d1 = parentDir ∧ w1 = w) ∧
      (p_name ≠ me.name →
        r = (renameOk && writeOk) ∧
        (r = true →
          d1.subDirs.find? (fun dir => dir.addr == self) = some (me.setName p_name)) ∧
        (r = false →
          d1.subDirs.find? (fun dir => dir.addr == self) = some me ∧
          (renameOk = false → d1 = parentDir ∧ w1 = w) ∧
          (renameOk = true → backOk = true →
            w1 = (w.renameTree (filePath pcx.path me.name) (filePath pcx.path p_name)).renameTree
                (filePath pcx.path p_name) (filePath pcx.path me.name) ∧
            (filePath pcx.path me.name ∈ w.entries →
              filePath pcx.path me.name ∈ w1.entries)) ∧
          (renameOk = true → backOk = false →
            w1 = w.renameTree (filePath pcx.path me.name) (filePath pcx.path p_name)))) := by
  unfold rename
  rw [hme]
  dsimp only
  by_cases hsame : p_name = me.name
  · subst hsame
    rw [if_pos (by simp)]
    exact ⟨true, parentDir, w, rfl, fun _ => ⟨rfl, rfl, rfl⟩, fun h => absurd rfl h⟩
  · rw [if_neg (by simpa using fun h => hsame h.symm)]
    cases renameOk with
    | false =>
      refine ⟨false, parentDir, w, rfl, fun h => absurd h hsame, fun _ => ⟨rfl, ?_, ?_⟩⟩
      · intro h; cases h
      · intro _
        exact ⟨hme, fun _ => ⟨rfl, rfl⟩, (fun h => by cases h), fun h => by cases h⟩
    | true =>
      have hw : configWritable pcx (parentDir.setSubDirs
          (updateSubDir self (fun dir => dir.setName p_name) parentDir.subDirs)) = true := by
        rw [VDirectory.configWritable_congr pcx (VDirectory.parent_setSubDirs parentDir _)]
        exact hnb
      obtain ⟨w1, hw1, hw2⟩ := VDirectory.writeToConfig_ok hw writeOk
        (w.renameTree (filePath pcx.path me.name) (filePath pcx.path p_name))
      simp only [Bool.not_true, Bool.false_eq_true, if_false, hw1]
      cases writeOk with
      | true =>
        refine ⟨true, _, w1, rfl, fun h => absurd h hsame, fun _ => ⟨rfl, ?_, ?_⟩⟩
        · intro _
          rw [VDirectory.subDirs_setSubDirs,
            VDirectory.find?_updateSubDir self _ (fun c => VDirectory.addr_setName c p_name), hme]
          rfl
        · intro h; cases h
      | false =>
        have e1 := hw2 rfl
        subst e1
        refine ⟨false, _, _, rfl, fun h => absurd h hsame, fun _ => ⟨rfl, ?_, ?_⟩⟩
        · intro h; cases h
        · intro _
          refine ⟨?_, (fun h => by cases h), fun _ hb => ?_, fun _ hb => ?_⟩
          · rw [VDirectory.subDirs_setSubDirs, VDirectory.subDirs_setSubDirs,
              VDirectory.find?_updateSubDir self _ (fun c => VDirectory.addr_setName c me.name),
              VDirectory.find?_updateSubDir self _ (fun c => VDirectory.addr_setName c p_name),
              hme]
            simp only [Option.map_some', VDirectory.setName_setName, VDirectory.setName_name]
          · subst hb
            exact ⟨rfl, World.renameTree_back_mem w _ _⟩
          · subst hb
            rfl

/-- C15, as amended: for every directory with a parent (the child `me` at
address `self` of parentDir) and every new name: rename returns true and
changes neither the tree nor the disk when the new name is the current name.
Otherwise it returns true exactly when both the physical rename and the config
write of the parent succeed, and then the in-memory name is the new name;
whenever it returns false the node is as before the call, name included. When
it was the physical rename that failed, tree and disk are untouched. When it
was the config write that failed, the reverse physical rename has been issued
and its result is not looked at: if it succeeds the disk is the one obtained by
the rename followed by the rename back, and a folder that was at the old path
is there again; if it fails the disk is the one left by the first rename, the
folder staying under the new name. -/
theorem rename_contract (renameOk writeOk backOk : Bool) (pcx : Ctx) (w : World)
    (parentDir : VDirectory) (self : Nat) (p_name : String) (me : VDirectory)
    (hme : parentDir.subDirs.find? (fun dir => dir.addr == self) = some me)
    (hnb : configWritable pcx parentDir = true) :
    ∃ r d1 w1, rename renameOk writeOk backOk pcx w parentDir self p_name = some (r, d1, w1) ∧
      (p_name = me.name → r = true ∧ d1 = parentDir ∧ w1 = w) ∧
      (p_name ≠ me.name →
        r = (renameOk && writeOk) ∧
        (r = true →
          d1.subDirs.find? (fun dir => dir.addr == self) = some (me.setName p_name)) ∧
        (r = false →
          d1.subDirs.find? (fun dir => dir.addr == self) = some me ∧
          (renameOk = false → d1 = parentDir ∧ w1 = w) ∧
          (renameOk = true → backOk = true →
            w1 = (w.renameTree (filePath pcx.path me.name) (filePath pcx.path p_name)).renameTree
                (filePath pcx.path p_name) (filePath pcx.path me.name) ∧
            (filePath pcx.path me.name ∈ w.entries →
              filePath pcx.path me.name ∈ w1.entries)) ∧
          (renameOk = true → backOk = false →
            w1 = w.renameTree (filePath pcx.path me.name) (filePath pcx.path p_name)))) :=
  VDirectory.rename_steps renameOk writeOk backOk pcx w parentDir self p_name me hme hnb

/-- Witness of C15 as amended: renaming the child `sub` of the sample tree to
`docs` with a failing config write of the parent and a reverse rename that
succeeds returns false, keeps the name `sub` and leaves the folder at `/nb/sub`. -/
theorem rename_contract_witness :
    ∃ d1 w1, rename true false true sampleCtx sampleFolders sampleTree 2 "docs"
        = some (false, d1, w1) ∧
      (d1.subDirs.find? (fun dir => dir.addr == 2)).map VDirectory.name = some "sub" ∧
      "/nb/sub" ∈ w1.entries := by
  obtain ⟨r, d1, w1, h1, _, h3⟩ := rename_contract true false true sampleCtx sampleFolders sampleTree
    2 "docs" _ rfl rfl
  obtain ⟨hr, _, h5⟩ := h3 (by decide)
  subst hr
  obtain ⟨h6, _, h7, _⟩ := h5 rfl
  refine ⟨d1, w1, h1, ?_, (h7 rfl rfl).2 (by decide)⟩
  rw [h6]
  rfl

/-- Counterexample to C15 as stated: renaming the child `sub` of the sample tree
to `docs`, the physical rename succeeds, the config write of the parent fails
and the reverse physical rename fails too. rename returns false with the
in-memory name `sub`, and the folder has not been renamed back: it is at
`/nb/docs` and there is nothing at `/nb/sub`. -/
theorem rename_back_failure_leaves_new_folder :
    ∃ d1 w1, rename true false false sampleCtx sampleFolders sampleTree 2 "docs"
        = some (false, d1, w1) ∧
      (d1.subDirs.find? (fun dir => dir.addr == 2)).map VDirectory.name = some "sub" ∧
      "/nb/sub" ∈ sampleFolders.entries ∧
      "/nb/docs" ∈ w1.entries ∧ "/nb/sub" ∉ w1.entries :=
  ⟨_, _, rfl, rfl, by decide, by decide, by decide⟩

/-- C16: for every destination, name, source and cut flag, and whatever the
disk would answer, if the cleaned source path equals the cleaned destination
path (the path of the destination joined with the name), copyDirectory returns
the source node itself and leaves the destination, the parent of the source,
the source and the world (disk and configs) exactly as they were. -/
theorem copyDirectory_same_path (cleanPath : String → String)
    (equalPath : String → String → Bool) (copyOk removeWriteOk addWriteOk : Bool)
    (now : QDateTime) (dcx : Ctx) (w : World) (p_destDir : VDirectory) (p_destName : String)
    (srcPath : String) (srcParentDir : SrcParent) (p_srcDir : VDirectory) (p_cut : Bool)
    (hsame : equalPath (cleanPath srcPath) (cleanPath (filePath dcx.path p_destName)) = true) :
    copyDirectory cleanPath equalPath copyOk removeWriteOk addWriteOk now dcx w p_destDir
        p_destName srcPath srcParentDir p_srcDir p_cut
      = some { ret := some p_srcDir, destDir := p_destDir, srcParentDir := srcParentDir,
               srcDir := p_srcDir, world := w } := by
  unfold copyDirectory
  simp only [hsame, if_true]

/-- Witness of C16: cutting the child `sub` of the sample tree onto its own path
`/nb/sub` returns `sub` and changes nothing. -/
theorem copyDirectory_same_path_witness :
    copyDirectory id sampleEqualPath true true true QDateTime.null sampleCtx sampleFolders
        sampleTree "sub" "/nb/sub" SrcParent.dest sampleSub true
      = some { ret := some sampleSub, destDir := sampleTree, srcParentDir := SrcParent.dest,
               srcDir := sampleSub, world := sampleFolders } :=
  copyDirectory_same_path id sampleEqualPath true true true QDateTime.null sampleCtx
    sampleFolders sampleTree "sub" "/nb/sub" SrcParent.dest sampleSub true (by decide)

theorem QVector.indexOf_at {α : Type} (ptr : α → Nat) (p : Nat) (x : α) (post : List α)
    (hx : ptr x = p) :
    ∀ pre : List α, (∀ y ∈ pre, ptr y ≠ p) →
      QVector.indexOf ptr p (pre ++ x :: post) = (pre.length : Int) := by
  intro pre
  induction pre with
  | nil => intro _; rw [List.nil_append, QVector.indexOf_cons, if_pos hx]; rfl
  | cons a rest ih =>
    intro h
    have ha : ptr a ≠ p := h a (List.mem_cons_self _ _)
    have hr := ih (fun y hy => h y (List.mem_cons_of_mem _ hy))
    rw [List.cons_append, QVector.indexOf_cons, if_neg ha, hr, if_neg (by omega)]
    simp

theorem VDirectory.removeSubDirectory_at {ok : Bool} {cx : Ctx} {w : World} {d : VDirectory}
    {p : Nat} {pre post : List VDirectory} {x : VDirectory}
    (hopen : d.opened = true) (hp : p ≠ 0) (hnb : configWritable cx d = true)
    (hsplit : d.subDirs = pre ++ x :: post) (hx : x.addr = p) (hpre : ∀ y ∈ pre, y.addr ≠ p) :
    ∃ w1, removeSubDirectory ok cx w d p = some (ok, d.setSubDirs (pre ++ post), w1) ∧
      (ok = false → w1 = w) := by
  have hw : configWritable cx (d.setSubDirs (pre ++ post)) = true := by
    rw [VDirectory.configWritable_congr cx (VDirectory.parent_setSubDirs d _)]
    exact hnb
  obtain ⟨w1, hw1, hw2⟩ := VDirectory.writeToConfig_ok hw ok w
  refine ⟨w1, ?_, hw2⟩
  unfold removeSubDirectory
  rw [if_pos ⟨hopen, hp⟩]
  dsimp only
  rw [hsplit, QVector.indexOf_at VDirectory.addr p x post hx pre hpre, if_pos (by omega),
    QVector.remove_at_split, hw1]

theorem VDirectory.updateSubDir_noalias (p : Nat) (f : VDirectory → VDirectory)
    (v : List VDirectory) (h : ∀ c ∈ v, c.addr ≠ p) : updateSubDir p f v = v := by
  unfold updateSubDir
  exact List.map_eq_self_of _ v (fun c hc => by
    have := h c hc
    simp [this])

theorem VDirectory.updateSubDir_append_self (p : Nat) (f : VDirectory → VDirectory)
    (v : List VDirectory) (x : VDirectory) (hx : x.addr = p) :
    updateSubDir p f (v ++ [x]) = updateSubDir p f v ++ [f x] := by
  unfold updateSubDir
  simp [hx]

theorem VDirectory.updateSubDir_map_addr (p : Nat) (f : VDirectory → VDirectory)
    (hf : ∀ c, (f c).addr = c.addr) (v : List VDirectory) :
    (updateSubDir p f v).map VDirectory.addr = v.map VDirectory.addr := by
  unfold updateSubDir
  rw [List.map_map]
  apply List.map_congr_left
  intro c _
  simp only [Function.comp]
  split
  · exact hf c
  · rfl

theorem VDirectory.setParent_new (a p : Nat) (n : String) (t : QDateTime) :
    (VDirectory.new a (some p) n t).setParent p = VDirectory.new a (some p) n t := rfl

/-- What addSubDirectory(name, -1) does once open() has returned `(true, d0, w0)`
and the config write succeeds. -/
theorem VDirectory.addSubDirectoryNamed_after_open (now : QDateTime) (cx : Ctx)
    (w w0 : World) (d d0 : VDirectory) (p_name : String)
    (ho : openDirectory cx w d = some (true, d0, w0))
    (hnb : configWritable cx d = true) :
    ∃ w1, addSubDirectoryNamed true now cx w d p_name (-1)
      = some (some (VDirectory.new w0.alloc.1 (some d0.addr) p_name now),
          d0.setSubDirs (updateSubDir w0.alloc.1 (fun dir => dir.setParent d0.addr) d0.subDirs
            ++ [VDirectory.new w0.alloc.1 (some d0.addr) p_name now]), w1) := by
  have hop : d0.opened = true := VDirectory.openDirectory_true_opened ho
  have hnb0 : configWritable cx d0 = true := by
    rw [VDirectory.configWritable_congr cx (VDirectory.openDirectory_parent ho).1]
    exact hnb
  obtain ⟨w1, h1, _⟩ := VDirectory.addSubDirectory_after_open true cx w0.alloc.2 w0.alloc.2 d0 d0
    (VDirectory.new w0.alloc.1 (some d0.addr) p_name now) (-1)
    (VDirectory.openDirectory_opened cx w0.alloc.2 d0 hop) hnb0 (Or.inl rfl)
  refine ⟨w1, ?_⟩
  unfold addSubDirectoryNamed
  rw [ho]
  dsimp only
  rw [h1]
  simp only [if_true]
  rw [VDirectory.updateSubDir_append_self _ _ _ _ rfl, VDirectory.setParent_new]
  rfl

theorem VDirectory.replaceNode_addr (n d : VDirectory) : (replaceNode n d).addr = d.addr := by
  cases d with
  | mk a p nm o e c subs fs =>
    unfold replaceNode
    split
    · rename_i h
      simpa [VDirectory.addr] using (beq_iff_eq.1 h).symm
    · rfl

theorem VDirectory.replaceNodeList_map_addr (n : VDirectory) (v : List VDirectory) :
    (replaceNodeList n v).map VDirectory.addr = v.map VDirectory.addr := by
  induction v with
  | nil => simp [replaceNodeList]
  | cons c rest ih =>
    simp only [replaceNodeList, List.map_cons, ih, VDirectory.replaceNode_addr]

theorem VDirectory.replaceNodeList_append (n : VDirectory) (u v : List VDirectory) :
    replaceNodeList n (u ++ v) = replaceNodeList n u ++ replaceNodeList n v := by
  induction u with
  | nil => simp [replaceNodeList]
  | cons c rest ih =>
    rw [List.cons_append]
    simp only [replaceNodeList]
    rw [ih, List.cons_append]

mutual
theorem VDirectory.replaceNode_noop (n : VDirectory) :
    ∀ d : VDirectory, (∀ m ∈ nodes d, m.addr ≠ n.addr) → replaceNode n d = d
  | mk a p nm o e c subs fs => by
    intro h
    have h1 : a ≠ n.addr := h (mk a p nm o e c subs fs) (VDirectory.mem_nodes_self _)
    have h2 := VDirectory.replaceNodeList_noop n subs (fun m hm =>
      h m (by rw [VDirectory.nodes_eq]; exact List.mem_cons_of_mem _ hm))
    unfold replaceNode
    rw [if_neg (by simpa using h1), h2]
theorem VDirectory.replaceNodeList_noop (n : VDirectory) :
    ∀ v : List VDirectory, (∀ m ∈ nodesOfList v, m.addr ≠ n.addr) → replaceNodeList n v = v
  | [] => fun _ => by simp [replaceNodeList]
  | dir :: rest => by
    intro h
    have h1 := VDirectory.replaceNode_noop n dir (fun m hm =>
      h m (by simp only [nodesOfList]; exact List.mem_append_left _ hm))
    have h2 := VDirectory.replaceNodeList_noop n rest (fun m hm =>
      h m (by simp only [nodesOfList]; exact List.mem_append_right _ hm))
    simp only [replaceNodeList, h1, h2]
end

mutual
theorem VDirectory.replaceNode_fresh (n : VDirectory)
    (hn : ∀ m ∈ nodesOfList n.subDirs, m.addr ≠ n.addr) :
    ∀ d : VDirectory, ∀ m ∈ nodes (replaceNode n d), m.addr = n.addr → m = n
  | mk a p nm o e c subs fs => by
    intro m hm ha
    unfold replaceNode at hm
    split at hm
    · rw [VDirectory.nodes_eq] at hm
      rcases List.mem_cons.1 hm with h | h
      · exact h
      · exact absurd ha (hn m h)
    · rename_i hne
      rw [VDirectory.nodes_eq] at hm
      rcases List.mem_cons.1 hm with h | h
      · subst h
        exact absurd (by simpa [VDirectory.addr] using ha) (by simpa using hne)
      · exact VDirectory.replaceNodeList_fresh n hn subs m h ha
theorem VDirectory.replaceNodeList_fresh (n : VDirectory)
    (hn : ∀ m ∈ nodesOfList n.subDirs, m.addr ≠ n.addr) :
    ∀ v : List VDirectory, ∀ m ∈ nodesOfList (replaceNodeList n v), m.addr = n.addr → m = n
  | [] => by
    intro m hm
    simp [replaceNodeList, nodesOfList] at hm
  | dir :: rest => by
    intro m hm ha
    simp only [replaceNodeList, nodesOfList] at hm
    rcases List.mem_append.1 hm with h | h
    · exact VDirectory.replaceNode_fresh n hn dir m h ha
    · exact VDirectory.replaceNodeList_fresh n hn rest m h ha
end

theorem VDirectory.syncBelow_noop (n d : VDirectory)
    (h : ∀ m ∈ nodesOfList d.subDirs, m.addr ≠ n.addr) : syncBelow n d = d := by
  unfold syncBelow
  rw [VDirectory.replaceNodeList_noop n _ h, VDirectory.setSubDirs_subDirs]

theorem VDirectory.syncBelow_subDirs (n d : VDirectory) :
    (syncBelow n d).subDirs = replaceNodeList n d.subDirs := by
  unfold syncBelow
  rw [VDirectory.subDirs_setSubDirs]

theorem VDirectory.syncBelow_map_addr (n d : VDirectory) :
    (syncBelow n d).subDirs.map VDirectory.addr = d.subDirs.map VDirectory.addr := by
  rw [VDirectory.syncBelow_subDirs, VDirectory.replaceNodeList_map_addr]

theorem VDirectory.syncBelow_addr (n d : VDirectory) : (syncBelow n d).addr = d.addr := by
  unfold syncBelow
  rw [VDirectory.addr_setSubDirs]

theorem VDirectory.addSubDirectory_closed (ok : Bool) (cx : Ctx) (w w0 : World)
    (d d0 p_dir : VDirectory) (p_index : Int)
    (ho : openDirectory cx w d = some (false, d0, w0)) :
    addSubDirectory ok cx w d p_dir p_index = some (false, d0, w0) := by
  unfold addSubDirectory
  rw [ho]

theorem VDirectory.addSubDirectoryNamed_closed (ok : Bool) (now : QDateTime) (cx : Ctx)
    (w w0 : World) (d d0 : VDirectory) (p_name : String) (p_index : Int)
    (ho : openDirectory cx w d = some (false, d0, w0)) :
    addSubDirectoryNamed ok now cx w d p_name p_index = some (none, d0, w0) := by
  unfold addSubDirectoryNamed
  rw [ho]

/-- What addSubDirectory(name, -1) does once open() has returned `(true, d0, w0)`
and the config write fails. -/
theorem VDirectory.addSubDirectoryNamed_write_failure (now : QDateTime) (cx : Ctx)
    (w w0 : World) (d d0 : VDirectory) (p_name : String)
    (ho : openDirectory cx w d = some (true, d0, w0))
    (hnb : configWritable cx d = true) :
    ∃ w1, addSubDirectoryNamed false now cx w d p_name (-1) = some (none, d0, w1) := by
  have hop : d0.opened = true := VDirectory.openDirectory_true_opened ho
  have hnb0 : configWritable cx d0 = true := by
    rw [VDirectory.configWritable_congr cx (VDirectory.openDirectory_parent ho).1]
    exact hnb
  obtain ⟨w1, h1, _⟩ := VDirectory.addSubDirectory_after_open false cx w0.alloc.2 w0.alloc.2 d0 d0
    (VDirectory.new w0.alloc.1 (some d0.addr) p_name now) (-1)
    (VDirectory.openDirectory_opened cx w0.alloc.2 d0 hop) hnb0 (Or.inl rfl)
  simp only [Bool.false_eq_true, if_false] at h1
  refine ⟨w1.delete w0.alloc.1, ?_⟩
  unfold addSubDirectoryNamed
  rw [ho]
  dsimp only
  rw [h1]
  rfl

/-- The copy branch of copyDirectory, for a destination within the state
invariant: whether it opens and whether its config is written. -/
theorem VDirectory.copyDirectory_copy (cleanPath : String → String)
    (equalPath : String → String → Bool) (removeWriteOk addWriteOk : Bool) (now : QDateTime)
    (dcx : Ctx) (w : World) (p_destDir : VDirectory) (p_destName srcPath : String)
    (srcParentDir : SrcParent) (p_srcDir : VDirectory)
    (hdiff : equalPath (cleanPath srcPath) (cleanPath (filePath dcx.path p_destName)) = false)
    (hnb : configWritable dcx p_destDir = true)
    (hclosed : p_destDir.opened = false → p_destDir.subDirs = [] ∧ p_destDir.files = []) :
    ∃ r0 d0 w0 o,
      openDirectory dcx (copyDirectoryOnDisk true w (cleanPath srcPath)
        (cleanPath (filePath dcx.path p_destName)) false) p_destDir = some (r0, d0, w0) ∧
      copyDirectory cleanPath equalPath true removeWriteOk addWriteOk now dcx w p_destDir
        p_destName srcPath srcParentDir p_srcDir false = some o ∧
      o.ret.isSome = (r0 && addWriteOk) ∧
      (o.ret = none → o.destDir = d0) ∧
      (∀ ret, o.ret = some ret →
        ret = VDirectory.new w0.alloc.1 (some d0.addr) p_destName now ∧
        ∃ front, o.destDir.subDirs = front ++ [ret] ∧
          front.map VDirectory.addr = d0.subDirs.map VDirectory.addr ∧
          ((∀ c ∈ d0.subDirs, c.addr ≠ w0.alloc.1) → front = d0.subDirs)) ∧
      o.srcDir = syncBelow o.destDir p_srcDir ∧
      o.srcParentDir = srcParentDir.syncBelow o.destDir ∧
      o.destDir.addr = p_destDir.addr := by
  obtain ⟨r0, d0, w0, ho⟩ := VDirectory.openDirectory_total dcx
    (copyDirectoryOnDisk true w (cleanPath srcPath)
      (cleanPath (filePath dcx.path p_destName)) false) p_destDir hclosed
  have haddr : d0.addr = p_destDir.addr := (VDirectory.openDirectory_parent ho).2.1
  cases r0 with
  | false =>
    have h1 := VDirectory.addSubDirectoryNamed_closed addWriteOk now dcx _ w0 p_destDir d0
      p_destName (-1) ho
    refine ⟨false, d0, w0, ⟨none, d0, srcParentDir.syncBelow d0, syncBelow d0 p_srcDir, w0⟩,
      ho, ?_, rfl, fun _ => rfl, (fun _ h => by cases h), rfl, rfl, haddr⟩
    unfold copyDirectory
    simp only [hdiff, Bool.false_eq_true, if_false, Bool.not_true, h1]
  | true =>
    cases addWriteOk with
    | false =>
      obtain ⟨w1, h1⟩ := VDirectory.addSubDirectoryNamed_write_failure now dcx _ w0 p_destDir d0
        p_destName ho hnb
      refine ⟨true, d0, w0, ⟨none, d0, srcParentDir.syncBelow d0, syncBelow d0 p_srcDir, w1⟩,
        ho, ?_, rfl, fun _ => rfl, (fun _ h => by cases h), rfl, rfl, haddr⟩
      unfold copyDirectory
      simp only [hdiff, Bool.false_eq_true, if_false, Bool.not_true, h1]
    | true =>
      obtain ⟨w1, h1⟩ := VDirectory.addSubDirectoryNamed_after_open now dcx _ w0 p_destDir d0
        p_destName ho hnb
      refine ⟨true, d0, w0,
        ⟨some (VDirectory.new w0.alloc.1 (some d0.addr) p_destName now),
          d0.setSubDirs (updateSubDir w0.alloc.1 (fun dir => dir.setParent d0.addr) d0.subDirs
            ++ [VDirectory.new w0.alloc.1 (some d0.addr) p_destName now]),
          srcParentDir.syncBelow (d0.setSubDirs
            (updateSubDir w0.alloc.1 (fun dir => dir.setParent d0.addr) d0.subDirs
              ++ [VDirectory.new w0.alloc.1 (some d0.addr) p_destName now])),
          syncBelow (d0.setSubDirs
            (updateSubDir w0.alloc.1 (fun dir => dir.setParent d0.addr) d0.subDirs
              ++ [VDirectory.new w0.alloc.1 (some d0.addr) p_destName now])) p_srcDir, w1⟩,
        ho, ?_, rfl, (fun h => by cases h), ?_, rfl, rfl, ?_⟩
      · unfold copyDirectory
        simp only [hdiff, Bool.false_eq_true, if_false, Bool.not_true, h1]
      · intro ret hret
        simp only [Option.some.injEq] at hret
        subst hret
        refine ⟨rfl, updateSubDir w0.alloc.1 (fun dir => dir.setParent d0.addr) d0.subDirs, ?_,
          VDirectory.updateSubDir_map_addr _ _ (fun c => VDirectory.addr_setParent c _) _,
          VDirectory.updateSubDir_noalias _ _ _⟩
        simp only [VDirectory.subDirs_setSubDirs]
      · simp only [VDirectory.addr_setSubDirs]
        exact haddr

/-- The cut branch of copyDirectory when the parent of the source is the
destination itself. -/
theorem VDirectory.copyDirectory_cut_same (cleanPath : String → String)
    (equalPath : String → String → Bool) (removeWriteOk addWriteOk : Bool) (now : QDateTime)
    (dcx : Ctx) (w : World) (p_destDir : VDirectory) (p_destName srcPath : String)
    (p_srcDir : VDirectory) (pre post : List VDirectory)
    (hdiff : equalPath (cleanPath srcPath) (cleanPath (filePath dcx.path p_destName)) = false)
    (hnb : configWritable dcx p_destDir = true)
    (hopen : p_destDir.opened = true) (hp : p_srcDir.addr ≠ 0)
    (hsplit : p_destDir.subDirs = pre ++ p_srcDir :: post)
    (honce : ∀ y ∈ pre ++ post, y.addr ≠ p_srcDir.addr) :
    ∃ o, copyDirectory cleanPath equalPath true removeWriteOk addWriteOk now dcx w p_destDir
        p_destName srcPath SrcParent.dest p_srcDir true = some o ∧
      o.ret.isSome = addWriteOk ∧
      (addWriteOk = true →
        o.ret = some ((p_srcDir.setName p_destName).setParent p_destDir.addr) ∧
        o.srcDir = (p_srcDir.setName p_destName).setParent p_destDir.addr ∧
        o.destDir.subDirs
          = (pre ++ post) ++ [(p_srcDir.setName p_destName).setParent p_destDir.addr]) ∧
      (addWriteOk = false →
        o.ret = none ∧ o.srcDir = p_srcDir.setName p_destName ∧
        o.destDir.subDirs = pre ++ post) := by
  obtain ⟨w2, hrem, _⟩ := @VDirectory.removeSubDirectory_at removeWriteOk dcx
    (copyDirectoryOnDisk true w (cleanPath srcPath)
      (cleanPath (filePath dcx.path p_destName)) true) _ _ _ _ _
    hopen hp hnb hsplit rfl (fun y hy => honce y (List.mem_append_left _ hy))
  have hd1 : (p_destDir.setSubDirs (pre ++ post)).setSubDirs
      (updateSubDir p_srcDir.addr (fun dir => dir.setName p_destName)
        (p_destDir.setSubDirs (pre ++ post)).subDirs) = p_destDir.setSubDirs (pre ++ post) := by
    rw [VDirectory.subDirs_setSubDirs, VDirectory.updateSubDir_noalias _ _ _ honce,
      VDirectory.setSubDirs_setSubDirs]
  have hop1 : (p_destDir.setSubDirs (pre ++ post)).opened = true := by simpa using hopen
  have hnb1 : configWritable dcx (p_destDir.setSubDirs (pre ++ post)) = true := by
    rw [VDirectory.configWritable_congr dcx (VDirectory.parent_setSubDirs p_destDir _)]
    exact hnb
  obtain ⟨w3, hadd, _⟩ := VDirectory.addSubDirectory_after_open addWriteOk dcx w2 w2
    (p_destDir.setSubDirs (pre ++ post)) (p_destDir.setSubDirs (pre ++ post))
    (p_srcDir.setName p_destName) (-1)
    (VDirectory.openDirectory_opened dcx w2 _ hop1) hnb1 (Or.inl rfl)
  cases addWriteOk with
  | true =>
    simp only [if_true, VDirectory.subDirs_setSubDirs, VDirectory.addr_setSubDirs,
      VDirectory.addr_setName] at hadd
    rw [VDirectory.updateSubDir_append_self _ _ _ _ (VDirectory.addr_setName _ _),
      VDirectory.updateSubDir_noalias _ _ _ honce, VDirectory.setSubDirs_setSubDirs] at hadd
    refine ⟨⟨some ((p_srcDir.setName p_destName).setParent p_destDir.addr),
        p_destDir.setSubDirs
          ((pre ++ post) ++ [(p_srcDir.setName p_destName).setParent p_destDir.addr]),
        SrcParent.dest, (p_srcDir.setName p_destName).setParent p_destDir.addr, w3⟩,
      ?_, rfl, (fun _ => ⟨rfl, rfl, ?_⟩), fun h => by cases h⟩
    · unfold copyDirectory
      simp only [hdiff, Bool.false_eq_true, if_false, Bool.not_true, if_true, hrem, hd1, hadd,
        VDirectory.addr_setSubDirs]
    · simp only [VDirectory.subDirs_setSubDirs]
  | false =>
    simp only [Bool.false_eq_true, if_false] at hadd
    refine ⟨⟨none, p_destDir.setSubDirs (pre ++ post), SrcParent.dest,
        p_srcDir.setName p_destName, w3⟩,
      ?_, rfl, (fun h => by cases h), fun _ => ⟨rfl, rfl, ?_⟩⟩
    · unfold copyDirectory
      simp only [hdiff, Bool.false_eq_true, if_false, Bool.not_true, if_true, hrem, hd1, hadd]
    · simp only [VDirectory.subDirs_setSubDirs]

/-- The cut branch of copyDirectory when the parent of the source is an object
other than the destination, for a destination within the state invariant. -/
theorem VDirectory.copyDirectory_cut_other (cleanPath : String → String)
    (equalPath : String → String → Bool) (removeWriteOk addWriteOk : Bool) (now : QDateTime)
    (dcx : Ctx) (w : World) (p_destDir : VDirectory) (p_destName srcPath : String)
    (p_srcDir : VDirectory) (parentDir : VDirectory) (pcx : Ctx) (pre post : List VDirectory)
    (hdiff : equalPath (cleanPath srcPath) (cleanPath (filePath dcx.path p_destName)) = false)
    (hnb : configWritable dcx p_destDir = true)
    (hclosed : p_destDir.opened = false → p_destDir.subDirs = [] ∧ p_destDir.files = [])
    (hpnb : configWritable pcx parentDir = true)
    (hopen : parentDir.opened = true) (hp : p_srcDir.addr ≠ 0)
    (hsplit : parentDir.subDirs = pre ++ p_srcDir :: post)
    (honce : ∀ y ∈ pre ++ post, y.addr ≠ p_srcDir.addr)
    (hdest : ∀ c ∈ p_destDir.subDirs, c.addr ≠ p_srcDir.addr)
    (hsrcp : ∀ m ∈ nodes p_srcDir, m.addr ≠ parentDir.addr) :
    ∃ w2 r0 d0 w0 o,
      removeSubDirectory removeWriteOk pcx (copyDirectoryOnDisk true w (cleanPath srcPath)
          (cleanPath (filePath dcx.path p_destName)) true) parentDir p_srcDir.addr
        = some (removeWriteOk, parentDir.setSubDirs (pre ++ post), w2) ∧
      openDirectory dcx w2 p_destDir = some (r0, d0, w0) ∧
      copyDirectory cleanPath equalPath true removeWriteOk addWriteOk now dcx w p_destDir
        p_destName srcPath (SrcParent.other parentDir pcx) p_srcDir true = some o ∧
      o.ret.isSome = (r0 && addWriteOk) ∧
      (∃ front, o.destDir.subDirs
          = front ++ (if r0 && addWriteOk
              then [(p_srcDir.setName p_destName).setParent d0.addr] else []) ∧
        front.map VDirectory.addr = d0.subDirs.map VDirectory.addr ∧
        ((∀ c ∈ d0.subDirs, c.addr ≠ p_srcDir.addr) →
          (∀ m ∈ nodesOfList d0.subDirs, m.addr ≠ parentDir.addr) → front = d0.subDirs) ∧
        ((∀ m ∈ nodesOfList (pre ++ post), m.addr ≠ parentDir.addr) →
          ∀ m ∈ nodesOfList front, m.addr = parentDir.addr →
            m = parentDir.setSubDirs (pre ++ post))) ∧
      (r0 && addWriteOk = true →
        o.ret = some ((p_srcDir.setName p_destName).setParent d0.addr) ∧
        o.srcDir = (p_srcDir.setName p_destName).setParent d0.addr) ∧
      (r0 && addWriteOk = false → o.ret = none ∧ o.srcDir = p_srcDir.setName p_destName) ∧
      (∃ parent1, o.srcParentDir = SrcParent.other parent1 pcx ∧
        parent1.addr = parentDir.addr ∧
        parent1.subDirs.map VDirectory.addr = (pre ++ post).map VDirectory.addr ∧
        (∀ c ∈ parent1.subDirs, c.addr ≠ p_srcDir.addr) ∧
        ((∀ m ∈ nodesOfList (pre ++ post), m.addr ≠ p_destDir.addr) →
          parent1 = parentDir.setSubDirs (pre ++ post))) ∧
      o.destDir.addr = p_destDir.addr := by
  obtain ⟨w2, hrem, _⟩ := @VDirectory.removeSubDirectory_at removeWriteOk pcx
    (copyDirectoryOnDisk true w (cleanPath srcPath)
      (cleanPath (filePath dcx.path p_destName)) true) _ _ _ _ _
    hopen hp hpnb hsplit rfl (fun y hy => honce y (List.mem_append_left _ hy))
  obtain ⟨r0, d0, w0, ho⟩ := VDirectory.openDirectory_total dcx w2 p_destDir hclosed
  have haddr : d0.addr = p_destDir.addr := (VDirectory.openDirectory_parent ho).2.1
  have hp2 : ∀ f : VDirectory → VDirectory, (parentDir.setSubDirs (pre ++ post)).setSubDirs
      (updateSubDir p_srcDir.addr f (parentDir.setSubDirs (pre ++ post)).subDirs)
        = parentDir.setSubDirs (pre ++ post) := by
    intro f
    rw [VDirectory.subDirs_setSubDirs, VDirectory.updateSubDir_noalias _ _ _ honce,
      VDirectory.setSubDirs_setSubDirs]
  have hd1 : p_destDir.setSubDirs
      (updateSubDir p_srcDir.addr (fun dir => dir.setName p_destName) p_destDir.subDirs)
        = p_destDir := by
    rw [VDirectory.updateSubDir_noalias _ _ _ hdest, VDirectory.setSubDirs_subDirs]
  have hPaddr : (parentDir.setSubDirs (pre ++ post)).addr = parentDir.addr :=
    VDirectory.addr_setSubDirs _ _
  have hfresh : (∀ m ∈ nodesOfList (pre ++ post), m.addr ≠ parentDir.addr) →
      ∀ v : List VDirectory,
      ∀ m ∈ nodesOfList (replaceNodeList (parentDir.setSubDirs (pre ++ post)) v),
        m.addr = parentDir.addr → m = parentDir.setSubDirs (pre ++ post) := by
    intro hb v m hm ha
    exact VDirectory.replaceNodeList_fresh (parentDir.setSubDirs (pre ++ post))
      (by rw [VDirectory.subDirs_setSubDirs, hPaddr]; exact hb) v m hm (by rw [hPaddr]; exact ha)
  have hnoop : ∀ v : List VDirectory, (∀ m ∈ nodesOfList v, m.addr ≠ parentDir.addr) →
      replaceNodeList (parentDir.setSubDirs (pre ++ post)) v = v := by
    intro v hv
    exact VDirectory.replaceNodeList_noop _ v (fun m hm => by rw [hPaddr]; exact hv m hm)
  have hparent : ∀ dfin : VDirectory, dfin.addr = p_destDir.addr →
      ∃ parent1, SrcParent.other (syncBelow dfin (parentDir.setSubDirs (pre ++ post))) pcx
          = SrcParent.other parent1 pcx ∧
        parent1.addr = parentDir.addr ∧
        parent1.subDirs.map VDirectory.addr = (pre ++ post).map VDirectory.addr ∧
        (∀ c ∈ parent1.subDirs, c.addr ≠ p_srcDir.addr) ∧
        ((∀ m ∈ nodesOfList (pre ++ post), m.addr ≠ p_destDir.addr) →
          parent1 = parentDir.setSubDirs (pre ++ post)) := by
    intro dfin hdfin
    refine ⟨_, rfl, ?_, ?_, ?_, ?_⟩
    · rw [VDirectory.syncBelow_addr, hPaddr]
    · rw [VDirectory.syncBelow_map_addr, VDirectory.subDirs_setSubDirs]
    · intro c hc heq
      have hm : c.addr ∈ (syncBelow dfin (parentDir.setSubDirs (pre ++ post))).subDirs.map
          VDirectory.addr := List.mem_map_of_mem _ hc
      rw [VDirectory.syncBelow_map_addr, VDirectory.subDirs_setSubDirs] at hm
      obtain ⟨y, hy, hya⟩ := List.mem_map.1 hm
      exact honce y hy (hya.trans heq)
    · intro hb
      apply VDirectory.syncBelow_noop
      rw [VDirectory.subDirs_setSubDirs, hdfin]
      exact hb
  cases r0 with
  | false =>
    have hadd := VDirectory.addSubDirectory_closed addWriteOk dcx w2 w0 p_destDir d0
      (p_srcDir.setName p_destName) (-1) ho
    refine ⟨w2, false, d0, w0,
      ⟨none, syncBelow (parentDir.setSubDirs (pre ++ post)) d0,
        SrcParent.other (syncBelow d0 (parentDir.setSubDirs (pre ++ post))) pcx,
        p_srcDir.setName p_destName, w0⟩,
      hrem, ho, ?_, rfl, ?_, (fun h => by cases h), (fun _ => ⟨rfl, rfl⟩), ?_, ?_⟩
    · unfold copyDirectory
      simp only [hdiff, Bool.false_eq_true, if_false, Bool.not_true, if_true, hrem, hp2, hd1,
        hadd]
    · refine ⟨replaceNodeList (parentDir.setSubDirs (pre ++ post)) d0.subDirs, ?_,
        VDirectory.replaceNodeList_map_addr _ _, fun _ hb => hnoop _ hb,
        fun hb => hfresh hb _⟩
      simp [VDirectory.syncBelow_subDirs]
    · exact hparent d0 haddr
    · rw [VDirectory.syncBelow_addr]
      exact haddr
  | true =>
    obtain ⟨w3, hadd, _⟩ := VDirectory.addSubDirectory_after_open addWriteOk dcx w2 w0 p_destDir d0
      (p_srcDir.setName p_destName) (-1) ho hnb (Or.inl rfl)
    cases addWriteOk with
    | false =>
      simp only [Bool.false_eq_true, if_false] at hadd
      refine ⟨w2, true, d0, w0,
        ⟨none, syncBelow (parentDir.setSubDirs (pre ++ post)) d0,
          SrcParent.other (syncBelow d0 (parentDir.setSubDirs (pre ++ post))) pcx,
          p_srcDir.setName p_destName, w3⟩,
        hrem, ho, ?_, rfl, ?_, (fun h => by cases h), (fun _ => ⟨rfl, rfl⟩), ?_, ?_⟩
      · unfold copyDirectory
        simp only [hdiff, Bool.false_eq_true, if_false, Bool.not_true, if_true, hrem, hp2, hd1,
          hadd]
      · refine ⟨replaceNodeList (parentDir.setSubDirs (pre ++ post)) d0.subDirs, ?_,
          VDirectory.replaceNodeList_map_addr _ _, fun _ hb => hnoop _ hb,
          fun hb => hfresh hb _⟩
        simp [VDirectory.syncBelow_subDirs]
      · exact hparent d0 haddr
      · rw [VDirectory.syncBelow_addr]
        exact haddr
    | true =>
      simp only [if_true, VDirectory.addr_setName] at hadd
      rw [VDirectory.updateSubDir_append_self _ _ _ _ (VDirectory.addr_setName _ _)] at hadd
      have hS : replaceNode (parentDir.setSubDirs (pre ++ post))
          ((p_srcDir.setName p_destName).setParent d0.addr)
            = (p_srcDir.setName p_destName).setParent d0.addr := by
        apply VDirectory.replaceNode_noop
        intro m hm
        rw [hPaddr]
        rw [VDirectory.nodes_eq] at hm
        rcases List.mem_cons.1 hm with h | h
        · subst h
          rw [VDirectory.addr_setParent, VDirectory.addr_setName]
          exact hsrcp p_srcDir (VDirectory.mem_nodes_self _)
        · rw [VDirectory.subDirs_setParent, VDirectory.subDirs_setName] at h
          exact hsrcp m (by rw [VDirectory.nodes_eq]; exact List.mem_cons_of_mem _ h)
      refine ⟨w2, true, d0, w0,
        ⟨some ((p_srcDir.setName p_destName).setParent d0.addr),
          syncBelow (parentDir.setSubDirs (pre ++ post))
            (d0.setSubDirs
              (updateSubDir p_srcDir.addr (fun dir => dir.setParent d0.addr) d0.subDirs
                ++ [(p_srcDir.setName p_destName).setParent d0.addr])),
          SrcParent.other (syncBelow (d0.setSubDirs
              (updateSubDir p_srcDir.addr (fun dir => dir.setParent d0.addr) d0.subDirs
                ++ [(p_srcDir.setName p_destName).setParent d0.addr]))
            (parentDir.setSubDirs (pre ++ post))) pcx,
          (p_srcDir.setName p_destName).setParent d0.addr, w3⟩,
        hrem, ho, ?_, rfl, ?_, (fun _ => ⟨rfl, rfl⟩), (fun h => by cases h), ?_, ?_⟩
      · unfold copyDirectory
        simp only [hdiff, Bool.false_eq_true, if_false, Bool.not_true, if_true, hrem, hp2, hd1,
          hadd, VDirectory.addr_setSubDirs]
      · refine ⟨replaceNodeList (parentDir.setSubDirs (pre ++ post))
            (updateSubDir p_srcDir.addr (fun dir => dir.setParent d0.addr) d0.subDirs), ?_, ?_,
          ?_, fun hb => hfresh hb _⟩
        · simp only [VDirectory.syncBelow_subDirs, VDirectory.subDirs_setSubDirs,
            VDirectory.replaceNodeList_append, replaceNodeList, hS, Bool.and_self, if_true]
        · rw [VDirectory.replaceNodeList_map_addr,
            VDirectory.updateSubDir_map_addr _ _ (fun c => VDirectory.addr_setParent c _)]
        · intro ha hb
          rw [VDirectory.updateSubDir_noalias _ _ _ ha]
          exact hnoop _ hb
      · exact hparent _ ((VDirectory.addr_setSubDirs _ _).trans haddr)
      · rw [VDirectory.syncBelow_addr, VDirectory.addr_setSubDirs]
        exact haddr

theorem VDirectory.count_addr_append_self (v : List VDirectory) (x : VDirectory) (p : Nat)
    (hx : x.addr = p) (h : ∀ y ∈ v, y.addr ≠ p) :
    ((v ++ [x]).filter (fun c => c.addr == p)).length = 1 := by
  have hv : v.filter (fun c => c.addr == p) = [] := by
    rw [List.filter_eq_nil_iff]
    intro y hy
    simpa using h y hy
  rw [List.filter_append, hv]
  simp [hx]

/-- C17, as amended: for every source, every destination within the state
invariant whose config can be written, when source and destination paths
differ and the physical copy or move succeeds, copyDirectory returns a node
exactly when the destination opens and the write of its config succeeds.
(1) With isCut = false the node is a fresh node named destName, last in the
destination sequence behind the children the destination had; the child
sequences of the source and of its parent hold the objects they held (a parent
that is the destination has the appended node), and source and parent are
unchanged unless the destination lies below them. (2) With isCut = true and
the destination being the opened parent, in whose sequence the source occurs
exactly once, the node is the source itself, renamed and re-parented, last in
that sequence and occurring there exactly once. (3) With isCut = true and
another opened parent, in whose sequence the source occurs exactly once, the
source is taken out of the sequence of that parent, whose config is written
first, and the node is the source itself, renamed and re-parented, last in the
destination sequence behind the children the destination had; the former
parent keeps its other children only, also where it lies below the
destination. -/
theorem copyDirectory_contract (cleanPath : String → String)
    (equalPath : String → String → Bool) (removeWriteOk addWriteOk : Bool) (now : QDateTime)
    (dcx : Ctx) (w : World) (p_destDir : VDirectory) (p_destName srcPath : String)
    (p_srcDir : VDirectory)
    (hdiff : equalPath (cleanPath srcPath) (cleanPath (filePath dcx.path p_destName)) = false)
    (hnb : configWritable dcx p_destDir = true)
    (hclosed : p_destDir.opened = false → p_destDir.subDirs = [] ∧ p_destDir.files = [])
    (hp : p_srcDir.addr ≠ 0) :
    (∀ srcParentDir : SrcParent,
      ∃ r0 d0 w0 o,
        openDirectory dcx (copyDirectoryOnDisk true w (cleanPath srcPath)
          (cleanPath (filePath dcx.path p_destName)) false) p_destDir = some (r0, d0, w0) ∧
        copyDirectory cleanPath equalPath true removeWriteOk addWriteOk now dcx w p_destDir
          p_destName srcPath srcParentDir p_srcDir false = some o ∧
        o.ret.isSome = (r0 && addWriteOk) ∧
        (∀ ret, o.ret = some ret →
          ret = VDirectory.new w0.alloc.1 (some d0.addr) p_destName now ∧
          ∃ front, o.destDir.subDirs = front ++ [ret] ∧
            front.map VDirectory.addr = d0.subDirs.map VDirectory.addr ∧
            ((∀ c ∈ d0.subDirs, c.addr ≠ w0.alloc.1) → front = d0.subDirs)) ∧
        o.srcDir.subDirs.map VDirectory.addr = p_srcDir.subDirs.map VDirectory.addr ∧
        ((∀ m ∈ nodesOfList p_srcDir.subDirs, m.addr ≠ p_destDir.addr) →
          o.srcDir = p_srcDir) ∧
        (∀ parentDir pcx, srcParentDir = SrcParent.other parentDir pcx →
          ∃ parent1, o.srcParentDir = SrcParent.other parent1 pcx ∧
            parent1.subDirs.map VDirectory.addr = parentDir.subDirs.map VDirectory.addr ∧
            ((∀ m ∈ nodesOfList parentDir.subDirs, m.addr ≠ p_destDir.addr) →
              parent1 = parentDir)) ∧
        (srcParentDir = SrcParent.dest → o.srcParentDir = SrcParent.dest)) ∧
    (∀ pre post : List VDirectory, p_destDir.opened = true →
      p_destDir.subDirs = pre ++ p_srcDir :: post →
      (∀ y ∈ pre ++ post, y.addr ≠ p_srcDir.addr) →
      ∃ o, copyDirectory cleanPath equalPath true removeWriteOk addWriteOk now dcx w p_destDir
          p_destName srcPath SrcParent.dest p_srcDir true = some o ∧
        o.ret.isSome = addWriteOk ∧
        (addWriteOk = true →
          o.ret = some ((p_srcDir.setName p_destName).setParent p_destDir.addr) ∧
          o.srcDir = (p_srcDir.setName p_destName).setParent p_destDir.addr ∧
          o.destDir.subDirs
            = (pre ++ post) ++ [(p_srcDir.setName p_destName).setParent p_destDir.addr] ∧
          (o.destDir.subDirs.filter (fun c => c.addr == p_srcDir.addr)).length = 1) ∧
        (addWriteOk = false → o.ret = none ∧ o.destDir.subDirs = pre ++ post)) ∧
    (∀ (parentDir : VDirectory) (pcx : Ctx) (pre post : List VDirectory),
      configWritable pcx parentDir = true → parentDir.opened = true →
      parentDir.subDirs = pre ++ p_srcDir :: post →
      (∀ y ∈ pre ++ post, y.addr ≠ p_srcDir.addr) →
      (∀ c ∈ p_destDir.subDirs, c.addr ≠ p_srcDir.addr) →
      (∀ m ∈ nodes p_srcDir, m.addr ≠ parentDir.addr) →
      ∃ w2 r0 d0 w0 o,
        removeSubDirectory removeWriteOk pcx (copyDirectoryOnDisk true w (cleanPath srcPath)
            (cleanPath (filePath dcx.path p_destName)) true) parentDir p_srcDir.addr
          = some (removeWriteOk, parentDir.setSubDirs (pre ++ post), w2) ∧
        openDirectory dcx w2 p_destDir = some (r0, d0, w0) ∧
        copyDirectory cleanPath equalPath true removeWriteOk addWriteOk now dcx w p_destDir
          p_destName srcPath (SrcParent.other parentDir pcx) p_srcDir true = some o ∧
        o.ret.isSome = (r0 && addWriteOk) ∧
        (∃ front, o.destDir.subDirs
            = front ++ (if r0 && addWriteOk
                then [(p_srcDir.setName p_destName).setParent d0.addr] else []) ∧
          front.map VDirectory.addr = d0.subDirs.map VDirectory.addr ∧
          ((∀ c ∈ d0.subDirs, c.addr ≠ p_srcDir.addr) →
            (∀ m ∈ nodesOfList d0.subDirs, m.addr ≠ parentDir.addr) → front = d0.subDirs) ∧
          ((∀ m ∈ nodesOfList (pre ++ post), m.addr ≠ parentDir.addr) →
            ∀ m ∈ nodesOfList front, m.addr = parentDir.addr →
              m = parentDir.setSubDirs (pre ++ post))) ∧
        (r0 && addWriteOk = true →
          o.ret = some ((p_srcDir.setName p_destName).setParent d0.addr) ∧
          o.srcDir = (p_srcDir.setName p_destName).setParent d0.addr) ∧
        (r0 && addWriteOk = false → o.ret = none ∧ o.srcDir = p_srcDir.setName p_destName) ∧
        (∃ parent1, o.srcParentDir = SrcParent.other parent1 pcx ∧
          parent1.addr = parentDir.addr ∧
          parent1.subDirs.map VDirectory.addr = (pre ++ post).map VDirectory.addr ∧
          (∀ c ∈ parent1.subDirs, c.addr ≠ p_srcDir.addr) ∧
          ((∀ m ∈ nodesOfList (pre ++ post), m.addr ≠ p_destDir.addr) →
            parent1 = parentDir.setSubDirs (pre ++ post))) ∧
        o.destDir.addr = p_destDir.addr) := by
  refine ⟨?_, ?_, ?_⟩
  · intro srcParentDir
    obtain ⟨r0, d0, w0, o, ho, hc, hsome, _, hret, hsrc, hpar, haddr⟩ :=
      VDirectory.copyDirectory_copy cleanPath equalPath removeWriteOk addWriteOk now dcx w
        p_destDir p_destName srcPath srcParentDir p_srcDir hdiff hnb hclosed
    refine ⟨r0, d0, w0, o, ho, hc, hsome, hret, ?_, ?_, ?_, ?_⟩
    · rw [hsrc, VDirectory.syncBelow_map_addr]
    · intro hb
      rw [hsrc]
      exact VDirectory.syncBelow_noop _ _ (fun m hm => by rw [haddr]; exact hb m hm)
    · intro parentDir pcx hrole
      subst hrole
      refine ⟨syncBelow o.destDir parentDir, hpar, VDirectory.syncBelow_map_addr _ _, ?_⟩
      intro hb
      exact VDirectory.syncBelow_noop _ _ (fun m hm => by rw [haddr]; exact hb m hm)
    · intro hrole
      subst hrole
      exact hpar
  · intro pre post hopen hsplit honce
    obtain ⟨o, h1, h2, h3, h4⟩ := VDirectory.copyDirectory_cut_same cleanPath equalPath
      removeWriteOk addWriteOk now dcx w p_destDir p_destName srcPath p_srcDir pre post hdiff hnb
      hopen hp hsplit honce
    refine ⟨o, h1, h2, ?_, fun hf => ⟨(h4 hf).1, (h4 hf).2.2⟩⟩
    intro ht
    obtain ⟨h5, h6, h7⟩ := h3 ht
    refine ⟨h5, h6, h7, ?_⟩
    rw [h7]
    exact VDirectory.count_addr_append_self _ _ _
      (by rw [VDirectory.addr_setParent, VDirectory.addr_setName]) honce
  · intro parentDir pcx pre post hpnb hopen hsplit honce hdest hsrcp
    exact VDirectory.copyDirectory_cut_other cleanPath equalPath removeWriteOk addWriteOk now dcx
      w p_destDir p_destName srcPath p_srcDir parentDir pcx pre post hdiff hnb hclosed hpnb hopen
      hp hsplit honce hdest hsrcp

/-- Copying `sub` of the sample tree as `copy` while the write of the
destination config fails returns no node, although the paths differ, the
parent is opened and the physical copy succeeded. -/
theorem copyDirectory_copy_needs_write :
    sampleTree.opened = true ∧
    sampleEqualPath (id "/nb/sub") (id (filePath sampleCtx.path "copy")) = false ∧
    (copyDirectory id sampleEqualPath true true false QDateTime.null sampleCtx sampleFolders
      sampleTree "copy" "/nb/sub" SrcParent.dest sampleSub false).map
        (fun o => (o.ret.isSome, o.destDir.subDirs.map VDirectory.name))
      = some (false, ["sub", "tmp"]) := by
  refine ⟨rfl, by decide, ?_⟩
  rfl

/-- Witness for C17 on the sample tree: copying `sub` as `copy`, moving `sub`
to the name `moved` inside its own parent, moving `deep` out of `sub` into the
root as `deep2`, after which the root holds `sub` without `deep`, and moving
the folder `s` of another notebook into the closed root, which the call opens
from its saved config. -/
theorem copyDirectory_contract_witness :
    (∃ o, copyDirectory id sampleEqualPath true true true QDateTime.null sampleCtx
        sampleFolders sampleTree "copy" "/nb/sub" SrcParent.dest sampleSub false = some o ∧
      o.ret = some (VDirectory.new 101 (some 1) "copy" QDateTime.null) ∧
      o.destDir.subDirs = sampleTree.subDirs ++ [VDirectory.new 101 (some 1) "copy" QDateTime.null] ∧
      o.srcDir = sampleSub ∧ o.srcParentDir = SrcParent.dest) ∧
    (∃ o, copyDirectory id sampleEqualPath true true true QDateTime.null sampleCtx
        sampleFolders sampleTree "moved" "/nb/sub" SrcParent.dest sampleSub true = some o ∧
      o.ret = some ((sampleSub.setName "moved").setParent 1) ∧
      o.srcDir = (sampleSub.setName "moved").setParent 1 ∧
      o.destDir.subDirs = [VDirectory.new 5 (some 1) "tmp" QDateTime.null,
        (sampleSub.setName "moved").setParent 1] ∧
      (o.destDir.subDirs.filter (fun c => c.addr == 2)).length = 1) ∧
    (∃ o, copyDirectory id sampleEqualPath true true true QDateTime.null sampleCtx
        sampleFolders sampleTree "deep2" "/nb/sub/deep" (SrcParent.other sampleSub sampleSubCtx)
        sampleDeep true = some o ∧
      o.ret = some ((sampleDeep.setName "deep2").setParent 1) ∧
      o.srcDir = (sampleDeep.setName "deep2").setParent 1 ∧
      o.destDir.subDirs = [sampleSub.setSubDirs [], VDirectory.new 5 (some 1) "tmp" QDateTime.null,
        (sampleDeep.setName "deep2").setParent 1] ∧
      o.srcParentDir = SrcParent.other (sampleSub.setSubDirs []) sampleSubCtx) ∧
    (∃ o, copyDirectory id sampleEqualPath true true true QDateTime.null sampleCtx
        sampleTwo sampleClosed "s2" "/other/s" (SrcParent.other sampleOther sampleOtherCtx)
        (VDirectory.new 51 (some 50) "s" QDateTime.null) true = some o ∧
      o.ret = some (((VDirectory.new 51 (some 50) "s" QDateTime.null).setName "s2").setParent 1) ∧
      o.destDir.subDirs.map VDirectory.name = ["sub", "s2"] ∧
      o.srcParentDir = SrcParent.other (sampleOther.setSubDirs []) sampleOtherCtx) := by
  refine ⟨?_, ?_, ?_, ?_⟩
  · obtain ⟨r0, d0, w0, o, ho, hc, _, hret, _, hsrc, _, hrole⟩ :=
      (copyDirectory_contract id sampleEqualPath true true QDateTime.null sampleCtx sampleFolders
        sampleTree "copy" "/nb/sub" sampleSub (by decide) rfl (fun h => by cases h)
        (by decide)).1 SrcParent.dest
    rw [VDirectory.openDirectory_opened sampleCtx _ sampleTree rfl] at ho
    simp only [Option.some.injEq, Prod.mk.injEq] at ho
    obtain ⟨hr, hd, hw⟩ := ho
    subst hr hd hw
    have hev : o.ret = some (VDirectory.new 101 (some 1) "copy" QDateTime.null) := by
      have := congrArg (Option.map CopyOutcome.ret) hc
      exact Option.some.inj (this.symm.trans rfl)
    obtain ⟨_, front, hfront, _, hfr⟩ := hret _ hev
    refine ⟨o, hc, hev, ?_, hsrc (by decide), hrole rfl⟩
    rw [hfront, hfr (by decide)]
  · obtain ⟨o, hc, _, hs, _⟩ :=
      (copyDirectory_contract id sampleEqualPath true true QDateTime.null sampleCtx sampleFolders
        sampleTree "moved" "/nb/sub" sampleSub (by decide) rfl (fun h => by cases h)
        (by decide)).2.1
        [] [VDirectory.new 5 (some 1) "tmp" QDateTime.null] rfl rfl
        (fun y hy => by
          rcases List.mem_singleton.1 hy with rfl
          decide)
    obtain ⟨h1, h2, h3, h4⟩ := hs rfl
    exact ⟨o, hc, h1, h2, h3, h4⟩
  · obtain ⟨w2, r0, d0, w0, o, _, ho, hc, _, ⟨front, hfront, _, _, hstale⟩, hs, _,
        ⟨parent1, hp1, _, _, _, hp4⟩, _⟩ :=
      (copyDirectory_contract id sampleEqualPath true true QDateTime.null sampleCtx sampleFolders
        sampleTree "deep2" "/nb/sub/deep" sampleDeep (by decide) rfl (fun h => by cases h)
        (by decide)).2.2
        sampleSub sampleSubCtx [] [] rfl rfl rfl (fun y hy => by cases hy) (by decide)
        (by decide)
    rw [VDirectory.openDirectory_opened sampleCtx _ sampleTree rfl] at ho
    simp only [Option.some.injEq, Prod.mk.injEq] at ho
    obtain ⟨hr, hd, hw⟩ := ho
    subst hr hd hw
    obtain ⟨h1, h2⟩ := hs rfl
    refine ⟨o, hc, h1, h2, ?_, ?_⟩
    · have := congrArg (Option.map (fun o => o.destDir.subDirs)) hc
      exact Option.some.inj (this.symm.trans rfl)
    · rw [hp1, hp4 (by decide)]
      rfl
  · obtain ⟨w2, r0, d0, w0, o, hrem, ho, hc, hsome, _, hs, _, ⟨parent1, hp1, _, _, _, hp4⟩, _⟩ :=
      (copyDirectory_contract id sampleEqualPath true true QDateTime.null sampleCtx sampleTwo
        sampleClosed "s2" "/other/s" (VDirectory.new 51 (some 50) "s" QDateTime.null)
        (by decide) rfl (fun _ => ⟨rfl, rfl⟩) (by decide)).2.2
        sampleOther sampleOtherCtx [] [] rfl rfl rfl (fun y hy => by cases hy)
        (fun c hc => by cases hc) (by decide)
    have hr0 : r0 = true := by
      have h1 := congrArg (Option.map (fun o => o.ret.isSome)) hc
      have h2 : some o.ret.isSome = some true := h1.symm.trans rfl
      rw [hsome] at h2
      simpa using Option.some.inj h2
    subst hr0
    have hd0 : d0.addr = 1 := (VDirectory.openDirectory_parent ho).2.1
    obtain ⟨h1, _⟩ := hs rfl
    rw [hd0] at h1
    refine ⟨o, hc, h1, ?_, ?_⟩
    · have := congrArg (Option.map (fun o => o.destDir.subDirs.map VDirectory.name)) hc
      exact Option.some.inj (this.symm.trans rfl)
    · rw [hp1, hp4 (by decide)]
      rfl

theorem VDirectory.noResidualOpen_refl (d : VDirectory) : NoResidualOpen d d :=
  ⟨rfl, rfl, fun n hn ho => ⟨n, hn, rfl, ho⟩⟩

theorem VDirectory.close_addr (w : World) (d : VDirectory) : (close w d).1.addr = d.addr := by
  cases d with
  | mk a p n o e c subs fs =>
    cases o <;> simp [close, VDirectory.addr]

/-- Closing an opened node leaves a tree without any opened node. -/
theorem VDirectory.noResidualOpen_close (w : World) (d d0 : VDirectory)
    (hd : d.opened = false) (h0 : d0.opened = true) (ha : d0.addr = d.addr) :
    NoResidualOpen d (close w d0).1 := by
  obtain ⟨h1, h2, _⟩ := VDirectory.close_empty w d0 (Or.inl h0)
  refine ⟨by rw [h1, hd], by rw [VDirectory.close_addr, ha], ?_⟩
  intro n hn ho
  rw [VDirectory.nodes_eq, h2] at hn
  simp only [nodesOfList, List.mem_singleton] at hn
  rw [hn, h1] at ho
  cases ho

/-- Replacing the children at the address of `dir` by a tree `dir1` that has no
residual open node with respect to `dir` leaves no residual open node. -/
theorem VDirectory.noResidualOpen_updateSubDir (d dir dir1 : VDirectory)
    (hdir : dir ∈ d.subDirs) (h : NoResidualOpen dir dir1) :
    NoResidualOpen d (d.setSubDirs (updateSubDir dir.addr (fun _ => dir1) d.subDirs)) := by
  refine ⟨VDirectory.opened_setSubDirs d _, VDirectory.addr_setSubDirs d _, ?_⟩
  intro n hn ho
  rw [VDirectory.nodes_eq, VDirectory.subDirs_setSubDirs] at hn
  rcases List.mem_cons.1 hn with rfl | hn
  · exact ⟨d, VDirectory.mem_nodes_self d, (VDirectory.addr_setSubDirs d _).symm,
      by rw [← ho]; exact (VDirectory.opened_setSubDirs d _).symm⟩
  · obtain ⟨c1, hc1, hn1⟩ := (VDirectory.mem_nodesOfList n _).1 hn
    unfold updateSubDir at hc1
    obtain ⟨c, hc, rfl⟩ := List.mem_map.1 hc1
    by_cases hca : (c.addr == dir.addr) = true
    · rw [if_pos hca] at hn1
      obtain ⟨m, hm, hma, hmo⟩ := h.2.2 n hn1 ho
      exact ⟨m, VDirectory.mem_nodes_of_child hdir hm, hma, hmo⟩
    · rw [if_neg hca] at hn1
      exact ⟨n, VDirectory.mem_nodes_of_child hc hn1, rfl, ho⟩

/-- The node that a successful open() returns, seen from a caller that found
the directory opened: it is the directory itself. -/
theorem VDirectory.noResidualOpen_open {cx : Ctx} {w w0 : World} {d d0 : VDirectory} {r : Bool}
    (ho : openDirectory cx w d = some (r, d0, w0)) (hd : d.opened = true ∨ r = false) :
    NoResidualOpen d d0 := by
  rcases VDirectory.openDirectory_result ho with ⟨h1, _, _⟩ | ⟨hr, h2, _⟩
  · rw [h1]; exact VDirectory.noResidualOpen_refl d
  · rcases hd with hd | hd
    · rw [h2] at hd; cases hd
    · rw [hr] at hd; cases hd

theorem VDirectory.tryLoadFile_not_found (caseSensitive : Bool) :
    ∀ (p_filePath : List String) (cx : Ctx) (w w1 : World) (d d1 : VDirectory),
      tryLoadFile caseSensitive cx w d p_filePath = some (none, d1, w1) →
      NoResidualOpen d d1 := by
  intro p_filePath
  induction p_filePath with
  | nil =>
    intro cx w w1 d d1 h
    simp only [tryLoadFile, Option.some.injEq, Prod.mk.injEq, true_and] at h
    rw [← h.1]; exact VDirectory.noResidualOpen_refl d
  | cons seg rest ih =>
    intro cx w w1 d d1 h
    have hfinish : ∀ (file : Option VNoteFile) (d3 : VDirectory) (w3 : World),
        d3.opened = true → d3.addr = d.addr →
        (file = none → d.opened = true → NoResidualOpen d d3) →
        (if (file.isNone && !d.opened) = true then some (file, (close w3 d3).1, (close w3 d3).2)
          else some (file, d3, w3)) = some (none, d1, w1) → NoResidualOpen d d1 := by
      intro file d3 w3 h3 ha hkeep hfin
      split at hfin
      · rename_i hc
        simp only [Option.some.injEq, Prod.mk.injEq] at hfin
        rw [← hfin.2.1]
        have hd : d.opened = false := by
          cases hdo : d.opened with
          | false => rfl
          | true => rw [hdo] at hc; simp at hc
        exact VDirectory.noResidualOpen_close w3 d d3 hd h3 ha
      · rename_i hc
        simp only [Option.some.injEq, Prod.mk.injEq] at hfin
        obtain ⟨hf, hd3, _⟩ := hfin
        have hd : d.opened = true := by
          cases hdo : d.opened with
          | true => rfl
          | false => rw [hdo, hf] at hc; simp at hc
        rw [← hd3]
        exact hkeep hf hd
    cases rest with
    | nil =>
      unfold tryLoadFile at h
      dsimp only at h
      split at h
      · cases h
      · rename_i d0 w0 ho
        simp only [Option.some.injEq, Prod.mk.injEq, true_and] at h
        rw [← h.1]
        exact VDirectory.noResidualOpen_open ho (Or.inr rfl)
      · rename_i d0 w0 ho
        have hop := VDirectory.openDirectory_true_opened ho
        split at h
        · cases h
        · rename_i file d3 w3 hf
          rw [VDirectory.findFile_opens (VDirectory.openDirectory_opened cx w0 d0 hop)] at hf
          simp only [Option.some.injEq, Prod.mk.injEq] at hf
          obtain ⟨_, hd3, _⟩ := hf
          subst hd3
          exact hfinish file d0 w3 hop (VDirectory.openDirectory_parent ho).2.1
            (fun _ hd => VDirectory.noResidualOpen_open ho (Or.inl hd)) h
    | cons seg2 rest2 =>
      unfold tryLoadFile at h
      dsimp only at h
      split at h
      · cases h
      · rename_i d0 w0 ho
        simp only [Option.some.injEq, Prod.mk.injEq, true_and] at h
        rw [← h.1]
        exact VDirectory.noResidualOpen_open ho (Or.inr rfl)
      · rename_i d0 w0 ho
        have hop := VDirectory.openDirectory_true_opened ho
        have haddr := (VDirectory.openDirectory_parent ho).2.1
        split at h
        · cases h
        · rename_i file d3 w3 hf
          rw [VDirectory.findSubDirectory_opens
            (VDirectory.openDirectory_opened cx w0 d0 hop)] at hf
          split at hf
          · cases hf
          · rename_i d2 w2 hfind
            simp only [Option.some.injEq, Prod.mk.injEq] at hfind hf
            obtain ⟨_, hd2, _⟩ := hfind
            obtain ⟨_, hd3, _⟩ := hf
            subst hd2; subst hd3
            exact hfinish file d0 w3 hop haddr
              (fun _ hd => VDirectory.noResidualOpen_open ho (Or.inl hd)) h
          · rename_i dir d2 w2 hfind
            simp only [Option.some.injEq, Prod.mk.injEq] at hfind
            obtain ⟨hdir, hd2, hw2⟩ := hfind
            subst hd2
            split at hf
            · cases hf
            · rename_i file1 dir1 w4 hrec
              simp only [Option.some.injEq, Prod.mk.injEq] at hf
              obtain ⟨hfile, hd3, _⟩ := hf
              subst hd3
              refine hfinish file _ w3 ?_ ?_ ?_ h
              · rw [VDirectory.opened_setSubDirs]; exact hop
              · rw [VDirectory.addr_setSubDirs]; exact haddr
              · intro hnone hd
                rw [hfile, hnone] at hrec
                have hrel := ih _ _ _ _ _ hrec
                rcases VDirectory.openDirectory_result ho with ⟨h1, _, _⟩ | ⟨_, h2, _⟩
                · subst h1
                  exact VDirectory.noResidualOpen_updateSubDir _ dir dir1
                    (List.mem_of_find?_eq_some hdir) hrel
                · rw [h2] at hd; cases hd

/-- On a tree whose closed nodes are empty, tryLoadFile stops at no assertion:
it returns a file or not-found. -/
theorem VDirectory.tryLoadFile_total (caseSensitive : Bool) :
    ∀ (p_filePath : List String) (cx : Ctx) (w : World) (d : VDirectory),
      ClosedEmptyTree d →
      ∃ r d1 w1, tryLoadFile caseSensitive cx w d p_filePath = some (r, d1, w1) := by
  intro p_filePath
  induction p_filePath with
  | nil =>
    intro cx w d _
    exact ⟨none, d, w, by simp only [tryLoadFile]⟩
  | cons seg rest ih =>
    intro cx w d hinv
    obtain ⟨r0, d0, w0, ho⟩ := VDirectory.openDirectory_total cx w d
      (hinv d (VDirectory.mem_nodes_self d))
    cases r0 with
    | false =>
      refine ⟨none, d0, w0, ?_⟩
      unfold tryLoadFile
      simp only [ho]
    | true =>
      have hop := VDirectory.openDirectory_true_opened ho
      have hinv0 := (VDirectory.openDirectory_inv ho hinv).1
      have hoo := VDirectory.openDirectory_opened cx w0 d0 hop
      cases rest with
      | nil =>
        unfold tryLoadFile
        simp only [ho, VDirectory.findFile_opens hoo]
        split <;> exact ⟨_, _, _, rfl⟩
      | cons seg2 rest2 =>
        cases hfind : d0.subDirs.find? (fun c => nameMatches cx.toLower caseSensitive seg c.name) with
        | none =>
          unfold tryLoadFile
          simp only [ho, VDirectory.findSubDirectory_opens hoo, hfind]
          split <;> exact ⟨_, _, _, rfl⟩
        | some dir =>
          obtain ⟨file, dir1, w3, hrec⟩ := ih (cx.child dir.name) w0 dir
            (VDirectory.closedEmptyTree_children hinv0 dir (List.mem_of_find?_eq_some hfind))
          unfold tryLoadFile
          simp only [ho, VDirectory.findSubDirectory_opens hoo, hfind, hrec]
          split <;> exact ⟨_, _, _, rfl⟩

/-- C18: for every directory tree whose closed nodes are empty and every
path-segment list, tryLoadFile returns (a file or not-found); and whenever it
returns not-found, the receiver has the opened flag it had before the call and
every node of the tree that is opened afterwards has an opened node of the
tree before the call at its address: no node stays opened that the failed
lookup opened. -/
theorem tryLoadFile_not_found_leaves_closed (caseSensitive : Bool) (cx : Ctx) (w : World)
    (d : VDirectory) (p_filePath : List String) :
    (ClosedEmptyTree d →
      ∃ r d1 w1, tryLoadFile caseSensitive cx w d p_filePath = some (r, d1, w1)) ∧
    (∀ (d1 : VDirectory) (w1 : World),
      tryLoadFile caseSensitive cx w d p_filePath = some (none, d1, w1) →
      d1.opened = d.opened ∧ d1.addr = d.addr ∧
        ∀ n ∈ nodes d1, n.opened = true → ∃ m ∈ nodes d, m.addr = n.addr ∧ m.opened = true) :=
  ⟨VDirectory.tryLoadFile_total caseSensitive p_filePath cx w d,
   fun d1 w1 h => VDirectory.tryLoadFile_not_found caseSensitive p_filePath cx w w1 d d1 h⟩

/-- Witness of C18: on the closed root, with `sub` on disk and no `missing.md`
in it, the lookup of `sub/missing.md` returns not-found, the root is closed and
childless again, and `sub` (address 101) was destroyed by the close of the root
after its own close had destroyed its note (address 104). -/
theorem tryLoadFile_not_found_leaves_closed_witness :
    ∃ d1 w1, tryLoadFile true sampleCtx sampleNested sampleClosed ["sub", "missing.md"]
        = some (none, d1, w1) ∧
      d1.subDirs = [] ∧ w1.deleted = [104, 101, 102, 103] ∧
      (d1.opened = sampleClosed.opened ∧ d1.addr = sampleClosed.addr ∧
        ∀ n ∈ nodes d1, n.opened = true →
          ∃ m ∈ nodes sampleClosed, m.addr = n.addr ∧ m.opened = true) :=
  ⟨_, _, rfl, rfl, rfl,
    (tryLoadFile_not_found_leaves_closed true sampleCtx sampleNested sampleClosed
      ["sub", "missing.md"]).2 _ _ rfl⟩

/-- A failed write of the receiver's config in createSubDirectory: the call
returns failure and the node that open() returned. -/
theorem VDirectory.createSubDirectory_write_failure (delConfigOk rmdirOk : Bool)
    (now : QDateTime) (cx : Ctx)
    (w w0 : World) (d d0 : VDirectory) (p_name : String) (hname : p_name.isEmpty = false)
    (hnb : configWritable cx d = true)
    (ho : openDirectory cx w d = some (true, d0, w0)) :
    ∃ w1, createSubDirectory true true false delConfigOk rmdirOk now cx w d p_name
      = some (none, d0, w1) := by
  have hnew : configWritable (cx.child p_name)
      (VDirectory.new (w0.addEntry (filePath cx.path p_name)).alloc.1 (some d0.addr)
        p_name now) = true :=
    VDirectory.configWritable_of_parent _ _ d0.addr rfl
  obtain ⟨w4, h4, _⟩ := VDirectory.writeToConfig_ok hnew true
    (w0.addEntry (filePath cx.path p_name)).alloc.2
  have hw : configWritable cx (d0.setSubDirs (d0.subDirs ++
      [VDirectory.new (w0.addEntry (filePath cx.path p_name)).alloc.1 (some d0.addr)
        p_name now])) = true := by
    rw [VDirectory.configWritable_congr cx ((VDirectory.parent_setSubDirs d0 _).trans
      (VDirectory.openDirectory_parent ho).1)]
    exact hnb
  obtain ⟨w5, h5, _⟩ := VDirectory.writeToConfig_ok hw false w4
  unfold createSubDirectory
  rw [if_neg (by simp [hname]), ho]
  simp only [Bool.not_true, Bool.false_eq_true, if_false, h4, h5,
    VDirectory.subDirs_setSubDirs, QVector.removeLast_append,
    VDirectory.setSubDirs_setSubDirs, VDirectory.setSubDirs_subDirs]
  exact ⟨_, rfl⟩

/-- A failed config write in createFile: the call returns failure and the node
that open() returned. -/
theorem VDirectory.createFile_write_failure (removeOk : Bool) (now : QDateTime) (cx : Ctx)
    (w w0 : World) (d d0 : VDirectory) (p_name : String) (hname : p_name.isEmpty = false)
    (hnb : configWritable cx d = true)
    (ho : openDirectory cx w d = some (true, d0, w0)) :
    ∃ w1, createFile true false removeOk now cx w d p_name = some (none, d0, w1) := by
  have hw : configWritable cx (d0.setFiles (d0.files ++
      [VNoteFile.new (w0.addEntry (filePath cx.path p_name)).alloc.1 d0.addr p_name
        FileType.Note true now now])) = true := by
    rw [VDirectory.configWritable_congr cx ((VDirectory.parent_setFiles d0 _).trans
      (VDirectory.openDirectory_parent ho).1)]
    exact hnb
  obtain ⟨w4, h4, _⟩ := VDirectory.writeToConfig_ok hw false
    (w0.addEntry (filePath cx.path p_name)).alloc.2
  unfold createFile
  rw [if_neg (by simp [hname]), ho]
  simp only [Bool.not_true, Bool.false_eq_true, if_false, h4,
    VDirectory.files_setFiles, QVector.removeLast_append,
    VDirectory.setFiles_setFiles, VDirectory.setFiles_files]
  exact ⟨_, rfl⟩

/-- A failed config write in reorderFiles, for a valid index triple on an opened
directory: the call returns the node and the world as they were. -/
theorem VDirectory.reorderFiles_write_failure (cx : Ctx) (w : World) (d : VDirectory)
    (first last destStart : Nat) (hopen : d.opened = true) (hnb : configWritable cx d = true)
    (h1 : first ≤ last) (h2 : last < d.files.length) (h3 : destStart ≤ d.files.length)
    (h4 : destStart < first ∨ destStart > last) :
    reorderFiles false cx w d first last destStart = some (d, w) := by
  have hw : configWritable cx (d.setFiles (reorderedAsStated first last destStart d.files))
      = true := by
    rw [VDirectory.configWritable_congr cx (VDirectory.parent_setFiles d _)]
    exact hnb
  obtain ⟨w1, hw1, hw2⟩ := VDirectory.writeToConfig_ok hw false w
  rw [hw2 rfl] at hw1
  unfold reorderFiles
  rw [if_pos ⟨hopen, by omega, by omega, by omega, by omega, by omega⟩]
  simp only [reorderVector_stated first last destStart d.files h1 h2 h3 h4, hw1,
    VDirectory.setFiles_setFiles_files]

/-- C14, as amended: on a directory that opens, if the write of the directory's
config fails then createSubDirectory, createFile, addFile and addSubDirectory
report failure, and after them and after reorderFiles (which returns nothing)
the child-directory and file sequences are those of the directory as opened by
the call, which are the sequences before the call when the directory was
already opened. removeFile and removeSubDirectory on the opened directory
return false and do not put the node back: the sequence is the one before the
call without the first occurrence of the node. The cut branch of
copyDirectory with the directory being both the destination and the parent of
the source, which occurs once in its sequence, returns no node and leaves the
source out of the sequence. -/
theorem failed_write_rolls_back (cx : Ctx) (w w0 : World) (d d0 : VDirectory)
    (ho : openDirectory cx w d = some (true, d0, w0))
    (hnb : configWritable cx d = true) :
    (d.opened = true → d0 = d) ∧
    (∀ (delConfigOk rmdirOk : Bool) (now : QDateTime) (p_name : String),
      p_name.isEmpty = false →
      ∃ d1 w1, createSubDirectory true true false delConfigOk rmdirOk now cx w d p_name
          = some (none, d1, w1) ∧
        d1.subDirs = d0.subDirs ∧ d1.files = d0.files) ∧
    (∀ (removeOk : Bool) (now : QDateTime) (p_name : String), p_name.isEmpty = false →
      ∃ d1 w1, createFile true false removeOk now cx w d p_name = some (none, d1, w1) ∧
        d1.subDirs = d0.subDirs ∧ d1.files = d0.files) ∧
    (∀ (p_file : VNoteFile) (p_index : Int),
      (p_index = -1 ∨ (0 ≤ p_index ∧ p_index ≤ d0.files.length)) →
      ∃ d1 w1, addFile false cx w d p_file p_index = some (false, d1, w1) ∧
        d1.subDirs = d0.subDirs ∧ d1.files = d0.files) ∧
    (∀ (p_dir : VDirectory) (p_index : Int),
      (p_index = -1 ∨ (0 ≤ p_index ∧ p_index ≤ d0.subDirs.length)) →
      ∃ d1 w1, addSubDirectory false cx w d p_dir p_index = some (false, d1, w1) ∧
        d1.subDirs = d0.subDirs ∧ d1.files = d0.files) ∧
    (∀ first last destStart : Nat, first ≤ last → last < d0.files.length →
      destStart ≤ d0.files.length → (destStart < first ∨ destStart > last) →
      ∃ d1 w1, reorderFiles false cx w0 d0 first last destStart = some (d1, w1) ∧
        d1.subDirs = d0.subDirs ∧ d1.files = d0.files) ∧
    (∀ p : Nat, p ≠ 0 → (∃ x ∈ d0.files, x.addr = p) →
      ∃ pre x post d1 w1, d0.files = pre ++ x :: post ∧ x.addr = p ∧
        (∀ y ∈ pre, y.addr ≠ p) ∧
        removeFile false cx w0 d0 p = some (false, d1, w1) ∧
        d1.subDirs = d0.subDirs ∧ d1.files = pre ++ post) ∧
    (∀ p : Nat, p ≠ 0 → (∃ x ∈ d0.subDirs, x.addr = p) →
      ∃ pre x post d1 w1, d0.subDirs = pre ++ x :: post ∧ x.addr = p ∧
        (∀ y ∈ pre, y.addr ≠ p) ∧
        removeSubDirectory false cx w0 d0 p = some (false, d1, w1) ∧
        d1.subDirs = pre ++ post ∧ d1.files = d0.files) ∧
    (∀ (cleanPath : String → String) (equalPath : String → String → Bool)
        (removeWriteOk : Bool) (now : QDateTime) (p_destName srcPath : String)
        (p_srcDir : VDirectory) (pre post : List VDirectory),
      equalPath (cleanPath srcPath) (cleanPath (filePath cx.path p_destName)) = false →
      p_srcDir.addr ≠ 0 → d0.subDirs = pre ++ p_srcDir :: post →
      (∀ y ∈ pre ++ post, y.addr ≠ p_srcDir.addr) →
      ∃ o, copyDirectory cleanPath equalPath true removeWriteOk false now cx w0 d0
          p_destName srcPath SrcParent.dest p_srcDir true = some o ∧
        o.ret = none ∧ o.destDir.subDirs = pre ++ post) := by
  have hop0 : d0.opened = true := VDirectory.openDirectory_true_opened ho
  have hnb0 : configWritable cx d0 = true := by
    rw [VDirectory.configWritable_congr cx (VDirectory.openDirectory_parent ho).1]
    exact hnb
  refine ⟨?_, ?_, ?_, ?_, ?_, ?_, ?_, ?_, ?_⟩
  · intro hopen
    rw [VDirectory.openDirectory_opened cx w d hopen] at ho
    simp only [Option.some.injEq, Prod.mk.injEq, true_and] at ho
    exact ho.1.symm
  · intro delConfigOk rmdirOk now p_name hname
    obtain ⟨w1, h⟩ := VDirectory.createSubDirectory_write_failure delConfigOk rmdirOk now cx w w0
      d d0 p_name hname hnb ho
    exact ⟨d0, w1, h, rfl, rfl⟩
  · intro removeOk now p_name hname
    obtain ⟨w1, h⟩ := VDirectory.createFile_write_failure removeOk now cx w w0 d d0 p_name hname
      hnb ho
    exact ⟨d0, w1, h, rfl, rfl⟩
  · intro p_file p_index hidx
    obtain ⟨w1, h, _⟩ := VDirectory.addFile_after_open false cx w w0 d d0 p_file p_index ho hnb
      hidx
    exact ⟨d0, w1, h, rfl, rfl⟩
  · intro p_dir p_index hidx
    obtain ⟨w1, h, _⟩ := VDirectory.addSubDirectory_after_open false cx w w0 d d0 p_dir p_index
      ho hnb hidx
    exact ⟨d0, w1, h, rfl, rfl⟩
  · intro first last destStart h1 h2 h3 h4
    exact ⟨d0, w0, VDirectory.reorderFiles_write_failure cx w0 d0 first last destStart
      hop0 hnb0 h1 h2 h3 h4, rfl, rfl⟩
  · intro p hp hmem
    obtain ⟨pre, x, post, w1, h1, h2, h3, h4, _⟩ :=
      @VDirectory.removeFile_first false cx w0 d0 p hop0 hp hnb0 hmem
    exact ⟨pre, x, post, _, w1, h1, h2, h3, h4, VDirectory.subDirs_setFiles _ _,
      VDirectory.files_setFiles _ _⟩
  · intro p hp hmem
    obtain ⟨pre, x, post, w1, h1, h2, h3, h4, _⟩ :=
      @VDirectory.removeSubDirectory_first false cx w0 d0 p hop0 hp hnb0 hmem
    exact ⟨pre, x, post, _, w1, h1, h2, h3, h4, VDirectory.subDirs_setSubDirs _ _,
      VDirectory.files_setSubDirs _ _⟩
  · intro cleanPath equalPath removeWriteOk now p_destName srcPath p_srcDir pre post hdiff hp
      hsplit honce
    obtain ⟨o, h1, _, _, h4⟩ := VDirectory.copyDirectory_cut_same cleanPath equalPath
      removeWriteOk false now cx w0 d0 p_destName srcPath p_srcDir pre post hdiff hnb0 hop0 hp
      hsplit honce
    exact ⟨o, h1, (h4 rfl).1, (h4 rfl).2.2⟩

/-- Witness of C14 on the opened directory with the notes A, B, C, D, E and on
the sample tree: each of the five operations, with a failing config write,
leaves both sequences as they were; removeFile of the note C and
removeSubDirectory of `sub` return false with the node gone; the cut of `sub`
to the name `moved` returns no node with `sub` gone. -/
theorem failed_write_rolls_back_witness :
    (∃ d1 w1, createSubDirectory true true false true true QDateTime.null sampleCtx sampleWorld
        sampleDir "new" = some (none, d1, w1) ∧
      d1.subDirs = sampleDir.subDirs ∧ d1.files = sampleDir.files) ∧
    (∃ d1 w1, createFile true false true QDateTime.null sampleCtx sampleWorld sampleDir "F"
        = some (none, d1, w1) ∧
      d1.subDirs = sampleDir.subDirs ∧ d1.files = sampleDir.files) ∧
    (∃ d1 w1, addFile false sampleCtx sampleWorld sampleDir sampleForeignFile 1
        = some (false, d1, w1) ∧
      d1.subDirs = sampleDir.subDirs ∧ d1.files = sampleDir.files) ∧
    (∃ d1 w1, addSubDirectory false sampleCtx sampleWorld sampleDir sampleDeep (-1)
        = some (false, d1, w1) ∧
      d1.subDirs = sampleDir.subDirs ∧ d1.files = sampleDir.files) ∧
    (∃ d1 w1, reorderFiles false sampleCtx sampleWorld sampleDir (1 : Nat) (2 : Nat) (4 : Nat)
        = some (d1, w1) ∧
      d1.subDirs = sampleDir.subDirs ∧ d1.files = sampleDir.files) ∧
    (∃ pre x post d1 w1, sampleDir.files = pre ++ x :: post ∧ x.addr = 4 ∧
      (∀ y ∈ pre, y.addr ≠ 4) ∧
      removeFile false sampleCtx sampleWorld sampleDir 4 = some (false, d1, w1) ∧
      d1.subDirs = sampleDir.subDirs ∧ d1.files = pre ++ post) ∧
    (∃ pre x post d1 w1, sampleTree.subDirs = pre ++ x :: post ∧ x.addr = 2 ∧
      (∀ y ∈ pre, y.addr ≠ 2) ∧
      removeSubDirectory false sampleCtx sampleFolders sampleTree 2 = some (false, d1, w1) ∧
      d1.subDirs = pre ++ post ∧ d1.files = sampleTree.files) ∧
    (∃ o, copyDirectory id sampleEqualPath true true false QDateTime.null sampleCtx
        sampleFolders sampleTree "moved" "/nb/sub" SrcParent.dest sampleSub true = some o ∧
      o.ret = none ∧
      o.destDir.subDirs = [] ++ [VDirectory.new 5 (some 1) "tmp" QDateTime.null]) := by
  have h := failed_write_rolls_back sampleCtx sampleWorld sampleWorld sampleDir sampleDir rfl rfl
  have h2 := failed_write_rolls_back sampleCtx sampleFolders sampleFolders sampleTree sampleTree
    rfl rfl
  exact ⟨h.2.1 true true QDateTime.null "new" rfl, h.2.2.1 true QDateTime.null "F" rfl,
    h.2.2.2.1 sampleForeignFile 1 (Or.inr ⟨by decide, by decide⟩),
    h.2.2.2.2.1 sampleDeep (-1) (Or.inl rfl),
    h.2.2.2.2.2.1 1 2 4 (by decide) (by decide) (by decide) (by decide),
    h.2.2.2.2.2.2.1 4 (by decide) ⟨sampleFile 4 "C", by decide, rfl⟩,
    h2.2.2.2.2.2.2.2.1 2 (by decide) ⟨sampleSub, List.mem_cons_self _ _, rfl⟩,
    h2.2.2.2.2.2.2.2.2 id sampleEqualPath true QDateTime.null "moved" "/nb/sub" sampleSub []
      [VDirectory.new 5 (some 1) "tmp" QDateTime.null] (by decide) (by decide) rfl
      (fun y hy => by
        rcases List.mem_singleton.1 hy with rfl
        decide)⟩

/-- Counterexample to C14 as stated: with a failing config write, removeFile
leaves the note A (address 2) out of the file sequence of the opened sample
directory, removeSubDirectory leaves the child `sub` (address 2) out of the
child sequence of the sample tree, and the cut branch of copyDirectory leaves
the moved child `sub` out of the sequence of its parent: the sequences after
the operation are not the sequences before it. -/
theorem remove_failure_not_restored :
    sampleDir.opened = true ∧
    sampleDir.files.map VNoteFile.name = ["A", "B", "C", "D", "E"] ∧
    (removeFile false sampleCtx sampleWorld sampleDir 2).map
        (fun r => (r.1, r.2.1.files.map VNoteFile.name))
      = some (false, ["B", "C", "D", "E"]) ∧
    sampleTree.opened = true ∧
    sampleTree.subDirs.map VDirectory.name = ["sub", "tmp"] ∧
    (removeSubDirectory false sampleCtx sampleFolders sampleTree 2).map
        (fun r => (r.1, r.2.1.subDirs.map VDirectory.name))
      = some (false, ["tmp"]) ∧
    (copyDirectory id sampleEqualPath true false false QDateTime.null sampleCtx sampleFolders
      sampleTree "moved" "/nb/sub" SrcParent.dest sampleSub true).map
        (fun o => (o.ret.isSome, o.destDir.subDirs.map VDirectory.name))
      = some (false, ["tmp"]) := by
  refine ⟨rfl, rfl, rfl, rfl, rfl, rfl, rfl⟩

theorem VFileList.insertFileListItem_back (fileList : List QListWidgetItem) (file : VNoteFile)
    (h : file.addr ≠ 0) :
    VFileList.insertFileListItem fileList file false
      = some (VFileList.fillItem QListWidgetItem.new file,
          fileList ++ [VFileList.fillItem QListWidgetItem.new file]) := by
  unfold VFileList.insertFileListItem
  rw [if_neg h]
  rfl

/-- The loop of updateFileListAdded when the items from position `i` on show the
first files that are left, in order: an item is appended for every other file
that is left. -/
theorem VFileList.updateFileListAddedLoop_prefix :
    ∀ (rest : List VNoteFile) (front tail ret : List QListWidgetItem),
      (∀ f ∈ rest, f.addr ≠ 0) → tail.length ≤ rest.length →
      tail.map VFileList.getVFile = (rest.take tail.length).map VNoteFile.addr →
      VFileList.updateFileListAddedLoop rest front.length ret (front ++ tail)
        = some (ret ++ (rest.drop tail.length).map (VFileList.fillItem QListWidgetItem.new),
            (front ++ tail)
              ++ (rest.drop tail.length).map (VFileList.fillItem QListWidgetItem.new)) := by
  intro rest
  induction rest with
  | nil =>
    intro front tail ret _ hlen _
    have ht : tail = [] := List.length_eq_zero.1 (Nat.le_zero.1 hlen)
    subst ht
    simp [VFileList.updateFileListAddedLoop]
  | cons f r ih =>
    intro front tail ret hnn hlen hshow
    have hf : f.addr ≠ 0 := hnn f (List.mem_cons_self _ _)
    have hr : ∀ g ∈ r, g.addr ≠ 0 := fun g hg => hnn g (List.mem_cons_of_mem _ hg)
    cases tail with
    | nil =>
      have h1 := ih (front ++ [VFileList.fillItem QListWidgetItem.new f]) []
        (ret ++ [VFileList.fillItem QListWidgetItem.new f]) hr (Nat.zero_le _) rfl
      simp only [List.append_nil, List.length_append, List.length_singleton, List.length_nil,
        List.drop_zero] at h1
      unfold VFileList.updateFileListAddedLoop
      simp only [List.append_nil, ge_iff_le, le_refl, if_true,
        VFileList.insertFileListItem_back front f hf, h1, List.length_nil, List.drop_zero,
        List.map_cons, List.append_assoc, List.singleton_append]
    | cons t ts =>
      simp only [List.length_cons, List.take_succ_cons, List.map_cons, List.cons.injEq]
        at hshow hlen
      have h1 := ih (front ++ [t]) ts ret hr (by omega) hshow.2
      simp only [List.length_append, List.length_singleton, List.append_assoc,
        List.singleton_append] at h1
      unfold VFileList.updateFileListAddedLoop
      have hlt : ¬ (front.length ≥ (front ++ t :: ts).length) := by
        simp only [List.length_append, List.length_cons]; omega
      have hget : (front ++ t :: ts)[front.length]? = some t := by
        rw [List.getElem?_append_right (le_refl _)]
        simp
      simp only [hlt, if_false, hget, hshow.1, bne_self_eq_false, Bool.false_eq_true, h1,
        List.length_cons, List.drop_succ_cons, List.append_assoc, List.cons_append]

/-- The File Node that createFile returns is a new object: its address is not
the null pointer. -/
theorem VDirectory.createFile_ret_addr {fileOpenOk writeOk removeOk : Bool} {now : QDateTime} {cx : Ctx}
    {w w1 : World} {d d1 : VDirectory} {p_name : String} {file : VNoteFile}
    (h : createFile fileOpenOk writeOk removeOk now cx w d p_name = some (some file, d1, w1)) :
    file.addr ≠ 0 := by
  unfold createFile at h
  split at h
  · cases h
  · split at h
    · cases h
    · simp at h
    · split at h
      · simp at h
      · dsimp only at h
        split at h
        · cases h
        · simp at h
        · simp only [Option.some.injEq, Prod.mk.injEq] at h
          rw [← h.1]
          simp [VNoteFile.new, World.alloc]

/-- What updateFileListAdded does when the items show the first `k` files. -/
theorem VFileList.updateFileListAdded_prefix (m_directory : VDirectory)
    (fileList : List QListWidgetItem) (k : Nat) (hk : k ≤ m_directory.files.length)
    (hnn : ∀ f ∈ m_directory.files, f.addr ≠ 0)
    (hshow : fileList.map VFileList.getVFile = (m_directory.files.take k).map VNoteFile.addr) :
    VFileList.updateFileListAdded m_directory fileList
      = some ((m_directory.files.drop k).map (VFileList.fillItem QListWidgetItem.new),
          fileList ++ (m_directory.files.drop k).map (VFileList.fillItem QListWidgetItem.new)) := by
  have hlen : fileList.length = k := by
    have := congrArg List.length hshow
    simp only [List.length_map, List.length_take] at this
    omega
  have h := VFileList.updateFileListAddedLoop_prefix m_directory.files [] fileList [] hnn
    (by omega) (by rw [hlen]; exact hshow)
  rw [hlen] at h
  simpa [VFileList.updateFileListAdded] using h

theorem VFileList.getVFile_fillItem (f : VNoteFile) :
    VFileList.getVFile (VFileList.fillItem QListWidgetItem.new f) = f.addr := rfl

theorem VFileList.map_getVFile_fillItem (l : List VNoteFile) :
    (l.map (VFileList.fillItem QListWidgetItem.new)).map VFileList.getVFile
      = l.map VNoteFile.addr := by
  rw [List.map_map]
  rfl

/-- The file that createFile returns is the last of the file sequence. -/
theorem VDirectory.createFile_ret_last {fileOpenOk writeOk removeOk : Bool} {now : QDateTime} {cx : Ctx}
    {w w1 : World} {d d1 : VDirectory} {p_name : String} {file : VNoteFile}
    (h : createFile fileOpenOk writeOk removeOk now cx w d p_name = some (some file, d1, w1)) :
    ∃ front, d1.files = front ++ [file] := by
  unfold createFile at h
  split at h
  · cases h
  · split at h
    · cases h
    · simp at h
    · split at h
      · simp at h
      · dsimp only at h
        split at h
        · cases h
        · simp at h
        · simp only [Option.some.injEq, Prod.mk.injEq] at h
          rw [← h.1, ← h.2.1]
          exact ⟨_, VDirectory.files_setFiles _ _⟩

theorem forall₂_of_map_eq {α β γ : Type} (f : α → γ) (g : β → γ) :
    ∀ (l : List α) (l0 : List β), l.map f = l0.map g →
      List.Forall₂ (fun a b => f a = g b) l l0 := by
  intro l
  induction l with
  | nil =>
    intro l0 h
    cases l0 with
    | nil => exact List.Forall₂.nil
    | cons _ _ => simp at h
  | cons a rest ih =>
    intro l0 h
    cases l0 with
    | nil => simp at h
    | cons b rest0 =>
      simp only [List.map_cons, List.cons.injEq] at h
      exact List.Forall₂.cons h.1 (ih rest0 h.2)

/-- C28: for every file sequence of a directory (of non-null pointers) and every
`k` up to its length, if the items show exactly the first `k` files in order
then updateFileListAdded() appends one item per file from position `k` on, in
order, returns exactly those items (as many as there are files from `k` on), and
the items then show the whole sequence; and when the directory is the one that
a createFile left, with one file more than the items show, exactly the item of
the created file is returned. -/
theorem updateFileListAdded_appends (m_directory : VDirectory)
    (fileList : List QListWidgetItem) (k : Nat) (hk : k ≤ m_directory.files.length)
    (hnn : ∀ f ∈ m_directory.files, f.addr ≠ 0)
    (hshow : fileList.map VFileList.getVFile = (m_directory.files.take k).map VNoteFile.addr) :
    VFileList.updateFileListAdded m_directory fileList
      = some ((m_directory.files.drop k).map (VFileList.fillItem QListWidgetItem.new),
          fileList ++ (m_directory.files.drop k).map (VFileList.fillItem QListWidgetItem.new)) ∧
    ((m_directory.files.drop k).map (VFileList.fillItem QListWidgetItem.new)).length
      = m_directory.files.length - k ∧
    (fileList ++ (m_directory.files.drop k).map (VFileList.fillItem QListWidgetItem.new)).map
        VFileList.getVFile = m_directory.files.map VNoteFile.addr ∧
    (∀ (fileOpenOk writeOk removeOk : Bool) (now : QDateTime) (cx : Ctx) (w w1 : World)
        (d : VDirectory) (p_name : String) (file : VNoteFile),
      createFile fileOpenOk writeOk removeOk now cx w d p_name = some (some file, m_directory, w1) →
      m_directory.files.length = k + 1 →
      VFileList.updateFileListAdded m_directory fileList
        = some ([VFileList.fillItem QListWidgetItem.new file],
            fileList ++ [VFileList.fillItem QListWidgetItem.new file])) := by
  have h := VFileList.updateFileListAdded_prefix m_directory fileList k hk hnn hshow
  refine ⟨h, by simp, ?_, ?_⟩
  · rw [List.map_append, hshow, VFileList.map_getVFile_fillItem, ← List.map_append,
      List.take_append_drop]
  · intro fileOpenOk writeOk removeOk now cx w w1 d p_name file hc hlen
    obtain ⟨front, hfront⟩ := VDirectory.createFile_ret_last hc
    have hfl : front.length = k := by
      have := congrArg List.length hfront
      simp only [List.length_append, List.length_singleton] at this
      omega
    have hd : m_directory.files.drop k = [file] := by
      rw [hfront, ← hfl]
      simp
    rw [h, hd]
    rfl

/-- Witness of C28: the items show A, B, C of the notes A, B, C, D, E; the items
of D and E are appended and returned. -/
theorem updateFileListAdded_appends_witness :
    VFileList.updateFileListAdded sampleDir [sampleItem 2 "A", sampleItem 3 "B", sampleItem 4 "C"]
      = some ([sampleItem 5 "D", sampleItem 6 "E"],
          [sampleItem 2 "A", sampleItem 3 "B", sampleItem 4 "C", sampleItem 5 "D",
            sampleItem 6 "E"]) :=
  (updateFileListAdded_appends sampleDir
    [sampleItem 2 "A", sampleItem 3 "B", sampleItem 4 "C"] 3 (by decide) (by decide) rfl).1

/-- C26, as amended: for every item list that shows the files `shown` and every
file sequence made of `shown` followed by added files (all non-null pointers),
updateFileListAdded() returns, the items then correspond position by position
to the file sequence (same length, item `i` holds file `i`), and the returned
vector holds exactly the items of the added files, in their order, each with
the name of its file as text. -/
theorem updateFileListAdded_reflects_appended (m_directory : VDirectory)
    (fileList : List QListWidgetItem) (shown added : List VNoteFile)
    (hfiles : m_directory.files = shown ++ added)
    (hnn : ∀ f ∈ m_directory.files, f.addr ≠ 0)
    (hshow : fileList.map VFileList.getVFile = shown.map VNoteFile.addr) :
    ∃ ret fileList1, VFileList.updateFileListAdded m_directory fileList = some (ret, fileList1) ∧
      fileList1.length = m_directory.files.length ∧
      List.Forall₂ (fun item file => VFileList.getVFile item = file.addr) fileList1
        m_directory.files ∧
      List.Forall₂ (fun item file => VFileList.getVFile item = file.addr ∧ item.text = file.name)
        ret added := by
  have htake : m_directory.files.take shown.length = shown := by rw [hfiles]; simp
  have hdrop : m_directory.files.drop shown.length = added := by rw [hfiles]; simp
  have h := VFileList.updateFileListAdded_prefix m_directory fileList shown.length
    (by rw [hfiles]; simp) hnn (by rw [htake]; exact hshow)
  rw [hdrop] at h
  have hmap : (fileList ++ added.map (VFileList.fillItem QListWidgetItem.new)).map
      VFileList.getVFile = m_directory.files.map VNoteFile.addr := by
    rw [List.map_append, hshow, VFileList.map_getVFile_fillItem, ← List.map_append, hfiles]
  refine ⟨_, _, h, ?_, forall₂_of_map_eq _ _ _ _ hmap, ?_⟩
  · have := congrArg List.length hmap
    simpa using this
  · clear h hmap hdrop htake hfiles hnn
    induction added with
    | nil => exact List.Forall₂.nil
    | cons a rest ih => exact List.Forall₂.cons ⟨rfl, rfl⟩ ih

/-- Witness of C26: the items show A, B, C and the notes D, E were appended. -/
theorem updateFileListAdded_reflects_appended_witness :
    ∃ ret fileList1, VFileList.updateFileListAdded sampleDir
        [sampleItem 2 "A", sampleItem 3 "B", sampleItem 4 "C"] = some (ret, fileList1) ∧
      fileList1.length = sampleDir.files.length ∧
      List.Forall₂ (fun item file => VFileList.getVFile item = file.addr) fileList1
        sampleDir.files ∧
      List.Forall₂ (fun item file => VFileList.getVFile item = file.addr ∧ item.text = file.name)
        ret [sampleFile 5 "D", sampleFile 6 "E"] :=
  updateFileListAdded_reflects_appended sampleDir
    [sampleItem 2 "A", sampleItem 3 "B", sampleItem 4 "C"]
    [sampleFile 2 "A", sampleFile 3 "B", sampleFile 4 "C"] [sampleFile 5 "D", sampleFile 6 "E"]
    rfl (by decide) rfl

/-- When a file was added in front of the files that the items show (X before
A and B), updateFileListAdded() appends an item for every file: the items then
show A, B, X, A, B, and three items are returned for one added file. -/
theorem updateFileListAdded_front_insert_mismatch :
    (VFileList.updateFileListAdded
      (VDirectory.mk 1 none "nb" true false QDateTime.null []
        [sampleFile 7 "X", sampleFile 2 "A", sampleFile 3 "B"])
      [sampleItem 2 "A", sampleItem 3 "B"]).map
        (fun r => (r.1.map VFileList.getVFile, r.2.map VFileList.getVFile))
      = some ([7, 2, 3], [2, 3, 7, 2, 3]) := by
  rfl

theorem reorderAfter_applyMoves {α : Type} (p_first dst : Int) :
    ∀ (n : Nat) (v : List α),
      reorderAfter p_first dst n v = applyMoves (List.replicate n (p_first, dst)) v := by
  intro n
  induction n with
  | zero => intro v; rfl
  | succ n ih =>
    intro v
    simp only [reorderAfter, List.replicate_succ, applyMoves]
    cases QVector.move p_first dst v with
    | none => rfl
    | some v1 => exact ih v1

theorem reorderBefore_applyMoves {α : Type} :
    ∀ (n : Nat) (i dst : Int) (v : List α),
      reorderBefore n i dst v = applyMoves (movesBefore n i dst) v := by
  intro n
  induction n with
  | zero => intro i dst v; rfl
  | succ n ih =>
    intro i dst v
    simp only [reorderBefore, movesBefore, applyMoves]
    cases QVector.move i dst v with
    | none => rfl
    | some v1 => exact ih (i + 1) (dst + 1) v1

/-- The reordering of reorderFiles is the run of its move calls. -/
theorem reorderVector_applyMoves {α : Type} (p_first p_last p_destStart : Int) (v : List α) :
    reorderVector p_first p_last p_destStart v
      = applyMoves (reorderMoves p_first p_last p_destStart) v := by
  unfold reorderVector reorderMoves
  split
  · exact reorderAfter_applyMoves _ _ _ v
  · exact reorderBefore_applyMoves _ _ _ v

theorem movesBefore_length : ∀ (n : Nat) (i dst : Int), (movesBefore n i dst).length = n := by
  intro n
  induction n with
  | zero => intro i dst; rfl
  | succ n ih => intro i dst; simp [movesBefore, ih]

theorem movesBefore_mem : ∀ (n : Nat) (i dst : Int) (m : Int × Int), m ∈ movesBefore n i dst →
    i ≤ m.1 ∧ m.1 < i + n ∧ dst ≤ m.2 ∧ m.2 < dst + n := by
  intro n
  induction n with
  | zero => intro i dst m h; simp [movesBefore] at h
  | succ n ih =>
    intro i dst m h
    simp only [movesBefore, List.mem_cons] at h
    rcases h with h | h
    · subst h
      simp only
      omega
    · have := ih (i + 1) (dst + 1) m h
      omega

theorem reorderedAsStated_perm {α : Type} (f l ds : Nat) (v : List α) (h1 : f ≤ l)
    (h4 : ds < f ∨ ds > l) :
    (reorderedAsStated f l ds v).Perm v := by
  unfold reorderedAsStated
  split
  · rename_i h
    have hs := QVector.seg_split ds f (l + 1) v (by omega) (by omega)
    exact (List.Perm.append_left _ (List.perm_append_comm_assoc _ _ _)).trans
      (List.Perm.of_eq hs.symm)
  · rename_i h
    have hs := QVector.seg_split f (l + 1) ds v (by omega) (by omega)
    exact (List.Perm.append_left _ (List.perm_append_comm_assoc _ _ _)).trans
      (List.Perm.of_eq hs.symm)

/-- Index safety of the reordering, for arguments within the assertions of
reorderFiles and a first index that is not negative. -/
theorem reorderVector_safe {α : Type} (v : List α) (p_first p_last p_destStart : Int)
    (h0 : 0 ≤ p_first) (h1 : p_first ≤ p_last) (h2 : p_last < v.length)
    (h3 : 0 ≤ p_destStart ∧ p_destStart ≤ v.length)
    (h4 : p_destStart < p_first ∨ p_destStart > p_last) :
    (∀ m ∈ reorderMoves p_first p_last p_destStart,
      0 ≤ m.1 ∧ m.1 < v.length ∧ 0 ≤ m.2 ∧ m.2 < v.length) ∧
    ((reorderMoves p_first p_last p_destStart).length : Int) = p_last - p_first + 1 ∧
    ∃ v1, reorderVector p_first p_last p_destStart v = some v1 ∧ v1.Perm v ∧
      v1.length = v.length := by
  refine ⟨?_, ?_, ?_⟩
  · intro m hm
    unfold reorderMoves at hm
    split at hm
    · have := List.eq_of_mem_replicate hm
      subst this
      simp only
      omega
    · have := movesBefore_mem _ _ _ m hm
      omega
  · unfold reorderMoves
    split
    · rw [List.length_replicate]; omega
    · rw [movesBefore_length]; omega
  · obtain ⟨f, rfl⟩ := Int.eq_ofNat_of_zero_le h0
    obtain ⟨l, rfl⟩ := Int.eq_ofNat_of_zero_le (le_trans h0 h1)
    obtain ⟨ds, rfl⟩ := Int.eq_ofNat_of_zero_le h3.1
    have g1 : f ≤ l := by omega
    have g4 : ds < f ∨ ds > l := by omega
    refine ⟨reorderedAsStated f l ds v,
      reorderVector_stated f l ds v g1 (by omega) (by omega) g4,
      reorderedAsStated_perm f l ds v g1 g4,
      (reorderedAsStated_perm f l ds v g1 g4).length_eq⟩

/-- C29, as amended: for every opened directory with a file sequence of length
`n` and all arguments with `0 ≤ first ≤ last < n`, `0 ≤ destStart ≤ n` and
`destStart < first` or `destStart > last`, every `move(from, to)` that
reorderFiles makes has `0 ≤ from < n` and `0 ≤ to < n`, there are
`last - first + 1` of them, their run is the reordering that reorderFiles
performs, and reorderFiles returns with a file sequence that is a permutation
of the original one, of the same length. -/
theorem reorderFiles_index_safe (writeOk : Bool) (cx : Ctx) (w : World) (d : VDirectory)
    (p_first p_last p_destStart : Int)
    (hopen : d.opened = true) (hnb : configWritable cx d = true)
    (h0 : 0 ≤ p_first) (h1 : p_first ≤ p_last) (h2 : p_last < d.files.length)
    (h3 : 0 ≤ p_destStart ∧ p_destStart ≤ d.files.length)
    (h4 : p_destStart < p_first ∨ p_destStart > p_last) :
    (∀ m ∈ reorderMoves p_first p_last p_destStart,
      0 ≤ m.1 ∧ m.1 < d.files.length ∧ 0 ≤ m.2 ∧ m.2 < d.files.length) ∧
    ((reorderMoves p_first p_last p_destStart).length : Int) = p_last - p_first + 1 ∧
    (∃ v1, applyMoves (reorderMoves p_first p_last p_destStart) d.files = some v1 ∧
      reorderVector p_first p_last p_destStart d.files = some v1 ∧ v1.Perm d.files) ∧
    ∃ d1 w1, reorderFiles writeOk cx w d p_first p_last p_destStart = some (d1, w1) ∧
      d1.files.Perm d.files ∧ d1.files.length = d.files.length := by
  obtain ⟨ha, hb, v1, hv, hperm, _⟩ :=
    reorderVector_safe d.files p_first p_last p_destStart h0 h1 h2 h3 h4
  refine ⟨ha, hb, ⟨v1, by rw [← reorderVector_applyMoves]; exact hv, hv, hperm⟩, ?_⟩
  have hw : configWritable cx (d.setFiles v1) = true := by
    rw [VDirectory.configWritable_congr cx (VDirectory.parent_setFiles d _)]
    exact hnb
  obtain ⟨w1, hw1, _⟩ := VDirectory.writeToConfig_ok hw writeOk w
  unfold reorderFiles
  rw [if_pos ⟨hopen, h1, h2, h4, h3.1, h3.2⟩]
  simp only [hv, hw1]
  cases writeOk with
  | true =>
    refine ⟨_, _, rfl, ?_, ?_⟩
    · rw [VDirectory.files_setFiles]; exact hperm
    · rw [VDirectory.files_setFiles]; exact hperm.length_eq
  | false =>
    refine ⟨_, _, rfl, ?_, ?_⟩
    · rw [VDirectory.files_setFiles]
    · rw [VDirectory.files_setFiles]

/-- Witness of C29 on the notes A, B, C, D, E: the run B, C is moved before the
end; two calls `move(1, 3)`. -/
theorem reorderFiles_index_safe_witness :
    (∀ m ∈ reorderMoves 1 2 4,
      0 ≤ m.1 ∧ m.1 < sampleDir.files.length ∧ 0 ≤ m.2 ∧ m.2 < sampleDir.files.length) ∧
    ((reorderMoves 1 2 4).length : Int) = 2 - 1 + 1 ∧
    (∃ v1, applyMoves (reorderMoves 1 2 4) sampleDir.files = some v1 ∧
      reorderVector 1 2 4 sampleDir.files = some v1 ∧ v1.Perm sampleDir.files) ∧
    ∃ d1 w1, reorderFiles true sampleCtx sampleWorld sampleDir 1 2 4 = some (d1, w1) ∧
      d1.files.Perm sampleDir.files ∧ d1.files.length = sampleDir.files.length :=
  reorderFiles_index_safe true sampleCtx sampleWorld sampleDir 1 2 4 rfl rfl (by decide)
    (by decide) (by decide) (by decide) (by decide)

/-- The arguments `(-1, 0, 1)` pass the five assertions of reorderFiles on the
notes A, B, C, D, E and are within the preconditions `first ≤ last < n`,
`0 ≤ destStart ≤ n`, `destStart > last`; the calls are `move(-1, 0)`, twice,
and the first of them is refused as out of range. -/
theorem reorderFiles_negative_first_unsafe :
    sampleDir.opened = true ∧ ((-1 : Int) ≤ 0) ∧ ((0 : Int) < sampleDir.files.length) ∧
    ((1 : Int) < -1 ∨ (1 : Int) > 0) ∧ ((1 : Int) ≥ 0 ∧ (1 : Int) ≤ sampleDir.files.length) ∧
    reorderMoves (-1) 0 1 = [(-1, 0), (-1, 0)] ∧
    QVector.move (-1) 0 sampleDir.files = none ∧
    reorderFiles true sampleCtx sampleWorld sampleDir (-1) 0 1 = none := by
  refine ⟨rfl, by decide, by decide, by decide, by decide, by decide, rfl, rfl⟩

theorem QJsonObject.set_absent (k : String) (v : QJsonValue) :
    ∀ j : QJsonObject, j.contains k = false → j.set k v = j ++ [(k, v)] := by
  intro j
  induction j with
  | nil => intro _; rfl
  | cons kv rest ih =>
    intro h
    simp only [QJsonObject.contains, List.any_cons, Bool.or_eq_false_iff] at h
    simp only [QJsonObject.set, h.1, Bool.false_eq_true, if_false, List.cons_append]
    rw [ih h.2]

/-- A merge that passes its assertions appends the notebook keys, in order. -/
theorem VDirectory.mergeNotebookConfig_eq_append :
    ∀ (nb j j1 : QJsonObject), mergeNotebookConfig nb j = some j1 → j1 = j ++ nb := by
  intro nb
  induction nb with
  | nil =>
    intro j j1 h
    simp only [mergeNotebookConfig, Option.some.injEq] at h
    rw [← h, List.append_nil]
  | cons kv rest ih =>
    intro j j1 h
    simp only [mergeNotebookConfig] at h
    split at h
    · cases h
    · rename_i hc
      have hc1 : j.contains kv.1 = false := by simpa using hc
      rw [ih _ _ h, QJsonObject.set_absent _ _ _ hc1, List.append_assoc]
      rfl

/-- A merge that passes its assertions met no notebook key among the keys of
the object. -/
theorem VDirectory.mergeNotebookConfig_disjoint :
    ∀ (nb j j1 : QJsonObject), mergeNotebookConfig nb j = some j1 →
      ∀ kv ∈ nb, j.contains kv.1 = false := by
  intro nb
  induction nb with
  | nil => intro j j1 _ kv hkv; cases hkv
  | cons kv0 rest ih =>
    intro j j1 h kv hkv
    simp only [mergeNotebookConfig] at h
    split at h
    · cases h
    · rename_i hc
      have hc1 : j.contains kv0.1 = false := by simpa using hc
      rcases List.mem_cons.1 hkv with rfl | hmem
      · exact hc1
      · have h2 := ih _ _ h kv hmem
        cases hj : j.contains kv.1 with
        | false => rfl
        | true =>
          rw [QJsonObject.contains_set _ _ _ _ hj] at h2
          cases h2

theorem QJsonObject.value_append_left (k : String) (j nb : QJsonObject)
    (h : j.contains k = true) : QJsonObject.value (j ++ nb) k = j.value k := by
  induction j with
  | nil => simp [QJsonObject.contains] at h
  | cons kv rest ih =>
    simp only [QJsonObject.contains, List.any_cons, Bool.or_eq_true] at h
    by_cases hk : (kv.1 == k) = true
    · simp [QJsonObject.value, List.find?, hk]
    · have hk1 : (kv.1 == k) = false := by simpa using hk
      have hr : QJsonObject.contains rest k = true := by
        rcases h with h | h
        · rw [hk1] at h; cases h
        · exact h
      have := ih hr
      simp only [QJsonObject.value, List.cons_append, List.find?, hk1] at this ⊢
      exact this

theorem VDirectory.toConfigJson_values (cx : Ctx) (d : VDirectory) :
    (toConfigJson cx d).value DirConfig.c_version = QJsonValue.string "1" ∧
    (toConfigJson cx d).value DirConfig.c_createdTime
      = QJsonValue.string d.createdTimeUtc.toString ∧
    (toConfigJson cx d).value DirConfig.c_subDirectories
      = QJsonValue.array (d.subDirs.map (fun dir =>
          QJsonValue.object [(DirConfig.c_name, QJsonValue.string dir.name)])) ∧
    (toConfigJson cx d).value DirConfig.c_files
      = QJsonValue.array (d.files.map (fun file => QJsonValue.object (cx.fileToJson file))) := by
  refine ⟨?_, ?_, ?_, ?_⟩ <;>
    simp [toConfigJson, QJsonObject.set, QJsonObject.value, DirConfig.c_version,
      DirConfig.c_createdTime, DirConfig.c_subDirectories, DirConfig.c_files, DirConfig.c_name,
      List.find?]

theorem VDirectory.toConfigJson_contains_key (cx : Ctx) (d : VDirectory) (k : String)
    (hk : k ∈ [DirConfig.c_version, DirConfig.c_createdTime, DirConfig.c_subDirectories,
      DirConfig.c_files]) : (toConfigJson cx d).contains k = true := by
  simp only [List.mem_cons, List.mem_singleton, List.not_mem_nil, or_false] at hk
  rcases hk with rfl | rfl | rfl | rfl <;>
    simp [toConfigJson, QJsonObject.set, QJsonObject.contains, DirConfig.c_version,
      DirConfig.c_createdTime, DirConfig.c_subDirectories, DirConfig.c_files]

/-- What writeToConfig hands to the disk for a root directory. -/
theorem VDirectory.writeToConfig_root {cx : Ctx} {d : VDirectory} (hroot : d.parent = none)
    (ok : Bool) (w : World) :
    (∀ r, writeToConfig ok cx w d = some r →
      r = writeDirectoryConfig ok w cx.path (toConfigJson cx d ++ cx.nbJson) ∧
      (∀ kv ∈ cx.nbJson, (toConfigJson cx d).contains kv.1 = false)) ∧
    (configWritable cx d = true → ∃ r, writeToConfig ok cx w d = some r) := by
  constructor
  · intro r h
    unfold writeToConfig at h
    simp only [hroot, Option.isNone_none, if_true, addNotebookConfig, Option.isSome_none,
      Bool.false_eq_true, if_false] at h
    cases hm : mergeNotebookConfig cx.nbJson (toConfigJson cx d) with
    | none => rw [hm] at h; cases h
    | some j1 =>
      rw [hm] at h
      simp only [Option.some.injEq] at h
      rw [← h, VDirectory.mergeNotebookConfig_eq_append _ _ _ hm]
      exact ⟨rfl, VDirectory.mergeNotebookConfig_disjoint _ _ _ hm⟩
  · intro hw
    obtain ⟨r, hr⟩ := VDirectory.writeToConfig_ok hw ok w
    exact ⟨_, hr.1⟩

/-- C22: for every directory, toConfigJson() returns an object with exactly the
keys version, created_time, sub_directories and files; version is the string
"1", sub_directories the array of one object `{name}` per child directory in
sequence order, files the array of one file record per File Node in sequence
order. writeToConfig() hands this object unchanged to the disk for a directory
with a parent; for the root, whenever it returns, it hands over this object
followed by the notebook-level keys, none of which is one of the four keys, so
that the four keys keep their values, and it returns whenever no notebook key
collides. A write that the disk accepts is what a later read yields. -/
theorem toConfigJson_contract (cx : Ctx) (d : VDirectory) :
    (toConfigJson cx d).keys = [DirConfig.c_version, DirConfig.c_createdTime,
      DirConfig.c_subDirectories, DirConfig.c_files] ∧
    (toConfigJson cx d).value DirConfig.c_version = QJsonValue.string "1" ∧
    (toConfigJson cx d).value DirConfig.c_subDirectories
      = QJsonValue.array (d.subDirs.map (fun dir =>
          QJsonValue.object [(DirConfig.c_name, QJsonValue.string dir.name)])) ∧
    (toConfigJson cx d).value DirConfig.c_files
      = QJsonValue.array (d.files.map (fun file => QJsonValue.object (cx.fileToJson file))) ∧
    (∀ (ok : Bool) (w : World), d.parent.isSome = true →
      writeToConfig ok cx w d = some (writeDirectoryConfig ok w cx.path (toConfigJson cx d))) ∧
    (∀ (ok : Bool) (w : World), d.parent = none →
      (∀ r, writeToConfig ok cx w d = some r →
        r = writeDirectoryConfig ok w cx.path (toConfigJson cx d ++ cx.nbJson) ∧
        (∀ kv ∈ cx.nbJson, (toConfigJson cx d).contains kv.1 = false) ∧
        (∀ k ∈ [DirConfig.c_version, DirConfig.c_createdTime, DirConfig.c_subDirectories,
            DirConfig.c_files],
          QJsonObject.value (toConfigJson cx d ++ cx.nbJson) k = (toConfigJson cx d).value k)) ∧
      (configWritable cx d = true → ∃ r, writeToConfig ok cx w d = some r)) ∧
    (∀ (w : World) (path : String) (json : QJsonObject),
      readDirectoryConfig (writeDirectoryConfig true w path json).2 path = json) := by
  obtain ⟨hv, _, hs, hf⟩ := VDirectory.toConfigJson_values cx d
  refine ⟨VDirectory.toConfigJson_keys cx d, hv, hs, hf, ?_, ?_, readDirectoryConfig_write⟩
  · intro ok w hp
    unfold writeToConfig
    obtain ⟨p, hp1⟩ := Option.isSome_iff_exists.1 hp
    simp [hp1]
  · intro ok w hroot
    obtain ⟨h1, h2⟩ := VDirectory.writeToConfig_root hroot ok w
    refine ⟨fun r hr => ⟨(h1 r hr).1, (h1 r hr).2, fun k hk => ?_⟩, h2⟩
    exact QJsonObject.value_append_left k _ _ (VDirectory.toConfigJson_contains_key cx d k hk)

/-- Witness of C22: the root of the sample tree in a notebook with two
notebook-level keys; the written object is the directory object followed by
the two keys. -/
theorem toConfigJson_contract_witness :
    (toConfigJson sampleNotebookCtx sampleTree).keys
      = ["version", "created_time", "sub_directories", "files"] ∧
    (toConfigJson sampleNotebookCtx sampleTree).value "sub_directories"
      = QJsonValue.array [QJsonValue.object [("name", QJsonValue.string "sub")],
          QJsonValue.object [("name", QJsonValue.string "tmp")]] ∧
    (∃ r, writeToConfig true sampleNotebookCtx sampleWorld sampleTree = some r ∧
      (readDirectoryConfig r.2 "/nb").keys = ["version", "created_time", "sub_directories",
        "files", "image_folder", "recycle_bin_folder"]) := by
  have h := toConfigJson_contract sampleNotebookCtx sampleTree
  refine ⟨h.1, h.2.2.1, ?_⟩
  obtain ⟨r, hr⟩ := (h.2.2.2.2.2.1 true sampleWorld rfl).2 rfl
  refine ⟨r, hr, ?_⟩
  rw [((h.2.2.2.2.2.1 true sampleWorld rfl).1 r hr).1]
  exact (congrArg QJsonObject.keys (h.2.2.2.2.2.2 sampleWorld "/nb" _)).trans rfl

/-- What addFile(name, index) does once open() has returned `(true, d0, w0)` and
the config write succeeds. -/
theorem VDirectory.addFileNamed_after_open (now : QDateTime) (cx : Ctx)
    (w w0 : World) (d d0 : VDirectory) (p_name : String) (p_index : Int)
    (ho : openDirectory cx w d = some (true, d0, w0))
    (hnb : configWritable cx d = true) (hname : p_name.isEmpty = false)
    (hidx : p_index = -1 ∨ (0 ≤ p_index ∧ p_index ≤ d0.files.length)) :
    ∃ file d1 w1, addFileNamed true now cx w d p_name p_index = some (some file, d1, w1) ∧
      file.name = p_name ∧
      d1.files.map VNoteFile.name
        = (if p_index = -1 then d0.files.map VNoteFile.name ++ [p_name]
            else QVector.insert p_index.toNat p_name (d0.files.map VNoteFile.name)) := by
  have hop : d0.opened = true := VDirectory.openDirectory_true_opened ho
  have hnb0 : configWritable cx d0 = true := by
    rw [VDirectory.configWritable_congr cx (VDirectory.openDirectory_parent ho).1]
    exact hnb
  obtain ⟨w1, h1, _⟩ := VDirectory.addFile_after_open true cx w0.alloc.2 w0.alloc.2 d0 d0
    (VNoteFile.new w0.alloc.1 d0.addr p_name FileType.Note true now now) p_index
    (VDirectory.openDirectory_opened cx w0.alloc.2 d0 hop) hnb0 hidx
  simp only [if_true] at h1
  have hres : addFileNamed true now cx w d p_name p_index
      = some (some (VNoteFile.new w0.alloc.1 d0.addr p_name FileType.Note true now now),
          d0.setFiles ((if p_index = -1 then d0.files
              ++ [VNoteFile.new w0.alloc.1 d0.addr p_name FileType.Note true now now]
            else QVector.insert p_index.toNat
              (VNoteFile.new w0.alloc.1 d0.addr p_name FileType.Note true now now) d0.files).map
            (fun f => if (f.addr
                == (VNoteFile.new w0.alloc.1 d0.addr p_name FileType.Note true now now).addr)
                  = true then f.setParent d0.addr else f)), w1) := by
    unfold addFileNamed
    rw [ho]
    simp only [hname, Bool.false_eq_true, if_false, h1]
  refine ⟨_, _, w1, hres, rfl, ?_⟩
  rw [VDirectory.files_setFiles, List.map_map]
  have hfun : (VNoteFile.name ∘ fun f : VNoteFile =>
      if (f.addr == (VNoteFile.new w0.alloc.1 d0.addr p_name FileType.Note true now now).addr)
        = true then f.setParent d0.addr else f) = VNoteFile.name := by
    funext f
    simp only [Function.comp]
    split <;> rfl
  rw [hfun]
  split
  · rw [List.map_append]
    rfl
  · rw [QVector.map_insert]
    rfl

theorem VDirectory.updateSubDir_map_name (p : Nat) (f : VDirectory → VDirectory)
    (hf : ∀ c, (f c).name = c.name) (v : List VDirectory) :
    (updateSubDir p f v).map VDirectory.name = v.map VDirectory.name := by
  unfold updateSubDir
  rw [List.map_map]
  apply List.map_congr_left
  intro c _
  simp only [Function.comp]
  split
  · exact hf c
  · rfl

/-- What addSubDirectory(name, index) does once open() has returned
`(true, d0, w0)` and the config write succeeds. -/
theorem VDirectory.addSubDirectoryNamed_at_index (now : QDateTime) (cx : Ctx)
    (w w0 : World) (d d0 : VDirectory) (p_name : String) (p_index : Int)
    (ho : openDirectory cx w d = some (true, d0, w0))
    (hnb : configWritable cx d = true)
    (hidx : p_index = -1 ∨ (0 ≤ p_index ∧ p_index ≤ d0.subDirs.length)) :
    ∃ dir d1 w1, addSubDirectoryNamed true now cx w d p_name p_index
        = some (some dir, d1, w1) ∧
      dir.name = p_name ∧
      d1.subDirs.map VDirectory.name
        = (if p_index = -1 then d0.subDirs.map VDirectory.name ++ [p_name]
            else QVector.insert p_index.toNat p_name (d0.subDirs.map VDirectory.name)) := by
  have hop : d0.opened = true := VDirectory.openDirectory_true_opened ho
  have hnb0 : configWritable cx d0 = true := by
    rw [VDirectory.configWritable_congr cx (VDirectory.openDirectory_parent ho).1]
    exact hnb
  obtain ⟨w1, h1, _⟩ := VDirectory.addSubDirectory_after_open true cx w0.alloc.2 w0.alloc.2 d0 d0
    (VDirectory.new w0.alloc.1 (some d0.addr) p_name now) p_index
    (VDirectory.openDirectory_opened cx w0.alloc.2 d0 hop) hnb0 hidx
  simp only [if_true] at h1
  have hres : addSubDirectoryNamed true now cx w d p_name p_index
      = some (some (VDirectory.new w0.alloc.1 (some d0.addr) p_name now),
          d0.setSubDirs (updateSubDir (VDirectory.new w0.alloc.1 (some d0.addr) p_name now).addr
            (fun dir => dir.setParent d0.addr)
            (if p_index = -1 then d0.subDirs ++ [VDirectory.new w0.alloc.1 (some d0.addr) p_name now]
              else QVector.insert p_index.toNat
                (VDirectory.new w0.alloc.1 (some d0.addr) p_name now) d0.subDirs)), w1) := by
    unfold addSubDirectoryNamed
    rw [ho]
    simp only [h1]
  refine ⟨_, _, w1, hres, rfl, ?_⟩
  rw [VDirectory.subDirs_setSubDirs,
    VDirectory.updateSubDir_map_name _ _ (fun c => VDirectory.name_setParent c _)]
  split
  · rw [List.map_append]
    rfl
  · rw [QVector.map_insert]
    rfl

theorem find?_some_of_mem {α : Type} (p : α → Bool) (l : List α)
    (h : ∃ x ∈ l, p x = true) : ∃ y, l.find? p = some y ∧ p y = true := by
  cases hf : l.find? p with
  | none =>
    obtain ⟨x, hx, hpx⟩ := h
    rw [(find?_none_iff p l).1 hf x hx] at hpx
    cases hpx
  | some y => exact ⟨y, rfl, List.find?_some hf⟩

/-- C23, as amended: the Directory Node detects no name conflict in its add and
rename operations. For every opened directory and non-empty name `n`: when a
file (resp. subdirectory) has a name equal to `n` case-insensitively,
findFile(n, false) (resp. findSubDirectory(n, false)) returns such a node, by
which a caller can see the conflict; yet, whatever names the sequence already
holds, addFile(n, index) for every valid index and createFile(n) (resp.
addSubDirectory(n, index) for every valid index, createSubDirectory(n) and
rename(n) of a sibling directory) go ahead when their disk steps and config
writes succeed: the new node named `n` is in the sequence at the index asked
for, the created node is last in the sequence (resp. the sibling is renamed
to `n`). -/
theorem name_conflict_left_to_caller (removeOk delConfigOk rmdirOk backOk : Bool)
    (now : QDateTime) (cx : Ctx) (w : World) (d : VDirectory)
    (n : String) (hopen : d.opened = true) (hnb : configWritable cx d = true)
    (hname : n.isEmpty = false) :
    ((∃ f ∈ d.files, cx.toLower f.name = cx.toLower n) →
      ∃ f, findFile cx w d n false = some (some f, d, w) ∧ cx.toLower f.name = cx.toLower n) ∧
    (∀ p_index : Int, (p_index = -1 ∨ (0 ≤ p_index ∧ p_index ≤ d.files.length)) →
      ∃ file d1 w1, addFileNamed true now cx w d n p_index = some (some file, d1, w1) ∧
        file.name = n ∧
        d1.files.map VNoteFile.name
          = (if p_index = -1 then d.files.map VNoteFile.name ++ [n]
              else QVector.insert p_index.toNat n (d.files.map VNoteFile.name))) ∧
    (∃ file d1 w1, createFile true true removeOk now cx w d n = some (some file, d1, w1) ∧
      file.name = n ∧ d1.files = d.files ++ [file]) ∧
    ((∃ c ∈ d.subDirs, cx.toLower c.name = cx.toLower n) →
      ∃ c, findSubDirectory cx w d n false = some (some c, d, w) ∧
        cx.toLower c.name = cx.toLower n) ∧
    (∀ p_index : Int, (p_index = -1 ∨ (0 ≤ p_index ∧ p_index ≤ d.subDirs.length)) →
      ∃ dir d1 w1, addSubDirectoryNamed true now cx w d n p_index = some (some dir, d1, w1) ∧
        dir.name = n ∧
        d1.subDirs.map VDirectory.name
          = (if p_index = -1 then d.subDirs.map VDirectory.name ++ [n]
              else QVector.insert p_index.toNat n (d.subDirs.map VDirectory.name))) ∧
    (∃ dir d1 w1, createSubDirectory true true true delConfigOk rmdirOk now cx w d n
        = some (some dir, d1, w1) ∧
      dir.name = n ∧ d1.subDirs = d.subDirs ++ [dir]) ∧
    (∀ (self : Nat) (me : VDirectory),
      d.subDirs.find? (fun dir => dir.addr == self) = some me → n ≠ me.name →
      ∃ d1 w1, rename true true backOk cx w d self n = some (true, d1, w1) ∧
        d1.subDirs.find? (fun dir => dir.addr == self) = some (me.setName n)) := by
  have ho := VDirectory.openDirectory_opened cx w d hopen
  refine ⟨?_, ?_, ?_, ?_, ?_, ?_, ?_⟩
  · intro hex
    obtain ⟨f, hf, hm⟩ := find?_some_of_mem (fun f => nameMatches cx.toLower false n f.name)
      d.files (by
        obtain ⟨f, hf, he⟩ := hex
        exact ⟨f, hf, by simp [nameMatches, he]⟩)
    refine ⟨f, ?_, by simpa [nameMatches] using hm⟩
    rw [VDirectory.findFile_opens ho, hf]
  · intro p_index hidx
    exact VDirectory.addFileNamed_after_open now cx w w d d n p_index ho hnb hname hidx
  · obtain ⟨r, d1, w1, hc, hsome, hres⟩ :=
      VDirectory.createFile_after_open true true removeOk now cx w w d d true n hname hnb ho
    rcases hres with ⟨ret, hr, hn, _, hfiles, _⟩ | ⟨hr, _⟩
    · subst hr
      exact ⟨ret, d1, w1, hc, hn, hfiles⟩
    · subst hr
      simp at hsome
  · intro hex
    obtain ⟨c, hc, hm⟩ := find?_some_of_mem (fun c => nameMatches cx.toLower false n c.name)
      d.subDirs (by
        obtain ⟨c, hc, he⟩ := hex
        exact ⟨c, hc, by simp [nameMatches, he]⟩)
    refine ⟨c, ?_, by simpa [nameMatches] using hm⟩
    rw [VDirectory.findSubDirectory_opens ho, hc]
  · intro p_index hidx
    exact VDirectory.addSubDirectoryNamed_at_index now cx w w d d n p_index ho hnb hidx
  · obtain ⟨r, d1, w1, hc, hsome, _, hres⟩ :=
      VDirectory.createSubDirectory_after_open true true true delConfigOk rmdirOk now cx w w d d
        true n hname hnb ho
    cases r with
    | none => simp at hsome
    | some ret => exact ⟨ret, d1, w1, hc, (hres ret rfl).1, (hres ret rfl).2.2⟩
  · intro self me hme hne
    obtain ⟨r, d1, w1, h1, _, h3⟩ :=
      VDirectory.rename_steps true true backOk cx w d self n me hme hnb
    obtain ⟨hr, h4, _⟩ := h3 hne
    simp only [Bool.and_self] at hr
    subst hr
    exact ⟨d1, w1, h1, h4 rfl⟩

/-- Witness of C23: the opened directory with the notes A, B, C, D, E and the
name `a`, added at index 1, and the sample tree with the folders `sub`, `tmp`
and the name `SUB`, added at index 0. -/
theorem name_conflict_left_to_caller_witness :
    (∃ f, findFile sampleCtx sampleWorld sampleDir "a" false
        = some (some f, sampleDir, sampleWorld) ∧ sampleToLower f.name = sampleToLower "a") ∧
    (∃ file d1 w1, addFileNamed true QDateTime.null sampleCtx sampleWorld sampleDir "a" 1
        = some (some file, d1, w1) ∧
      file.name = "a" ∧
      d1.files.map VNoteFile.name = ["A", "a", "B", "C", "D", "E"]) ∧
    (∃ c, findSubDirectory sampleCtx sampleFolders sampleTree "SUB" false
        = some (some c, sampleTree, sampleFolders) ∧ sampleToLower c.name = sampleToLower "SUB") ∧
    (∃ dir d1 w1, addSubDirectoryNamed true QDateTime.null sampleCtx sampleFolders sampleTree
        "SUB" 0 = some (some dir, d1, w1) ∧
      dir.name = "SUB" ∧
      d1.subDirs.map VDirectory.name = ["SUB", "sub", "tmp"]) ∧
    (∃ d1 w1, rename true true true sampleCtx sampleFolders sampleTree 5 "SUB"
        = some (true, d1, w1) ∧
      d1.subDirs.find? (fun dir => dir.addr == 5)
        = some ((VDirectory.new 5 (some 1) "tmp" QDateTime.null).setName "SUB")) := by
  have h1 := name_conflict_left_to_caller true true true true QDateTime.null sampleCtx
    sampleWorld sampleDir "a" rfl rfl rfl
  have h2 := name_conflict_left_to_caller true true true true QDateTime.null sampleCtx
    sampleFolders sampleTree "SUB" rfl rfl rfl
  exact ⟨h1.1 ⟨sampleFile 2 "A", by decide, by decide⟩, h1.2.1 1 (Or.inr (by decide)),
    h2.2.2.2.1 ⟨sampleSub, List.mem_cons_self _ _, by decide⟩,
    h2.2.2.2.2.1 0 (Or.inr (by decide)),
    h2.2.2.2.2.2.2 5 _ rfl (by decide)⟩

/-- On the opened directory with the notes A, B, C, D, E, addFile("a", -1) and
createFile("A") are not refused: each returns a node, and the file sequence
then holds the names A, B, C, D, E, a (resp. A, B, C, D, E, A). -/
theorem addFile_existing_name_not_refused :
    sampleDir.opened = true ∧
    sampleDir.files.map VNoteFile.name = ["A", "B", "C", "D", "E"] ∧
    sampleToLower "a" = sampleToLower "A" ∧
    (addFileNamed true QDateTime.null sampleCtx sampleWorld sampleDir "a" (-1)).map
        (fun r => (r.1.map VNoteFile.name, r.2.1.files.map VNoteFile.name))
      = some (some "a", ["A", "B", "C", "D", "E", "a"]) ∧
    (createFile true true true QDateTime.null sampleCtx sampleWorld sampleDir "A").map
        (fun r => (r.1.map VNoteFile.name, r.2.1.files.map VNoteFile.name))
      = some (some "A", ["A", "B", "C", "D", "E", "A"]) := by
  refine ⟨rfl, rfl, by decide, rfl, rfl⟩

theorem toInt32_range (x : Int) : -2147483648 ≤ toInt32 x ∧ toInt32 x ≤ 2147483647 := by
  unfold toInt32
  omega

theorem VFileList.pasteAvailable_empty (nonce : Int) : VFileList.pasteAvailable nonce [] = false :=
  rfl

/-- What pasteFiles returns for a destination that is not null and a file list
that is not empty. -/
theorem VFileList.pasteFiles_some (env : PasteEnv) (time : Nat) (rnd : Int) (cx : Ctx)
    (st : VFileList) (w : World) (p_destDir : Nat) (p_files : List String) (p_isCut : Bool)
    (hd : p_destDir ≠ 0) (hf : p_files ≠ []) :
    (∀ st1 w1, VFileList.pasteFiles env time rnd cx st w p_destDir p_files p_isCut
        = some (st1, w1) →
      st1.m_magicForClipboard = VFileList.getNewMagic time rnd ∧ st1.clipboard = []) ∧
    (∀ dir r,
      (VFileList.pasteFilesLoop env p_destDir p_isCut p_files 0 st.m_directory w).2.1 = some dir →
      VFileList.updateFileList cx
        (VFileList.pasteFilesLoop env p_destDir p_isCut p_files 0 st.m_directory w).2.2 dir
          = some r →
      ∃ st1 w1, VFileList.pasteFiles env time rnd cx st w p_destDir p_files p_isCut
        = some (st1, w1)) := by
  have hcond : ¬ (p_destDir = 0 ∨ p_files.isEmpty = true) := by
    intro h
    rcases h with h | h
    · exact hd h
    · exact hf (List.isEmpty_iff.1 h)
  constructor
  · intro st1 w1 h
    unfold VFileList.pasteFiles at h
    rw [if_neg hcond] at h
    dsimp only at h
    split at h
    · cases h
    · split at h
      · cases h
      · simp only [Option.some.injEq, Prod.mk.injEq] at h
        rw [← h.1]
        exact ⟨rfl, rfl⟩
  · intro dir r h1 h2
    unfold VFileList.pasteFiles
    rw [if_neg hcond]
    dsimp only
    rw [h1]
    dsimp only
    rw [h2]
    exact ⟨_, _, rfl⟩

/-- C21, as amended: for every destination that is not the null pointer, every
non-empty file list and every cut flag, an execution of pasteFiles that returns
has cleared the clipboard and stored the nonce that getNewMagic generated at
the end of the call, whatever nonce the pasted payload carried, so that
pasteAvailable() is false right after; and pasteFiles returns whenever the
updateFileList() that ends its work does. For a null destination or an empty
file list pasteFiles clears the clipboard and returns with the nonce it had. -/
theorem pasteFiles_regenerates_magic (env : PasteEnv) (time : Nat) (rnd : Int) (cx : Ctx)
    (st : VFileList) (w : World) (p_destDir : Nat) (p_files : List String) (p_isCut : Bool) :
    (p_destDir ≠ 0 → p_files ≠ [] →
      (∀ st1 w1, VFileList.pasteFiles env time rnd cx st w p_destDir p_files p_isCut
          = some (st1, w1) →
        st1.m_magicForClipboard = VFileList.getNewMagic time rnd ∧ st1.clipboard = [] ∧
        VFileList.pasteAvailable st1.m_magicForClipboard st1.clipboard = false) ∧
      (∀ dir r,
        (VFileList.pasteFilesLoop env p_destDir p_isCut p_files 0 st.m_directory w).2.1
          = some dir →
        VFileList.updateFileList cx
          (VFileList.pasteFilesLoop env p_destDir p_isCut p_files 0 st.m_directory w).2.2 dir
            = some r →
        ∃ st1 w1, VFileList.pasteFiles env time rnd cx st w p_destDir p_files p_isCut
          = some (st1, w1))) ∧
    (p_destDir = 0 ∨ p_files = [] →
      VFileList.pasteFiles env time rnd cx st w p_destDir p_files p_isCut
        = some ({ st with clipboard := [] }, w)) := by
  constructor
  · intro hd hf
    obtain ⟨h1, h2⟩ := VFileList.pasteFiles_some env time rnd cx st w p_destDir p_files p_isCut
      hd hf
    refine ⟨fun st1 w1 h => ⟨(h1 st1 w1 h).1, (h1 st1 w1 h).2, ?_⟩, h2⟩
    rw [(h1 st1 w1 h).2]
    exact VFileList.pasteAvailable_empty _
  · intro h
    unfold VFileList.pasteFiles
    rw [if_pos (by
      rcases h with h | h
      · exact Or.inl h
      · exact Or.inr (by rw [h]; rfl))]

/-- Witness of C21: the note `/nb/sub/x.md` is pasted into the directory with
the notes A, B, C, D, E (address 1) at time 1700000000 with the random number
12345; the nonce 41 of the payload is replaced by 1700000057. -/
theorem pasteFiles_regenerates_magic_witness :
    ∃ st1 w1, VFileList.pasteFiles samplePasteEnv 1700000000 12345 sampleCtx sampleFileList
        sampleWorld 1 ["/nb/sub/x.md"] false = some (st1, w1) ∧
      st1.m_magicForClipboard = 1700000057 ∧ st1.clipboard = [] ∧
      VFileList.pasteAvailable st1.m_magicForClipboard st1.clipboard = false := by
  have h := (pasteFiles_regenerates_magic samplePasteEnv 1700000000 12345 sampleCtx
    sampleFileList sampleWorld 1 ["/nb/sub/x.md"] false).1 (by decide) (by simp)
  obtain ⟨st1, w1, hp⟩ := h.2 sampleDir _ rfl rfl
  obtain ⟨h1, h2, h3⟩ := h.1 st1 w1 hp
  refine ⟨st1, w1, hp, ?_, h2, h3⟩
  rw [h1]
  decide

/-- With an empty file list pasteFiles returns without a call of getNewMagic:
the nonce 41 of the sample File List is still stored afterwards, whatever the
time and the random number are. -/
theorem pasteFiles_empty_keeps_magic :
    (VFileList.pasteFiles samplePasteEnv 1700000000 12345 sampleCtx sampleFileList sampleWorld
      1 [] false).map (fun r => (r.1.m_magicForClipboard, r.1.clipboard.isEmpty))
      = some (41, true) ∧
    VFileList.getNewMagic 1700000000 12345 ≠ 41 := by
  refine ⟨rfl, by decide⟩

/-- The state that copySelectedFiles leaves for a non-empty selection. -/
theorem VFileList.copySelectedFiles_eq (time : Nat) (rnd : Int) (fetchPath : Nat → String)
    (items : List QListWidgetItem) (p_isCut : Bool) (st : VFileList) (hsel : items ≠ []) :
    VFileList.copySelectedFiles time rnd fetchPath items p_isCut st
      = { st with
          m_magicForClipboard := VFileList.getNewMagic time rnd
          clipboard := [(ClipboardConfig.c_magic, QJsonValue.double (VFileList.getNewMagic time rnd)),
            (ClipboardConfig.c_type, QJsonValue.double ClipboardOpType.CopyFile),
            (ClipboardConfig.c_isCut, QJsonValue.bool p_isCut),
            (ClipboardConfig.c_files, QJsonValue.array
              (items.map (fun item => QJsonValue.string (fetchPath (VFileList.getVFile item)))))] }
    := by
  unfold VFileList.copySelectedFiles
  rw [if_neg (by simpa using hsel)]
  simp [QJsonObject.set, ClipboardConfig.c_magic, ClipboardConfig.c_type,
    ClipboardConfig.c_isCut, ClipboardConfig.c_files]

theorem VFileList.getNewMagic_toInt (time : Nat) (rnd : Int) :
    (QJsonValue.double (VFileList.getNewMagic time rnd)).toInt = VFileList.getNewMagic time rnd := by
  unfold VFileList.getNewMagic
  simp only [QJsonValue.toInt]
  rw [if_pos (toInt32_range _)]

/-- The payload that copySelectedFiles writes passes pasteAvailable. -/
theorem VFileList.pasteAvailable_after_copy (magic : Int) (p_isCut : Bool) (files : QJsonArray)
    (hm : (QJsonValue.double magic).toInt = magic) (hf : files ≠ []) :
    VFileList.pasteAvailable magic
      [(ClipboardConfig.c_magic, QJsonValue.double magic),
        (ClipboardConfig.c_type, QJsonValue.double ClipboardOpType.CopyFile),
        (ClipboardConfig.c_isCut, QJsonValue.bool p_isCut),
        (ClipboardConfig.c_files, QJsonValue.array files)] = true := by
  rw [VFileList.pasteAvailable_eq]
  simp [QJsonObject.contains, QJsonObject.value, List.find?, ClipboardConfig.c_magic,
    ClipboardConfig.c_type, ClipboardConfig.c_isCut, ClipboardConfig.c_files,
    QJsonValue.toArray, hf]
  exact ⟨by decide, hm.symm⟩

/-- C27: for every non-empty selection and every cut flag, right after
copySelectedFiles(isCut) pasteAvailable() returns true, and
pasteFilesFromClipboard() is the call of pasteFiles on `m_directory` with
exactly the paths of the selected files, in selection order, and the same cut
flag. -/
theorem copy_paste_round_trip (env : PasteEnv) (time time1 : Nat) (rnd rnd1 : Int) (cx : Ctx)
    (fetchPath : Nat → String) (items : List QListWidgetItem) (p_isCut : Bool) (st : VFileList)
    (w : World) (hsel : items ≠ []) :
    VFileList.pasteAvailable
        (VFileList.copySelectedFiles time rnd fetchPath items p_isCut st).m_magicForClipboard
        (VFileList.copySelectedFiles time rnd fetchPath items p_isCut st).clipboard = true ∧
    (VFileList.copySelectedFiles time rnd fetchPath items p_isCut st).m_directory
      = st.m_directory ∧
    VFileList.pasteFilesFromClipboard env time1 rnd1 cx
        (VFileList.copySelectedFiles time rnd fetchPath items p_isCut st) w
      = VFileList.pasteFiles env time1 rnd1 cx
          (VFileList.copySelectedFiles time rnd fetchPath items p_isCut st) w
          (match st.m_directory with
           | some dir => dir.addr
           | none => 0)
          (items.map (fun item => fetchPath (VFileList.getVFile item))) p_isCut := by
  have hfiles : items.map (fun item => QJsonValue.string (fetchPath (VFileList.getVFile item)))
      ≠ [] := by
    intro h
    exact hsel (List.map_eq_nil_iff.1 h)
  have hpa := VFileList.pasteAvailable_after_copy (VFileList.getNewMagic time rnd) p_isCut _
    (VFileList.getNewMagic_toInt time rnd) hfiles
  rw [VFileList.copySelectedFiles_eq time rnd fetchPath items p_isCut st hsel]
  refine ⟨hpa, rfl, ?_⟩
  unfold VFileList.pasteFilesFromClipboard
  simp only [hpa, Bool.not_true, Bool.false_eq_true, if_false]
  have h1 : ((QJsonObject.value
      [(ClipboardConfig.c_magic, QJsonValue.double (VFileList.getNewMagic time rnd)),
        (ClipboardConfig.c_type, QJsonValue.double ClipboardOpType.CopyFile),
        (ClipboardConfig.c_isCut, QJsonValue.bool p_isCut),
        (ClipboardConfig.c_files, QJsonValue.array
          (items.map (fun item => QJsonValue.string (fetchPath (VFileList.getVFile item)))))]
      ClipboardConfig.c_files).toArray.map QJsonValue.toString)
      = items.map (fun item => fetchPath (VFileList.getVFile item)) := by
    simp [QJsonObject.value, List.find?, ClipboardConfig.c_magic, ClipboardConfig.c_type,
      ClipboardConfig.c_isCut, ClipboardConfig.c_files, QJsonValue.toArray, List.map_map,
      Function.comp, QJsonValue.toString]
  have h2 : (QJsonObject.value
      [(ClipboardConfig.c_magic, QJsonValue.double (VFileList.getNewMagic time rnd)),
        (ClipboardConfig.c_type, QJsonValue.double ClipboardOpType.CopyFile),
        (ClipboardConfig.c_isCut, QJsonValue.bool p_isCut),
        (ClipboardConfig.c_files, QJsonValue.array
          (items.map (fun item => QJsonValue.string (fetchPath (VFileList.getVFile item)))))]
      ClipboardConfig.c_isCut).toBool = p_isCut := by
    simp [QJsonObject.value, List.find?, ClipboardConfig.c_magic, ClipboardConfig.c_type,
      ClipboardConfig.c_isCut, ClipboardConfig.c_files, QJsonValue.toBool]
  rw [h1, h2]

/-- Witness of C27: the items of B and C are copied with the cut flag set; the
paste that follows is the paste of `/nb/B` and `/nb/C` with the cut flag. -/
theorem copy_paste_round_trip_witness :
    VFileList.pasteAvailable
        (VFileList.copySelectedFiles 1700000000 12345 (fun a => if a = 3 then "/nb/B" else "/nb/C")
          [sampleItem 3 "B", sampleItem 4 "C"] true sampleFileList).m_magicForClipboard
        (VFileList.copySelectedFiles 1700000000 12345 (fun a => if a = 3 then "/nb/B" else "/nb/C")
          [sampleItem 3 "B", sampleItem 4 "C"] true sampleFileList).clipboard = true ∧
    VFileList.pasteFilesFromClipboard samplePasteEnv 1700000001 777 sampleCtx
        (VFileList.copySelectedFiles 1700000000 12345 (fun a => if a = 3 then "/nb/B" else "/nb/C")
          [sampleItem 3 "B", sampleItem 4 "C"] true sampleFileList) sampleWorld
      = VFileList.pasteFiles samplePasteEnv 1700000001 777 sampleCtx
          (VFileList.copySelectedFiles 1700000000 12345
            (fun a => if a = 3 then "/nb/B" else "/nb/C")
            [sampleItem 3 "B", sampleItem 4 "C"] true sampleFileList) sampleWorld
          1 ["/nb/B", "/nb/C"] true :=
  ⟨(copy_paste_round_trip samplePasteEnv 1700000000 1700000001 12345 777 sampleCtx
      (fun a => if a = 3 then "/nb/B" else "/nb/C") [sampleItem 3 "B", sampleItem 4 "C"] true
      sampleFileList sampleWorld (by simp)).1,
   (copy_paste_round_trip samplePasteEnv 1700000000 1700000001 12345 777 sampleCtx
      (fun a => if a = 3 then "/nb/B" else "/nb/C") [sampleItem 3 "B", sampleItem 4 "C"] true
      sampleFileList sampleWorld (by simp)).2.2⟩

/-- The loop of importFiles hands back the `ret` it was given when every file
passes the test of existence, whatever the copies and the additions do. -/
theorem VFileList.importFilesLoop_ret (env : ImportEnv) (now : QDateTime) (cx : Ctx) :
    ∀ (files : List String) (ret : Bool) (errMsg : List String) (nrImported : Nat)
      (dir : VDirectory) (w : World) (r : Bool × List String × Nat × VDirectory × World),
      (∀ w1, ∀ f ∈ files, env.isFile w1 f = true) →
      VFileList.importFilesLoop env now cx files ret errMsg nrImported dir w = some r →
      r.1 = ret := by
  intro files
  induction files with
  | nil =>
    intro ret errMsg nrImported dir w r _ h
    simp only [VFileList.importFilesLoop, Option.some.injEq] at h
    rw [← h]
  | cons file rest ih =>
    intro ret errMsg nrImported dir w r hall h
    have hrest : ∀ w1, ∀ f ∈ rest, env.isFile w1 f = true :=
      fun w1 f hf => hall w1 f (List.mem_cons_of_mem _ hf)
    unfold VFileList.importFilesLoop at h
    rw [if_neg (by simp [hall w file (List.mem_cons_self _ _)])] at h
    dsimp only at h
    split at h
    · cases h
    · split at h
      · exact ih _ _ _ _ _ r hrest h
      · split at h
        · cases h
        · exact ih _ _ _ _ _ r hrest h
        · exact ih _ _ _ _ _ r hrest h

/-- C24 (what the code does): importFiles on a non-empty list whose paths all
pass the test of existence returns true whenever it returns, whatever the
copies and the additions to the configuration do: a failed copy or a failed
addition adds its error message and leaves the result true. -/
theorem importFiles_true_despite_failures (env : ImportEnv) (now : QDateTime) (cx : Ctx)
    (st : VFileList) (w : World) (p_files : List String)
    (r : Bool × List String × VFileList × World)
    (hall : ∀ w1, ∀ f ∈ p_files, env.isFile w1 f = true)
    (hne : p_files ≠ [])
    (h : VFileList.importFiles env now cx st w p_files = some r) : r.1 = true := by
  unfold VFileList.importFiles at h
  rw [if_neg (by simpa using hne)] at h
  split at h
  · cases h
  · split at h
    · cases h
    · split at h
      · cases h
      · rename_i ret errMsg nr dir1 w1 hloop
        have hret := VFileList.importFilesLoop_ret env now cx p_files true [] 0 _ w _ hall hloop
        split at h
        · cases h
        · simp only [Option.some.injEq] at h
          rw [← h]
          exact hret

/-- Witness of C24: the import of `/ext/n.md`, `/ext/ro.md` and
`/ext/locked.md` into the directory with the notes A, B, C, D, E: the addition
of `ro.md` and the copy of `locked.md` fail, two error messages are added, only
`n.md` is imported, and the result is true. -/
theorem importFiles_true_despite_failures_witness :
    (VFileList.importFiles sampleImportEnv QDateTime.null sampleCtx sampleFileList sampleWorld
      ["/ext/n.md", "/ext/ro.md", "/ext/locked.md"]).map
        (fun r => (r.2.1, r.2.2.1.fileList.map (fun item => item.text)))
      = some (["Fail to add the note /ext/ro.md to target folder's configuration.",
          "Fail to copy file /ext/locked.md as /ext/locked.md."],
          ["A", "B", "C", "D", "E", "n.md"]) ∧
    ∃ r, VFileList.importFiles sampleImportEnv QDateTime.null sampleCtx sampleFileList
        sampleWorld ["/ext/n.md", "/ext/ro.md", "/ext/locked.md"] = some r ∧ r.1 = true := by
  refine ⟨by rfl, _, rfl, ?_⟩
  exact importFiles_true_despite_failures sampleImportEnv QDateTime.null sampleCtx
    sampleFileList sampleWorld ["/ext/n.md", "/ext/ro.md", "/ext/locked.md"] _
    (fun _ f hf => by
      simp only [List.mem_cons, List.mem_singleton, List.not_mem_nil, or_false] at hf
      rcases hf with rfl | rfl | rfl <;> rfl)
    (by simp) rfl

/-- C30: for every outcome of the sort dialog, accepted with any data or
rejected, a sortItems() that returns leaves the File List, its directory with
the file sequence, and the world with every persisted config as they were; the
index vector is computed and dropped. It returns for every directory that is
not null, provided that an accepted dialog on two files or more hands back as
many data as there are files (the assertion of the method). -/
theorem sortItems_changes_nothing (dialog : Option (List Int)) (st : VFileList) (w : World) :
    (∀ r, VFileList.sortItems dialog st w = some r →
      r.2.1 = st ∧ r.2.2 = w ∧ r.2.1.m_directory = st.m_directory ∧
      (∀ path, readDirectoryConfig r.2.2 path = readDirectoryConfig w path) ∧
      (∀ data, r.1 = some data → dialog = some data)) ∧
    (∀ dir, st.m_directory = some dir →
      (∀ data, dialog = some data → 2 ≤ dir.files.length → data.length = dir.files.length) →
      ∃ r, VFileList.sortItems dialog st w = some r) := by
  constructor
  · intro r h
    unfold VFileList.sortItems at h
    split at h
    · cases h
    · dsimp only at h
      split at h
      · simp only [Option.some.injEq] at h
        rw [← h]
        exact ⟨rfl, rfl, rfl, fun _ => rfl, fun _ hd => by cases hd⟩
      · split at h
        · simp only [Option.some.injEq] at h
          rw [← h]
          exact ⟨rfl, rfl, rfl, fun _ => rfl, fun _ hd => by cases hd⟩
        · split at h
          · cases h
          · simp only [Option.some.injEq] at h
            rw [← h]
            exact ⟨rfl, rfl, rfl, fun _ => rfl, fun _ hd => by rw [← Option.some.inj hd]⟩
  · intro dir hdir hdata
    unfold VFileList.sortItems
    rw [hdir]
    dsimp only
    by_cases hlen : dir.files.length < 2
    · rw [if_pos hlen]; exact ⟨_, rfl⟩
    · rw [if_neg hlen]
      cases dialog with
      | none => exact ⟨_, rfl⟩
      | some data =>
        dsimp only
        rw [if_neg (by
          have := hdata data rfl (by omega)
          simp [this])]
        exact ⟨_, rfl⟩

/-- Witness of C30: the dialog on the notes A, B, C, D, E is accepted with the
reversed order; the File List and the world are as before. -/
theorem sortItems_changes_nothing_witness :
    ∃ r, VFileList.sortItems (some [4, 3, 2, 1, 0]) sampleFileList sampleWorld = some r ∧
      r.1 = some [4, 3, 2, 1, 0] ∧ r.2.1 = sampleFileList ∧ r.2.2 = sampleWorld := by
  obtain ⟨r, hr⟩ := (sortItems_changes_nothing (some [4, 3, 2, 1, 0]) sampleFileList
    sampleWorld).2 sampleDir rfl (fun data hd _ => by
      rw [← Option.some.inj hd]
      rfl)
  have h := (sortItems_changes_nothing (some [4, 3, 2, 1, 0]) sampleFileList sampleWorld).1 r hr
  refine ⟨r, hr, ?_, h.1, h.2.1⟩
  have h2 : VFileList.sortItems (some [4, 3, 2, 1, 0]) sampleFileList sampleWorld
      = some (some [4, 3, 2, 1, 0], sampleFileList, sampleWorld) := rfl
  rw [h2] at hr
  rw [← Option.some.inj hr]

theorem VNoteFile.findAttachment_found_iff (f : VNoteFile) (toLower : String → String)
    (p_name : String) :
    f.findAttachment toLower p_name false > -1
      ↔ ∃ a ∈ f.attachments, toLower a = toLower p_name := by
  have hs : (f.attachments.findIdx? (fun a =>
      if false = true then a == p_name else toLower a == toLower p_name)).isSome
      = f.attachments.any (fun a =>
        if false = true then a == p_name else toLower a == toLower p_name) :=
    List.findIdx?_isSome
  have hany : f.attachments.any (fun a =>
      if false = true then a == p_name else toLower a == toLower p_name) = true
      ↔ ∃ a ∈ f.attachments, toLower a = toLower p_name := by
    simp [List.any_eq_true]
  unfold VNoteFile.findAttachment
  cases h : f.attachments.findIdx? (fun a =>
      if false = true then a == p_name else toLower a == toLower p_name) with
  | none =>
    rw [h] at hs
    rw [← hany, ← hs]
    simp
  | some i =>
    rw [h] at hs
    rw [← hany, ← hs]
    simp only [gt_iff_lt, Option.isSome_some, iff_true]
    omega

/-- What handleListItemCommitData does for a committed text that differs from
the old name. -/
theorem VAttachmentList.handleListItemCommitData_eq (toLower : String → String)
    (exactMatch : String → Bool)
    (renameAttachment : VNoteFile → String → String → Bool × VNoteFile)
    (m_file : VNoteFile) (item : AttachmentItem) (t : String)
    (hcur : item.text = t) (hne : t ≠ item.data) :
    VAttachmentList.handleListItemCommitData toLower exactMatch renameAttachment m_file item t
      = if t.isEmpty = true ∨ exactMatch t = false ∨
            (toLower item.data ≠ toLower t ∧ ∃ a ∈ m_file.attachments, toLower a = toLower t) then
          some { item := { item with text := item.data }, m_file := m_file, renameCalls := [],
                 messageShown := false }
        else if (renameAttachment m_file item.data t).1 = true then
          some { item := { item with data := t }, m_file := (renameAttachment m_file item.data t).2,
                 renameCalls := [(item.data, t)], messageShown := false }
        else
          some { item := { item with text := item.data },
                 m_file := (renameAttachment m_file item.data t).2,
                 renameCalls := [(item.data, t)], messageShown := true } := by
  unfold VAttachmentList.handleListItemCommitData
  rw [if_neg (by simpa using hcur)]
  have hne1 : (item.data == t) = false := by simpa using fun h => hne h.symm
  simp only [hne1, Bool.false_eq_true, if_false]
  by_cases he : t.isEmpty = true
  · simp [he]
  · by_cases hm : exactMatch t = false
    · simp [he, hm]
    · have hm1 : exactMatch t = true := by simpa using hm
      by_cases hl : toLower item.data = toLower t
      · simp [he, hm1, hl]
        cases (renameAttachment m_file item.data t).1 <;> simp
      · by_cases hf : ∃ a ∈ m_file.attachments, toLower a = toLower t
        · have hfa := (VNoteFile.findAttachment_found_iff m_file toLower t).2 hf
          simp [he, hm1, hl, hf, hfa]
        · have hfa : ¬ (m_file.findAttachment toLower t false > -1) :=
            fun h => hf ((VNoteFile.findAttachment_found_iff m_file toLower t).1 h)
          simp only [he, hm1, hl, hf, hfa]
          simp
          cases (renameAttachment m_file item.data t).1 <;> simp

/-- C25: for every item of the attachment list with the old name `o` (its data)
and every committed text `t` (its text) with `t ≠ o`: if `t` is empty, or does
not fully match the file-name expression, or equals the name of an attachment
of the note case-insensitively while `t` and `o` differ by more than case, then
handleListItemCommitData makes no call of renameAttachment, restores the text
of the item to `o` and leaves its data and the note alone; otherwise it calls
renameAttachment(o, t) exactly once, the data of the item becomes `t` exactly
when that call succeeds, and after a failed call the text is restored to `o`.
Case-insensitive comparison is comparison after `QString::toLower()`, the case
mapping `toLower` of the toolkit, whatever it maps. -/
theorem commitData_rename_contract (toLower : String → String) (exactMatch : String → Bool)
    (renameAttachment : VNoteFile → String → String → Bool × VNoteFile)
    (m_file : VNoteFile) (item : AttachmentItem) (t : String)
    (hcur : item.text = t) (hne : t ≠ item.data) :
    ((t.isEmpty = true ∨ exactMatch t = false ∨
        (toLower item.data ≠ toLower t ∧ ∃ a ∈ m_file.attachments, toLower a = toLower t)) →
      ∃ o, VAttachmentList.handleListItemCommitData toLower exactMatch renameAttachment m_file
          item t
          = some o ∧
        o.renameCalls = [] ∧ o.item.text = item.data ∧ o.item.data = item.data ∧
        o.m_file = m_file) ∧
    (¬ (t.isEmpty = true ∨ exactMatch t = false ∨
        (toLower item.data ≠ toLower t ∧ ∃ a ∈ m_file.attachments, toLower a = toLower t)) →
      ∃ o, VAttachmentList.handleListItemCommitData toLower exactMatch renameAttachment m_file
          item t
          = some o ∧
        o.renameCalls = [(item.data, t)] ∧
        o.m_file = (renameAttachment m_file item.data t).2 ∧
        (o.item.data = t ↔ (renameAttachment m_file item.data t).1 = true) ∧
        ((renameAttachment m_file item.data t).1 = true → o.item.text = t) ∧
        ((renameAttachment m_file item.data t).1 = false →
          o.item.text = item.data ∧ o.item.data = item.data)) := by
  have h := VAttachmentList.handleListItemCommitData_eq toLower exactMatch renameAttachment
    m_file item t
    hcur hne
  constructor
  · intro hc
    rw [if_pos hc] at h
    exact ⟨_, h, rfl, rfl, rfl, rfl⟩
  · intro hc
    rw [if_neg hc] at h
    cases hr : (renameAttachment m_file item.data t).1 with
    | true =>
      rw [if_pos hr] at h
      exact ⟨_, h, rfl, rfl, ⟨fun _ => rfl, fun _ => rfl⟩, fun _ => hcur,
        (fun hf => by cases hf)⟩
    | false =>
      rw [if_neg (by simp [hr])] at h
      refine ⟨_, h, rfl, rfl, ⟨fun hd => absurd hd.symm hne, (fun hf => by cases hf)⟩,
        (fun hf => by cases hf), fun _ => ⟨rfl, rfl⟩⟩

/-- Witness of C25 on the note with the attachments `a.pdf` and `b.png`: the
text `B.PNG` committed for `a.pdf` collides and is taken back without a call;
the text `c.pdf` is passed to renameAttachment once and becomes the data. -/
theorem commitData_rename_contract_witness :
    (∃ o, VAttachmentList.handleListItemCommitData sampleToLower sampleExactMatch
        sampleRenameAttachment
        sampleNote { text := "B.PNG", data := "a.pdf" } "B.PNG" = some o ∧
      o.renameCalls = [] ∧ o.item.text = "a.pdf" ∧ o.item.data = "a.pdf" ∧
      o.m_file = sampleNote) ∧
    (∃ o, VAttachmentList.handleListItemCommitData sampleToLower sampleExactMatch
        sampleRenameAttachment
        sampleNote { text := "c.pdf", data := "a.pdf" } "c.pdf" = some o ∧
      o.renameCalls = [("a.pdf", "c.pdf")] ∧ o.item.data = "c.pdf" ∧
      o.m_file.attachments = ["c.pdf", "b.png"]) := by
  constructor
  · exact (commitData_rename_contract sampleToLower sampleExactMatch sampleRenameAttachment
      sampleNote
      { text := "B.PNG", data := "a.pdf" } "B.PNG" rfl (by decide)).1
      (Or.inr (Or.inr ⟨by decide, "b.png", by decide, by decide⟩))
  · obtain ⟨o, h1, h2, h3, h4, _⟩ := (commitData_rename_contract sampleToLower sampleExactMatch
      sampleRenameAttachment sampleNote { text := "c.pdf", data := "a.pdf" } "c.pdf" rfl
      (by decide)).2 (by decide)
    refine ⟨o, h1, h2, h4.2 (by decide), ?_⟩
    rw [h3]
    decide

end VNote
